import Mathlib

/-!
# Kourier ingress translation: a shallow embedding

The translation of a Knative `Ingress` into Envoy routes, clusters and virtual
hosts (`pkg/generator/generator.go`) and the vendored helpers `ExpandedHosts`
and `ComputeHash` (`knative.dev/serving/pkg/network/ingress/ingress.go`).

Conventions of the embedding:

* Go `string` is `String`; `int`, `int32`, `uint32` and `time.Duration` are
  `Int`, with the conversion `uint32(x)` written out as `x % 2^32`.
* Go `error` is a `String` message; a call returning `(v, err)` is an `Except`.
* `map[string]string` is an association list in the order in which the map is
  ranged over.
* The `*Caches` receiver is the log of the method calls made on it, in call
  order (`CacheOp`): the methods themselves are not part of the translated
  sources.
* Kubernetes listers and clients are functions bundled in `Env`.
-/

namespace Kourier

/-! ## Kubernetes and Knative objects -/

/-- Type `intstr.IntOrString`, restricted to the two fields that are read. -/
structure IntOrString where
  IntVal : Int
  StrVal : String
  deriving DecidableEq, Repr

/-- Type `kubev1.ServicePort`. -/
structure ServicePort where
  Name : String
  Port : Int
  TargetPort : IntOrString
  deriving DecidableEq, Repr

/-- Type `kubev1.Service`, reduced to `Spec.Ports`. -/
structure Service where
  Ports : List ServicePort
  deriving DecidableEq, Repr

/-- Type `kubev1.EndpointAddress`. -/
structure EndpointAddress where
  IP : String
  deriving DecidableEq, Repr

/-- Type `kubev1.EndpointSubset`. -/
structure EndpointSubset where
  Addresses : List EndpointAddress
  deriving DecidableEq, Repr

/-- Type `kubev1.Endpoints`. -/
structure Endpoints where
  Subsets : List EndpointSubset
  deriving DecidableEq, Repr

/-- Type `v1alpha1.IngressVisibility`. -/
inductive IngressVisibility where
  | ExternalIP
  | ClusterLocal
  deriving DecidableEq, Repr

/-- Type `v1alpha1.IngressBackendSplit` (with the embedded `IngressBackend`). -/
structure IngressBackendSplit where
  ServiceNamespace : String
  ServiceName : String
  ServicePort : IntOrString
  Percent : Int
  AppendHeaders : List (String × String)
  deriving DecidableEq, Repr

/-- Type `v1alpha1.HTTPRetry`; `PerTryTimeout` is a nullable duration. -/
structure HTTPRetry where
  Attempts : Int
  PerTryTimeout : Option Int
  deriving DecidableEq, Repr

/-- Type `v1alpha1.HTTPIngressPath`. -/
structure HTTPIngressPath where
  Path : String
  Splits : List IngressBackendSplit
  AppendHeaders : List (String × String)
  Timeout : Option Int
  Retries : Option HTTPRetry
  deriving DecidableEq, Repr

/-- Type `v1alpha1.HTTPIngressRuleValue`. -/
structure HTTPIngressRuleValue where
  Paths : List HTTPIngressPath
  deriving DecidableEq, Repr

/-- Type `v1alpha1.IngressRule`; `HTTP` is taken to be non-nil. -/
structure IngressRule where
  Hosts : List String
  Visibility : IngressVisibility
  HTTP : HTTPIngressRuleValue
  deriving DecidableEq, Repr

/-- Type `v1alpha1.IngressSpec`. -/
structure IngressSpec where
  Rules : List IngressRule
  Visibility : IngressVisibility
  deriving DecidableEq, Repr

/-- Type `v1alpha1.Ingress`. -/
structure Ingress where
  Name : String
  Namespace : String
  Spec : IngressSpec
  deriving DecidableEq, Repr

/-- Type `kubev1.ObjectReference`. -/
structure ObjectReference where
  Kind : String
  APIVersion : String
  Namespace : String
  Name : String
  deriving DecidableEq, Repr

/-! ## Envoy objects -/

/-- Type `core.HeaderValueOption`. -/
structure HeaderValueOption where
  Key : String
  Value : String
  Append : Bool
  deriving DecidableEq, Repr

/-- Type `core.SocketAddress_Protocol`. -/
inductive SocketProtocol where
  | TCP
  | UDP
  deriving DecidableEq, Repr

/-- Type `endpoint.LbEndpoint`, flattened to its socket address. -/
structure LbEndpoint where
  Protocol : SocketProtocol
  Address : String
  PortValue : Int
  Ipv4Compat : Bool
  deriving DecidableEq, Repr

/-- Type `endpoint.LocalityLbEndpoints`. -/
structure LocalityLbEndpoints where
  LbEndpoints : List LbEndpoint
  Priority : Int
  deriving DecidableEq, Repr

/-- Type `v2.ClusterLoadAssignment`. -/
structure ClusterLoadAssignment where
  ClusterName : String
  Endpoints : List LocalityLbEndpoints
  deriving DecidableEq, Repr

/-- Type `v2.Cluster_DiscoveryType`. -/
inductive DiscoveryType where
  | STATIC
  | STRICT_DNS
  deriving DecidableEq, Repr

/-- Type `v2.Cluster`; `Http2ProtocolOptions` is a nullable empty message. -/
structure Cluster where
  Name : String
  ClusterDiscoveryType : DiscoveryType
  ConnectTimeout : Int
  LoadAssignment : ClusterLoadAssignment
  Http2ProtocolOptions : Option Unit
  deriving DecidableEq, Repr

/-- Type `route.WeightedCluster_ClusterWeight`. -/
structure ClusterWeight where
  Name : String
  Weight : Int
  RequestHeadersToAdd : List HeaderValueOption
  deriving DecidableEq, Repr

/-- Type `route.RetryPolicy`. -/
structure RetryPolicy where
  RetryOn : String
  NumRetries : Int
  PerTryTimeout : Int
  deriving DecidableEq, Repr

/-- Type `route.RouteAction_UpgradeConfig`. -/
structure UpgradeConfig where
  UpgradeType : String
  Enabled : Bool
  deriving DecidableEq, Repr

/-- Type `route.Route` with a prefix match and a weighted-clusters action. -/
structure Route where
  Name : String
  Prefix : String
  Clusters : List ClusterWeight
  Timeout : Int
  UpgradeConfigs : List UpgradeConfig
  RetryPolicy : Option RetryPolicy
  RequestHeadersToAdd : List HeaderValueOption
  deriving DecidableEq, Repr

/-- Type `route.VirtualHost`. -/
structure VirtualHost where
  Name : String
  Domains : List String
  Routes : List Route
  deriving DecidableEq, Repr

/-! ## The collaborators of the translation -/

/-- One method call on `*Caches`, with its arguments. -/
inductive CacheOp where
  | AddIngress (ingress : Ingress)
  | AddCluster (cluster : Cluster) (serviceName serviceNamespace path : String)
  | AddRoute (route : Route) (ingressName ingressNamespace : String)
  | AddExternalVirtualHostForIngress (vHost : VirtualHost) (ingressName ingressNamespace : String)
  | AddInternalVirtualHostForIngress (vHost : VirtualHost) (ingressName ingressNamespace : String)
  | DeleteIngressInfo (ingressName ingressNamespace : String)
  | AddStatusVirtualHost
  | SetListeners
  deriving DecidableEq, Repr

/-- The lookups the translation performs and the helpers of package `knative`
that it calls (`ExternalDomains`, `InternalDomains`, `RuleIsExternal`).
`tracker` is `none` for a nil tracker; `Track` returns `some err` on failure. -/
structure Env where
  endpoints : String → String → Except String Endpoints
  tracker : Option (ObjectReference → Ingress → Option String)
  services : String → String → Except String Service
  ExternalDomains : IngressRule → String → List String
  InternalDomains : IngressRule → String → List String
  RuleIsExternal : IngressRule → IngressVisibility → Bool

/-! ## `pkg/generator/generator.go` -/

/-- Go conversion `uint32(x)`. -/
def toUint32 (x : Int) : Int := x % 4294967296

/-- Go `strconv.Itoa`. -/
def Itoa (i : Int) : String :=
  if i < 0 then "-" ++ Nat.repr i.natAbs else Nat.repr i.toNat

/-- Go `max` of `generator.go`. -/
def max (x y : Int) : Int :=
  if x ≥ y then x else y

/-- Go `headersToAdd`. -/
def headersToAdd (headers : List (String × String)) : List HeaderValueOption :=
  headers.foldl (fun res kv => res ++ [{ Key := kv.1, Value := kv.2, Append := true }]) []

/-- Go `lbEndpointsForKubeEndpoints`. -/
def lbEndpointsForKubeEndpoints (kubeEndpoints : Endpoints) (targetPort : Int) :
    List LbEndpoint :=
  kubeEndpoints.Subsets.foldl
    (fun publicLbEndpoints subset =>
      subset.Addresses.foldl
        (fun acc address =>
          acc ++ [{ Protocol := SocketProtocol.TCP
                    Address := address.IP
                    PortValue := toUint32 targetPort
                    Ipv4Compat := true }])
        publicLbEndpoints)
    []

/-- Go `createRetryPolicyForRoute`. -/
def createRetryPolicyForRoute (httpPath : HTTPIngressPath) : Option RetryPolicy :=
  let attempts : Int :=
    match httpPath.Retries with
    | some r => r.Attempts
    | none => 0
  let perTryTimeout : Int :=
    match httpPath.Retries with
    | some r =>
      match r.PerTryTimeout with
      | some d => d
      | none => 0
    | none => 0
  if attempts > 0 then
    some { RetryOn := "5xx", NumRetries := toUint32 attempts, PerTryTimeout := perTryTimeout }
  else
    none

/-- Go `createRouteForRevision`. -/
def createRouteForRevision (routeName : String) (i : Int) (httpPath : HTTPIngressPath)
    (wrs : List ClusterWeight) : Route :=
  let path := if httpPath.Path ≠ "" then httpPath.Path else "/"
  let routeTimeout : Int :=
    match httpPath.Timeout with
    | some d => d
    | none => 0
  { Name := routeName ++ "_" ++ Itoa i
    Prefix := path
    Clusters := wrs
    Timeout := routeTimeout
    UpgradeConfigs := [{ UpgradeType := "websocket", Enabled := true }]
    RetryPolicy := createRetryPolicyForRoute httpPath
    RequestHeadersToAdd := headersToAdd httpPath.AppendHeaders }

/-- Go `weightedCluster`. -/
def weightedCluster (revisionName : String) (trafficPerc : Int) (path : String)
    (headers : List (String × String)) : ClusterWeight :=
  { Name := revisionName ++ path
    Weight := trafficPerc
    RequestHeadersToAdd := headersToAdd headers }

/-- Go `clusterForRevision`. -/
def clusterForRevision (revisionName : String) (connectTimeout : Int)
    (publicLbEndpoints : List LbEndpoint) (http2 : Bool) (path : String) : Cluster :=
  let cluster : Cluster :=
    { Name := revisionName ++ path
      ClusterDiscoveryType := DiscoveryType.STRICT_DNS
      ConnectTimeout := connectTimeout
      LoadAssignment :=
        { ClusterName := revisionName ++ path
          Endpoints := [{ LbEndpoints := publicLbEndpoints, Priority := 1 }] }
      Http2ProtocolOptions := none }
  if http2 then { cluster with Http2ProtocolOptions := some () } else cluster

/-- The loop over `service.Spec.Ports` in `addIngressToCaches`: the state is
`(targetPort, http2)`, started at the zero values `(0, false)`. -/
def portLoop (ports : List ServicePort) (servicePort : IntOrString) : Int × Bool :=
  ports.foldl
    (fun st port =>
      if port.Port = servicePort.IntVal ∨ port.Name = servicePort.StrVal then
        (port.TargetPort.IntVal, decide (port.Name = "http2" ∨ port.Name = "h2c"))
      else st)
    (0, false)

/-- State of the loop over `httpPath.Splits`: the calls made on `caches` so
far and the local `wrs`. -/
structure SplitState where
  caches : List CacheOp
  wrs : List ClusterWeight
  deriving DecidableEq, Repr

/-- One iteration of the loop over `httpPath.Splits` in `addIngressToCaches`:
`none` when the iteration leaves the loop through one of the three `break`s,
the next state otherwise. -/
def splitBody (env : Env) (ingress : Ingress) (path : String) (st : SplitState)
    (split : IngressBackendSplit) : Option SplitState :=
  let headersSplit := split.AppendHeaders
  match env.endpoints split.ServiceNamespace split.ServiceName with
  | .error _ => none
  | .ok endpoints =>
    let ref : ObjectReference :=
      { Kind := "Endpoints", APIVersion := "v1"
        Namespace := ingress.Namespace, Name := split.ServiceName }
    let tracked : Option String :=
      match env.tracker with
      | some track => track ref ingress
      | none => none
    match tracked with
    | some _ => none
    | none =>
      match env.services split.ServiceNamespace split.ServiceName with
      | .error _ => none
      | .ok service =>
        let targetPort := (portLoop service.Ports split.ServicePort).1
        let http2 := (portLoop service.Ports split.ServicePort).2
        let publicLbEndpoints := lbEndpointsForKubeEndpoints endpoints targetPort
        let connectTimeout : Int := 5 * 1000000000
        let cluster :=
          clusterForRevision split.ServiceName connectTimeout publicLbEndpoints http2 path
        let weighted :=
          weightedCluster split.ServiceName (toUint32 split.Percent) path headersSplit
        some
          { caches := st.caches ++
              [CacheOp.AddCluster cluster split.ServiceName split.ServiceNamespace path]
            wrs := st.wrs ++ [weighted] }

/-- The loop over `httpPath.Splits` in `addIngressToCaches`; a `break` returns
the state reached so far. -/
def splitLoop (env : Env) (ingress : Ingress) (path : String) :
    List IngressBackendSplit → SplitState → SplitState
  | [], st => st
  | split :: rest, st =>
    match splitBody env ingress path st split with
    | none => st
    | some st' => splitLoop env ingress path rest st'

/-- State of the loop over `rule.HTTP.Paths`: the calls made on `caches` so
far and the local `ruleRoute`. -/
structure PathState where
  caches : List CacheOp
  ruleRoute : List Route
  deriving DecidableEq, Repr

/-- Body of the loop over `rule.HTTP.Paths` in `addIngressToCaches`. -/
def pathBody (env : Env) (ingress : Ingress) (index : Int) (st : PathState)
    (httpPath : HTTPIngressPath) : PathState :=
  let path := if httpPath.Path ≠ "" then httpPath.Path else "/"
  let sp := splitLoop env ingress path httpPath.Splits { caches := st.caches, wrs := [] }
  let r := createRouteForRevision ingress.Name index httpPath sp.wrs
  { caches := sp.caches ++ [CacheOp.AddRoute r ingress.Name ingress.Namespace]
    ruleRoute := st.ruleRoute ++ [r] }

/-- State of the loop over the rules: the calls made on `caches` so far and
the locals `clusterLocalVirtualHosts` and `externalVirtualHosts`. -/
structure RuleState where
  caches : List CacheOp
  clusterLocalVirtualHosts : List VirtualHost
  externalVirtualHosts : List VirtualHost
  deriving DecidableEq, Repr

/-- Body of the loop over `ingress.GetSpec().Rules` in `addIngressToCaches`. -/
def ruleBody (env : Env) (ingress : Ingress) (localDomainName : String) (index : Int)
    (st : RuleState) (rule : IngressRule) : RuleState :=
  let ps := rule.HTTP.Paths.foldl (pathBody env ingress index)
    { caches := st.caches, ruleRoute := [] }
  let ruleRoute := ps.ruleRoute
  let externalDomains := env.ExternalDomains rule localDomainName
  let virtualHost : VirtualHost :=
    { Name := ingress.Name, Domains := externalDomains, Routes := ruleRoute }
  let internalDomains := env.InternalDomains rule localDomainName ++ externalDomains
  let internalVirtualHost : VirtualHost :=
    { Name := ingress.Name, Domains := internalDomains, Routes := ruleRoute }
  let externalVirtualHosts :=
    if env.RuleIsExternal rule ingress.Spec.Visibility then
      st.externalVirtualHosts ++ [virtualHost]
    else st.externalVirtualHosts
  { caches := ps.caches
    clusterLocalVirtualHosts := st.clusterLocalVirtualHosts ++ [internalVirtualHost]
    externalVirtualHosts := externalVirtualHosts }

/-- Go `addIngressToCaches`: the calls made on `caches`, appended to the calls
`caches` that were made before. -/
def addIngressToCaches (env : Env) (caches : List CacheOp) (ingress : Ingress)
    (localDomainName : String) (index : Int) : List CacheOp :=
  let caches := caches ++ [CacheOp.AddIngress ingress]
  let st := ingress.Spec.Rules.foldl (ruleBody env ingress localDomainName index)
    { caches := caches, clusterLocalVirtualHosts := [], externalVirtualHosts := [] }
  let caches := st.externalVirtualHosts.foldl
    (fun c vHost =>
      c ++ [CacheOp.AddExternalVirtualHostForIngress vHost ingress.Name ingress.Namespace])
    st.caches
  st.clusterLocalVirtualHosts.foldl
    (fun c vHost =>
      c ++ [CacheOp.AddInternalVirtualHostForIngress vHost ingress.Name ingress.Namespace])
    caches

/-- Go `UpdateInfoForIngress`. `lenLocal` and `lenExternal` are the sizes of
`caches.localVirtualHostsForIngress` and `caches.externalVirtualHostsForIngress`
once `DeleteIngressInfo` has returned. -/
def UpdateInfoForIngress (env : Env) (caches : List CacheOp) (ingress : Ingress)
    (localDomainName : String) (lenLocal lenExternal : Int) : List CacheOp :=
  let caches := caches ++ [CacheOp.DeleteIngressInfo ingress.Name ingress.Namespace]
  let index := Kourier.max lenLocal lenExternal
  let caches := addIngressToCaches env caches ingress localDomainName index
  let caches := caches ++ [CacheOp.AddStatusVirtualHost]
  caches ++ [CacheOp.SetListeners]

/-! ## Reading a log of `Caches` calls -/

/-- The routes passed to `AddRoute`, in call order. -/
def routesAdded (ops : List CacheOp) : List Route :=
  ops.filterMap fun op =>
    match op with
    | .AddRoute r _ _ => some r
    | _ => none

/-- The clusters passed to `AddCluster`, in call order. -/
def clustersAdded (ops : List CacheOp) : List Cluster :=
  ops.filterMap fun op =>
    match op with
    | .AddCluster c _ _ _ => some c
    | _ => none

/-- The virtual hosts passed to `AddExternalVirtualHostForIngress`, in call order. -/
def externalVirtualHostsAdded (ops : List CacheOp) : List VirtualHost :=
  ops.filterMap fun op =>
    match op with
    | .AddExternalVirtualHostForIngress v _ _ => some v
    | _ => none

/-- The virtual hosts passed to `AddInternalVirtualHostForIngress`, in call order. -/
def internalVirtualHostsAdded (ops : List CacheOp) : List VirtualHost :=
  ops.filterMap fun op =>
    match op with
    | .AddInternalVirtualHostForIngress v _ _ => some v
    | _ => none

/-- Whether a call registers a virtual host. -/
def CacheOp.isVirtualHostOp : CacheOp → Bool
  | .AddExternalVirtualHostForIngress _ _ _ => true
  | .AddInternalVirtualHostForIngress _ _ _ => true
  | _ => false

/-- The path loop of one rule run on `paths` from an empty log. -/
def pathsTranslation (env : Env) (ingress : Ingress) (index : Int)
    (paths : List HTTPIngressPath) : PathState :=
  paths.foldl (pathBody env ingress index) { caches := [], ruleRoute := [] }

/-- The rule loop run on `rules` from an empty log. -/
def rulesTranslation (env : Env) (ingress : Ingress) (localDomainName : String) (index : Int)
    (rules : List IngressRule) : RuleState :=
  rules.foldl (ruleBody env ingress localDomainName index)
    { caches := [], clusterLocalVirtualHosts := [], externalVirtualHosts := [] }

/-- The three lookups of one split all succeed: no `break` is taken. -/
def lookupsSucceed (env : Env) (ingress : Ingress) (split : IngressBackendSplit) : Prop :=
  (∃ e, env.endpoints split.ServiceNamespace split.ServiceName = .ok e) ∧
  (∀ track, env.tracker = some track →
    track { Kind := "Endpoints", APIVersion := "v1"
            Namespace := ingress.Namespace, Name := split.ServiceName } ingress = none) ∧
  (∃ svc, env.services split.ServiceNamespace split.ServiceName = .ok svc)

/-- The endpoints lookup or the service lookup of one split fails. -/
def lookupFails (env : Env) (split : IngressBackendSplit) : Prop :=
  (∃ err, env.endpoints split.ServiceNamespace split.ServiceName = .error err) ∨
  (∃ err, env.services split.ServiceNamespace split.ServiceName = .error err)

/-- A port of a service is selected by the port reference of a split. -/
def portMatches (servicePort : IntOrString) (port : ServicePort) : Prop :=
  port.Port = servicePort.IntVal ∨ port.Name = servicePort.StrVal

instance (servicePort : IntOrString) (port : ServicePort) :
    Decidable (portMatches servicePort port) := by
  unfold portMatches; infer_instance

/-! ## `knative.dev/serving/pkg/network/ingress/ingress.go` -/

/-- Go `strings.HasSuffix`: `len(s) >= len(suffix) && s[len(s)-len(suffix):] == suffix`. -/
def HasSuffix (s suffix : String) : Bool :=
  decide (s.length ≥ suffix.length) &&
    decide (s.data.drop (s.length - suffix.length) = suffix.data)

/-- Go `strings.TrimSuffix`: `s[:len(s)-len(suffix)]` when `s` has the suffix,
`s` otherwise. -/
def TrimSuffix (s suffix : String) : String :=
  if HasSuffix s suffix then String.mk (s.data.take (s.length - suffix.length)) else s

/-- Go `ExpandedHosts`. A `sets.String` is a finite set of strings, `List()`
its sorted list of elements; `clusterDomainName` is the value of
`network.GetClusterDomainName()`. -/
def ExpandedHosts (clusterDomainName : String) (hosts : Finset String) : Finset String :=
  let allowedSuffixes : List String :=
    ["", "." ++ clusterDomainName, ".svc." ++ clusterDomainName]
  (hosts.sort (fun a b => a ≤ b)).foldl
    (fun expanded h =>
      allowedSuffixes.foldl
        (fun expanded suffix =>
          if HasSuffix h suffix then insert (TrimSuffix h suffix) expanded else expanded)
        expanded)
    ∅

/-- Go conversion `[]byte(s)`: the UTF-8 bytes of a string, as byte values. -/
def stringBytes (s : String) : List Nat :=
  (s.data.map (fun c => (String.utf8EncodeChar c).map UInt8.toNat)).flatten

/-- Go `ComputeHash`, returning the pair `(digest, err)`. `jsonMarshal` is
`json.Marshal` on an ingress spec and `Sum256` is `sha256.Sum256`; byte slices
and the 32-byte digest are lists of byte values. -/
def ComputeHash (jsonMarshal : IngressSpec → Except String (List Nat))
    (Sum256 : List Nat → List Nat) (ing : Ingress) : List Nat × Option String :=
  match jsonMarshal ing.Spec with
  | .error err => (List.replicate 32 0, some ("failed to serialize Ingress: " ++ err))
  | .ok bytes =>
    let bytes := bytes ++ stringBytes ing.Namespace
    let bytes := bytes ++ stringBytes ing.Name
    (Sum256 bytes, none)

/-- Every route a log hands to the caches: through `AddRoute` and inside the
internal and external virtual hosts. -/
def routesEmitted (ops : List CacheOp) : List Route :=
  routesAdded ops ++
    ((internalVirtualHostsAdded ops).map (fun v => v.Routes)).flatten ++
    ((externalVirtualHostsAdded ops).map (fun v => v.Routes)).flatten

/-! ## Concrete inputs -/

/-- A cluster in which service `foo` has one endpoint and one `h2c` port, and
no other service is visible. -/
def exampleEnv : Env :=
  { endpoints := fun _ name =>
      if name = "foo" then .ok { Subsets := [{ Addresses := [{ IP := "10.0.0.1" }] }] }
      else .error "endpoints not found"
    tracker := none
    services := fun _ name =>
      if name = "foo" then
        .ok { Ports := [{ Name := "h2c", Port := 80, TargetPort := { IntVal := 8080, StrVal := "" } }] }
      else .error "service not found"
    ExternalDomains := fun rule _ => rule.Hosts
    InternalDomains := fun _ _ => []
    RuleIsExternal := fun rule _ => decide (rule.Visibility = IngressVisibility.ExternalIP) }

/-- A split sending `percent` of the traffic to port 80 of `default/name`. -/
def exampleSplit (name : String) (percent : Int) : IngressBackendSplit :=
  { ServiceNamespace := "default", ServiceName := name
    ServicePort := { IntVal := 80, StrVal := "" }, Percent := percent, AppendHeaders := [] }

/-- A path with an empty prefix and the given splits. -/
def examplePath (splits : List IngressBackendSplit) : HTTPIngressPath :=
  { Path := "", Splits := splits, AppendHeaders := [], Timeout := none, Retries := none }

/-- An external rule for one host with the given paths. -/
def exampleRule (host : String) (paths : List HTTPIngressPath) : IngressRule :=
  { Hosts := [host], Visibility := IngressVisibility.ExternalIP, HTTP := { Paths := paths } }

/-- An ingress `default/ing` with the given rules. -/
def exampleIngress (rules : List IngressRule) : Ingress :=
  { Name := "ing", Namespace := "default"
    Spec := { Rules := rules, Visibility := IngressVisibility.ExternalIP } }

/-! ## Status routes (`pkg/generator/generator.go`) -/

/-- Type `route.Route` with an exact path match and a direct-response action. -/
structure DirectResponseRoute where
  Name : String
  Path : String
  Status : Int
  deriving DecidableEq, Repr

/-- Type `route.VirtualHost` whose routes are direct responses. -/
structure StatusVirtualHost where
  Name : String
  Domains : List String
  Routes : List DirectResponseRoute
  deriving DecidableEq, Repr

/-- One lower-case hexadecimal digit. -/
def hexDigit (n : Nat) : Char :=
  if n < 10 then Char.ofNat (48 + n) else Char.ofNat (87 + n)

/-- Go `fmt.Sprintf("%x", hash)` on a byte array: two hexadecimal digits per
byte, without separators. -/
def hexEncode (hash : List Nat) : String :=
  String.mk (hash.map (fun b => [hexDigit (b / 16 % 16), hexDigit (b % 16)])).flatten

/-- The first loop of `internalKourierRoutes`, collecting `hashes`; it is left
through `break` at the first ingress whose hash cannot be computed.
`ComputeIngressHash` is `resources.ComputeIngressHash`. -/
def hashLoop (ComputeIngressHash : Ingress → Except String (List Nat)) :
    List Ingress → List String → List String
  | [], hashes => hashes
  | ingress :: rest, hashes =>
    match ComputeIngressHash ingress with
    | .error _ => hashes
    | .ok hash => hashLoop ComputeIngressHash rest (hashes ++ [hexEncode hash])

/-- Go `internalKourierRoutes`. `InternalKourierDomain` and
`InternalKourierPath` are the constants of package `config`; `http.StatusOK`
is 200. -/
def internalKourierRoutes (InternalKourierDomain InternalKourierPath : String)
    (ComputeIngressHash : Ingress → Except String (List Nat)) (ingresses : List Ingress) :
    List DirectResponseRoute :=
  let hashes := hashLoop ComputeIngressHash ingresses []
  let routes := hashes.foldl
    (fun routes hash =>
      routes ++ [{ Name := InternalKourierDomain ++ "_" ++ hash
                   Path := InternalKourierPath ++ "/" ++ hash
                   Status := 200 }])
    []
  let staticRoute : DirectResponseRoute :=
    { Name := InternalKourierDomain, Path := InternalKourierPath, Status := 200 }
  routes ++ [staticRoute]

/-- Go `internalKourierVirtualHost`. -/
def internalKourierVirtualHost (InternalKourierDomain : String)
    (ikrs : List DirectResponseRoute) : StatusVirtualHost :=
  { Name := InternalKourierDomain, Domains := [InternalKourierDomain], Routes := ikrs }

/-! ## `pkg/envoy/envoy.go` -/

namespace envoy

/-- Type `kubev1.EndpointsList`. -/
structure EndpointsList where
  Items : List Endpoints
  deriving DecidableEq, Repr

/-- The part of a `v1alpha1.IngressAccessor` that `SetSnapshotForClusterIngresses`
reads while it builds the resources: the labels and the spec. -/
structure IngressAccessor where
  Labels : List (String × String)
  Spec : IngressSpec
  deriving DecidableEq, Repr

/-- The two lookups of `kubernetes.KubernetesClient` that the translation calls. -/
structure KubernetesClient where
  EndpointsForRevision : String → String → Except String EndpointsList
  ServiceForRevision : String → String → Except String Service

/-- Go map index `labels[key]`: the empty string when the key is absent. -/
def labelValue (labels : List (String × String)) (key : String) : String :=
  match labels.lookup key with
  | some v => v
  | none => ""

/-- Go `getRouteNamespace`. -/
def getRouteNamespace (ingress : IngressAccessor) : String :=
  labelValue ingress.Labels "serving.knative.dev/routeNamespace"

/-- Go `getRouteName`. -/
def getRouteName (ingress : IngressAccessor) : String :=
  labelValue ingress.Labels "serving.knative.dev/route"

/-- Go `createRouteForRevision` of package `envoy`: as in package `generator`
but without upgrade configs. -/
def createRouteForRevision (routeName : String) (i : Int) (httpPath : HTTPIngressPath)
    (wrs : List ClusterWeight) : Route :=
  let path := if httpPath.Path ≠ "" then httpPath.Path else "/"
  let routeTimeout : Int :=
    match httpPath.Timeout with
    | some d => d
    | none => 0
  { Name := routeName ++ "_" ++ Itoa i
    Prefix := path
    Clusters := wrs
    Timeout := routeTimeout
    UpgradeConfigs := []
    RetryPolicy := createRetryPolicyForRoute httpPath
    RequestHeadersToAdd := headersToAdd httpPath.AppendHeaders }

/-- Go `lbEndpointsForKubeEndpoints` of package `envoy`, over an endpoints list. -/
def lbEndpointsForKubeEndpoints (kubeEndpoints : EndpointsList) (targetPort : Int) :
    List LbEndpoint :=
  kubeEndpoints.Items.foldl
    (fun result kubeEndpoint =>
      kubeEndpoint.Subsets.foldl
        (fun result subset =>
          subset.Addresses.foldl
            (fun result address =>
              result ++ [{ Protocol := SocketProtocol.TCP
                           Address := address.IP
                           PortValue := toUint32 targetPort
                           Ipv4Compat := true }])
            result)
        result)
    []

/-- Go `clusterForRevision` of package `envoy`: the locality has no explicit
priority, which is the zero value. -/
def clusterForRevision (revisionName : String) (connectTimeout : Int)
    (lbEndpoints : List LbEndpoint) (http2 : Bool) (path : String) : Cluster :=
  let cluster : Cluster :=
    { Name := revisionName ++ path
      ClusterDiscoveryType := DiscoveryType.STRICT_DNS
      ConnectTimeout := connectTimeout
      LoadAssignment :=
        { ClusterName := revisionName ++ path
          Endpoints := [{ LbEndpoints := lbEndpoints, Priority := 0 }] }
      Http2ProtocolOptions := none }
  if http2 then { cluster with Http2ProtocolOptions := some () } else cluster

/-- State of the loop over `httpPath.Splits`. -/
structure SplitState where
  clusterCache : List Cluster
  wrs : List ClusterWeight
  deriving DecidableEq, Repr

/-- One iteration of the loop over `httpPath.Splits` in
`SetSnapshotForClusterIngresses`: `none` when it leaves the loop through one
of the two `break`s. The loop over the service ports and the functions
`weightedCluster`, `headersToAdd` and `createRetryPolicyForRoute` read the same
in both packages. -/
def splitBody (kubeClient : KubernetesClient) (path : String) (st : SplitState)
    (split : IngressBackendSplit) : Option SplitState :=
  let headersSplit := split.AppendHeaders
  match kubeClient.EndpointsForRevision split.ServiceNamespace split.ServiceName with
  | .error _ => none
  | .ok endpointList =>
    match kubeClient.ServiceForRevision split.ServiceNamespace split.ServiceName with
    | .error _ => none
    | .ok service =>
      let targetPort := (portLoop service.Ports split.ServicePort).1
      let http2 := (portLoop service.Ports split.ServicePort).2
      let lbEndpoints := lbEndpointsForKubeEndpoints endpointList targetPort
      let connectTimeout : Int := 5 * 1000000000
      let cluster := clusterForRevision split.ServiceName connectTimeout lbEndpoints http2 path
      let weighted :=
        weightedCluster split.ServiceName (toUint32 split.Percent) path headersSplit
      some { clusterCache := st.clusterCache ++ [cluster], wrs := st.wrs ++ [weighted] }

/-- The loop over `httpPath.Splits` in `SetSnapshotForClusterIngresses`. -/
def splitLoop (kubeClient : KubernetesClient) (path : String) :
    List IngressBackendSplit → SplitState → SplitState
  | [], st => st
  | split :: rest, st =>
    match splitBody kubeClient path st split with
    | none => st
    | some st' => splitLoop kubeClient path rest st'

/-- State of the loop over `rule.HTTP.Paths`. -/
structure PathState where
  routeCache : List Route
  clusterCache : List Cluster
  ruleRoute : List Route
  deriving DecidableEq, Repr

/-- Body of the loop over `rule.HTTP.Paths` in `SetSnapshotForClusterIngresses`. -/
def pathBody (kubeClient : KubernetesClient) (routeName : String) (i : Int) (st : PathState)
    (httpPath : HTTPIngressPath) : PathState :=
  let path := if httpPath.Path ≠ "" then httpPath.Path else "/"
  let sp := splitLoop kubeClient path httpPath.Splits
    { clusterCache := st.clusterCache, wrs := [] }
  let r := createRouteForRevision routeName i httpPath sp.wrs
  { routeCache := st.routeCache ++ [r]
    clusterCache := sp.clusterCache
    ruleRoute := st.ruleRoute ++ [r] }

/-- The resources `SetSnapshotForClusterIngresses` collects: the virtual hosts
handed to the connection manager and the route and cluster caches of the
snapshot. -/
structure Resources where
  virtualHosts : List VirtualHost
  routeCache : List Route
  clusterCache : List Cluster
  deriving DecidableEq, Repr

/-- Body of the loop over `ingress.GetSpec().Rules` in
`SetSnapshotForClusterIngresses`. -/
def ruleBody (kubeClient : KubernetesClient) (routeName : String) (i : Int) (st : Resources)
    (rule : IngressRule) : Resources :=
  let domains := rule.Hosts
  let ps := rule.HTTP.Paths.foldl (pathBody kubeClient routeName i)
    { routeCache := st.routeCache, clusterCache := st.clusterCache, ruleRoute := [] }
  let virtualHost : VirtualHost :=
    { Name := routeName, Domains := domains, Routes := ps.ruleRoute }
  { virtualHosts := st.virtualHosts ++ [virtualHost]
    routeCache := ps.routeCache
    clusterCache := ps.clusterCache }

/-- Body of the loop `for i, ingress := range Ingresses`; the state carries the
index `i` of the next ingress. -/
def ingressBody (kubeClient : KubernetesClient) (st : Resources × Int)
    (ingress : IngressAccessor) : Resources × Int :=
  let i := st.2
  let routeName := getRouteName ingress
  (ingress.Spec.Rules.foldl (ruleBody kubeClient routeName i) st.1, i + 1)

/-- Go `SetSnapshotForClusterIngresses`, up to the resources it has collected
when the loops end; building the listener and the snapshot, publishing it and
marking the ingresses ready are left out. -/
def SetSnapshotForClusterIngresses (kubeClient : KubernetesClient)
    (Ingresses : List IngressAccessor) : Resources :=
  (Ingresses.foldl (ingressBody kubeClient)
    ({ virtualHosts := [], routeCache := [], clusterCache := [] }, 0)).1

/-- A client that resolves every service to no endpoints and no ports. -/
def exampleKubeClient : KubernetesClient :=
  { EndpointsForRevision := fun _ _ => .ok { Items := [] }
    ServiceForRevision := fun _ _ => .ok { Ports := [] } }

/-- An ingress of route `r` with the given rules. -/
def exampleAccessor (rules : List IngressRule) : IngressAccessor :=
  { Labels := [("serving.knative.dev/route", "r")]
    Spec := { Rules := rules, Visibility := IngressVisibility.ExternalIP } }

end envoy

/-! ## Listeners (`pkg/generator/generator.go`) -/

/-- Constant `envCertsSecretNamespace`. -/
def envCertsSecretNamespace : String := "CERTS_SECRET_NAMESPACE"

/-- Constant `envCertsSecretName`. -/
def envCertsSecretName : String := "CERTS_SECRET_NAME"

/-- Constant `certFieldInSecret`. -/
def certFieldInSecret : String := "tls.crt"

/-- Constant `keyFieldInSecret`. -/
def keyFieldInSecret : String := "tls.key"

/-- Type `kubev1.Secret`, reduced to `Data`, with the byte slices as strings. -/
structure Secret where
  Data : List (String × String)
  deriving DecidableEq, Repr

/-- Type `httpconnmanagerv2.HttpConnectionManager`, as far as the generator
builds it: from a list of virtual hosts. -/
structure HttpConnectionManager where
  VirtualHosts : List VirtualHost
  deriving DecidableEq, Repr

/-- Type `v2.Listener`, as far as the listener constructors of package `envoy`
are described: a port, the connection manager and, for HTTPS, the certificate
chain and the private key. -/
structure Listener where
  Port : Int
  Manager : HttpConnectionManager
  Tls : Option (String × String)
  deriving DecidableEq, Repr

/-- What the listener functions of the generator depend on: the process
environment (`os.Getenv`), the secret lookup of the Kubernetes client, the
constructors `NewHttpConnectionManager`, `NewHTTPListener` and
`NewHTTPSListener` of package `envoy` and the port constants of package
`config`. -/
structure ListenerEnv where
  Getenv : String → String
  GetSecret : String → String → Except String Secret
  NewHttpConnectionManager : List VirtualHost → HttpConnectionManager
  NewHTTPListener : HttpConnectionManager → Int → Except String Listener
  NewHTTPSListener : HttpConnectionManager → Int → String → String → Except String Listener
  HttpPortExternal : Int
  HttpsPortExternal : Int
  HttpPortInternal : Int

/-- Go `string(secret.Data[key])`: the empty string when the key is absent. -/
def secretField (data : List (String × String)) (key : String) : String :=
  match data.lookup key with
  | some v => v
  | none => ""

/-- Go `useHTTPSListener`. -/
def useHTTPSListener (env : ListenerEnv) : Bool :=
  decide (env.Getenv envCertsSecretNamespace ≠ "") &&
    decide (env.Getenv envCertsSecretName ≠ "")

/-- Go `sslCreds`: the secrets it has read, as `(namespace, name)` pairs, and
the triple `(certificateChain, privateKey, err)` it returns. -/
def sslCreds (env : ListenerEnv) : List (String × String) × (String × String × Option String) :=
  let reads := [(env.Getenv envCertsSecretNamespace, env.Getenv envCertsSecretName)]
  match env.GetSecret (env.Getenv envCertsSecretNamespace) (env.Getenv envCertsSecretName) with
  | .error err => (reads, ("", "", some err))
  | .ok secret =>
    let certificateChain := secretField secret.Data certFieldInSecret
    let privateKey := secretField secret.Data keyFieldInSecret
    (reads, (certificateChain, privateKey, none))

/-- Go `newExternalEnvoyListener`: the secrets it has read and the pair
`(listener, err)` it returns. -/
def newExternalEnvoyListener (env : ListenerEnv) (manager : HttpConnectionManager) :
    List (String × String) × Except String Listener :=
  if useHTTPSListener env then
    match (sslCreds env).2.2.2 with
    | some err => ((sslCreds env).1, .error err)
    | none =>
      ((sslCreds env).1,
        env.NewHTTPSListener manager env.HttpsPortExternal (sslCreds env).2.1 (sslCreds env).2.2.1)
  else
    ([], env.NewHTTPListener manager env.HttpPortExternal)

/-- Go `newInternalEnvoyListener`. -/
def newInternalEnvoyListener (env : ListenerEnv) (manager : HttpConnectionManager) :
    Except String Listener :=
  env.NewHTTPListener manager env.HttpPortInternal

/-- Go `listenersFromVirtualHosts`; `.error err` stands for `panic(err)`. -/
def listenersFromVirtualHosts (env : ListenerEnv) (externalVirtualHosts : List VirtualHost)
    (clusterLocalVirtualHosts : List VirtualHost) : Except String (List Listener) :=
  let externalManager := env.NewHttpConnectionManager externalVirtualHosts
  let internalManager := env.NewHttpConnectionManager clusterLocalVirtualHosts
  match (newExternalEnvoyListener env externalManager).2 with
  | .error err => .error err
  | .ok externalEnvoyListener =>
    match newInternalEnvoyListener env internalManager with
    | .error err => .error err
    | .ok internalEnvoyListener => .ok [externalEnvoyListener, internalEnvoyListener]

/-- An environment with the given variables and secret lookup, whose listener
constructors never fail and record their arguments. -/
def exampleListenerEnv (getenv : String → String)
    (getSecret : String → String → Except String Secret) : ListenerEnv :=
  { Getenv := getenv
    GetSecret := getSecret
    NewHttpConnectionManager := fun vhs => { VirtualHosts := vhs }
    NewHTTPListener := fun m port => .ok { Port := port, Manager := m, Tls := none }
    NewHTTPSListener := fun m port chain key =>
      .ok { Port := port, Manager := m, Tls := some (chain, key) }
    HttpPortExternal := 8080
    HttpsPortExternal := 8443
    HttpPortInternal := 8081 }

/-- Both certificate variables set, to `certs` and `tls`. -/
def httpsGetenv (name : String) : String :=
  if name = "CERTS_SECRET_NAMESPACE" then "certs"
  else if name = "CERTS_SECRET_NAME" then "tls" else ""

/-! ## Ingress status -/

/-- Type `v1alpha1.IngressStatus`, reduced to what the status methods named in
the translation change: whether the conditions are initialized, the two
conditions and the observed generation. -/
structure IngressStatus where
  ConditionsInitialized : Bool
  LoadBalancerReady : Bool
  NetworkConfigured : Bool
  ObservedGeneration : Int
  deriving DecidableEq, Repr

/-- The methods of `IngressStatus` that `markIngressReady` calls; they belong
to the Knative API package. -/
structure StatusMethods where
  IsReady : IngressStatus → Bool
  InitializeConditions : IngressStatus → IngressStatus
  MarkLoadBalancerReady : IngressStatus → IngressStatus
  MarkNetworkConfigured : IngressStatus → IngressStatus

/-- Modelled from the spec: the status methods of the Knative API package,
which are not part of the sources; "initialize conditions; mark load-balancer
ready; mark network configured" each set their flag, and a status is ready
when both conditions hold. -/
def flagStatusMethods : StatusMethods :=
  { IsReady := fun s => s.LoadBalancerReady && s.NetworkConfigured
    InitializeConditions := fun s => { s with ConditionsInitialized := true }
    MarkLoadBalancerReady := fun s => { s with LoadBalancerReady := true }
    MarkNetworkConfigured := fun s => { s with NetworkConfigured := true } }

namespace envoy

/-- Type `core.Node`, reduced to `Id`. -/
structure Node where
  Id : String
  deriving DecidableEq, Repr

/-- Go `Hasher.ID`; `none` is the nil node. -/
def Hasher.ID (node : Option Node) : String :=
  match node with
  | none => "unknown"
  | some n => n.Id

/-- The dynamic type of an `IngressAccessor` in the type switch of
`markIngressReady`. -/
inductive IngressKind where
  | ClusterIngress
  | Ingress
  | Other
  deriving DecidableEq, Repr

/-- Go `markIngressReady`: the status of the ingress when the function returns
and the error it returns. `UpdateStatus` is the call on the networking client
for the kind of the ingress, with the error it returns. -/
def markIngressReady (m : StatusMethods) (UpdateStatus : IngressKind → IngressStatus → Option String)
    (kind : IngressKind) (generation : Int) (status : IngressStatus) :
    IngressStatus × Option String :=
  if generation ≠ status.ObservedGeneration ∧ ¬ (m.IsReady status = true) then
    let status := m.InitializeConditions status
    let status := m.MarkLoadBalancerReady status
    let status := m.MarkNetworkConfigured status
    let status := { status with ObservedGeneration := generation }
    match kind with
    | .ClusterIngress => (status, UpdateStatus .ClusterIngress status)
    | .Ingress => (status, UpdateStatus .Ingress status)
    | .Other => (status, some "can't update object, not Ingress or ClusterIngress")
  else
    (status, none)

end envoy

/-! ## `pkg/reconciler/ingress/ingress.go` -/

namespace reconciler

/-- A call the reconciler makes on one of its collaborators. -/
inductive Call where
  | Get
  | GetIngress
  | CancelIngress
  | DeleteIngressInfo
  | UpdateInfoForIngress
  | ToEnvoySnapshot
  | SetSnapshot
  | IsReady
  | MarkIngressReady
  | UpdateStatus
  deriving DecidableEq, Repr

/-- The error of the ingress lister: its message and whether
`apierrors.IsNotFound` holds of it. -/
structure GetError where
  IsNotFound : Bool
  Message : String
  deriving DecidableEq, Repr

/-- The collaborators of the reconciler, each with the result of its call:
the key splitter, the ingress lister, the caches, the generator, the xDS
server, the status prober, `knative.MarkIngressReady` and the Knative client. -/
structure Env where
  SplitMetaNamespaceKey : String → Except String (String × String)
  Get : String → String → Except GetError (Ingress × IngressStatus)
  GetIngress : String → String → Option Ingress
  DeleteIngressInfo : String → String → Option String
  UpdateInfoForIngress : Ingress → Option String
  ToEnvoySnapshot : Except String Nat
  SetSnapshot : Nat → Option String
  IsReady : Ingress → Except String Bool
  MarkIngressReady : IngressStatus → IngressStatus
  UpdateStatus : Ingress → IngressStatus → Option String

/-- Outcome of a reconciler function: the calls it made, in order, the status
of the ingress it worked on and the error it returns. -/
structure Outcome where
  calls : List Call
  status : IngressStatus
  err : Option String
  deriving DecidableEq, Repr

/-- Go `Reconciler.deleteIngress`: the calls made and the error returned. -/
def deleteIngress (env : Env) (namespace_ name : String) : List Call × Option String :=
  let calls := [Call.GetIngress]
  let calls :=
    match env.GetIngress name namespace_ with
    | some _ => calls ++ [Call.CancelIngress]
    | none => calls
  let calls := calls ++ [Call.DeleteIngressInfo]
  match env.DeleteIngressInfo name namespace_ with
  | some err => (calls, some err)
  | none =>
    let calls := calls ++ [Call.ToEnvoySnapshot]
    match env.ToEnvoySnapshot with
    | .error err => (calls, some err)
    | .ok snapshot => (calls ++ [Call.SetSnapshot], env.SetSnapshot snapshot)

/-- Go `Reconciler.updateIngress`. -/
def updateIngress (env : Env) (ingress : Ingress) (status : IngressStatus) : Outcome :=
  let calls := [Call.UpdateInfoForIngress]
  match env.UpdateInfoForIngress ingress with
  | some err => { calls := calls, status := status, err := some err }
  | none =>
    let calls := calls ++ [Call.ToEnvoySnapshot]
    match env.ToEnvoySnapshot with
    | .error err => { calls := calls, status := status, err := some err }
    | .ok snapshot =>
      let calls := calls ++ [Call.SetSnapshot]
      match env.SetSnapshot snapshot with
      | some err => { calls := calls, status := status, err := some err }
      | none =>
        let calls := calls ++ [Call.IsReady]
        match env.IsReady ingress with
        | .error err => { calls := calls, status := status, err := some err }
        | .ok ready =>
          if ready then
            { calls := calls ++ [Call.MarkIngressReady]
              status := env.MarkIngressReady status, err := none }
          else
            { calls := calls, status := status, err := none }

/-- Go `Reconciler.updateStatus`: the calls made and the error returned. -/
def updateStatus (env : Env) (ingress : Ingress) (existing desired : IngressStatus) :
    List Call × Option String :=
  if existing = desired then ([], none)
  else ([Call.UpdateStatus], env.UpdateStatus ingress desired)

/-- Go `Reconciler.Reconcile`: the calls made and the error returned. -/
def Reconcile (env : Env) (key : String) : List Call × Option String :=
  match env.SplitMetaNamespaceKey key with
  | .error err => ([], some err)
  | .ok (namespace_, name) =>
    match env.Get namespace_ name with
    | .error e =>
      if e.IsNotFound then
        ([Call.Get] ++ (deleteIngress env namespace_ name).1, (deleteIngress env namespace_ name).2)
      else ([Call.Get], some e.Message)
    | .ok (original, originalStatus) =>
      let out := updateIngress env original originalStatus
      match out.err with
      | some err => ([Call.Get] ++ out.calls, some ("failed to update ingress: " ++ err))
      | none =>
        ([Call.Get] ++ out.calls ++ (updateStatus env original originalStatus out.status).1,
          (updateStatus env original originalStatus out.status).2)

/-- A reconciler whose lookups succeed and whose xDS server rejects every
snapshot. -/
def rejectingEnv : Env :=
  { SplitMetaNamespaceKey := fun _ => .ok ("default", "ing")
    Get := fun _ _ =>
      .ok (exampleIngress [],
        { ConditionsInitialized := false, LoadBalancerReady := false
          NetworkConfigured := false, ObservedGeneration := 0 })
    GetIngress := fun _ _ => none
    DeleteIngressInfo := fun _ _ => none
    UpdateInfoForIngress := fun _ => none
    ToEnvoySnapshot := .ok 1
    SetSnapshot := fun _ => some "rejected"
    IsReady := fun _ => .ok true
    MarkIngressReady := fun s => s
    UpdateStatus := fun _ _ => none }

end reconciler

/-- The hash function `internalKourierRoutes` calls,
`resources.ComputeIngressHash`, taken to be `ComputeHash`, with the pair
`(digest, err)` read as a result. -/
def computeIngressHashFrom (jsonMarshal : IngressSpec → Except String (List Nat))
    (Sum256 : List Nat → List Nat) (ing : Ingress) : Except String (List Nat) :=
  match (ComputeHash jsonMarshal Sum256 ing).2 with
  | some err => .error err
  | none => .ok (ComputeHash jsonMarshal Sum256 ing).1

/-! ## The loops append to their state -/

theorem splitBody_acc (env : Env) (ing : Ingress) (path : String) (st : SplitState)
    (s : IngressBackendSplit) :
    splitBody env ing path st s =
      (splitBody env ing path { caches := [], wrs := [] } s).map
        (fun d => { caches := st.caches ++ d.caches, wrs := st.wrs ++ d.wrs }) := by
  unfold splitBody
  cases env.endpoints s.ServiceNamespace s.ServiceName with
  | error e => rfl
  | ok e =>
    simp only []
    split
    · rfl
    · cases env.services s.ServiceNamespace s.ServiceName with
      | error e => rfl
      | ok svc => simp

theorem splitLoop_acc (env : Env) (ing : Ingress) (path : String)
    (splits : List IngressBackendSplit) (st : SplitState) :
    splitLoop env ing path splits st =
      { caches := st.caches ++ (splitLoop env ing path splits { caches := [], wrs := [] }).caches
        wrs := st.wrs ++ (splitLoop env ing path splits { caches := [], wrs := [] }).wrs } := by
  induction splits generalizing st with
  | nil => simp [splitLoop]
  | cons s rest ih =>
    simp only [splitLoop]
    rw [splitBody_acc env ing path st s]
    cases h : splitBody env ing path { caches := [], wrs := [] } s with
    | none => simp
    | some d =>
      simp only [Option.map_some']
      rw [ih, ih d]
      simp [List.append_assoc]

/-- What one split iteration appends when none of its lookups fails. -/
theorem splitBody_of_lookups (env : Env) (ing : Ingress) (path : String) (st : SplitState)
    (s : IngressBackendSplit) (e : Endpoints) (svc : Service)
    (he : env.endpoints s.ServiceNamespace s.ServiceName = .ok e)
    (ht : ∀ track, env.tracker = some track →
      track { Kind := "Endpoints", APIVersion := "v1"
              Namespace := ing.Namespace, Name := s.ServiceName } ing = none)
    (hs : env.services s.ServiceNamespace s.ServiceName = .ok svc) :
    splitBody env ing path st s =
      some
        { caches := st.caches ++
            [CacheOp.AddCluster
              (clusterForRevision s.ServiceName 5000000000
                (lbEndpointsForKubeEndpoints e (portLoop svc.Ports s.ServicePort).1)
                (portLoop svc.Ports s.ServicePort).2 path)
              s.ServiceName s.ServiceNamespace path]
          wrs := st.wrs ++
            [weightedCluster s.ServiceName (toUint32 s.Percent) path s.AppendHeaders] } := by
  unfold splitBody
  rw [he]
  simp only []
  have htr : (match env.tracker with
      | some track => track { Kind := "Endpoints", APIVersion := "v1"
                              Namespace := ing.Namespace, Name := s.ServiceName } ing
      | none => none) = none := by
    cases h : env.tracker with
    | none => rfl
    | some track => exact ht track h
  rw [htr, hs]
  rfl

theorem splitBody_isSome_of_lookupsSucceed (env : Env) (ing : Ingress) (path : String)
    (st : SplitState) (s : IngressBackendSplit) (h : lookupsSucceed env ing s) :
    ∃ c, splitBody env ing path st s =
      some
        { caches := st.caches ++ [CacheOp.AddCluster c s.ServiceName s.ServiceNamespace path]
          wrs := st.wrs ++
            [weightedCluster s.ServiceName (toUint32 s.Percent) path s.AppendHeaders] } ∧
      c.Name = s.ServiceName ++ path ∧ c.LoadAssignment.ClusterName = c.Name := by
  obtain ⟨⟨e, he⟩, ht, ⟨svc, hs⟩⟩ := h
  refine ⟨_, splitBody_of_lookups env ing path st s e svc he ht hs, ?_, ?_⟩
  · unfold clusterForRevision; split <;> rfl
  · unfold clusterForRevision; split <;> rfl

theorem splitBody_of_lookupFails (env : Env) (ing : Ingress) (path : String)
    (st : SplitState) (s : IngressBackendSplit) (h : lookupFails env s) :
    splitBody env ing path st s = none := by
  unfold splitBody
  rcases h with ⟨err, he⟩ | ⟨err, hs⟩
  · rw [he]
  · cases env.endpoints s.ServiceNamespace s.ServiceName with
    | error e => rfl
    | ok e =>
      simp only []
      split
      · rfl
      · rw [hs]

/-- Any successful iteration appends one `AddCluster` call and one weighted
cluster, both named `ServiceName ++ path`. -/
theorem splitBody_some (env : Env) (ing : Ingress) (path : String) (st st' : SplitState)
    (s : IngressBackendSplit) (h : splitBody env ing path st s = some st') :
    ∃ c, st' =
        { caches := st.caches ++ [CacheOp.AddCluster c s.ServiceName s.ServiceNamespace path]
          wrs := st.wrs ++
            [weightedCluster s.ServiceName (toUint32 s.Percent) path s.AppendHeaders] } ∧
      c.Name = s.ServiceName ++ path ∧ c.LoadAssignment.ClusterName = c.Name := by
  unfold splitBody at h
  cases he : env.endpoints s.ServiceNamespace s.ServiceName with
  | error e => rw [he] at h; simp at h
  | ok e =>
    rw [he] at h
    simp only [] at h
    split at h
    · simp at h
    · cases hs : env.services s.ServiceNamespace s.ServiceName with
      | error e => rw [hs] at h; simp at h
      | ok svc =>
        rw [hs] at h
        simp only [Option.some.injEq] at h
        refine ⟨_, h.symm, ?_, ?_⟩
        · unfold clusterForRevision; split <;> rfl
        · unfold clusterForRevision; split <;> rfl

/-- The split loop on a list whose lookups all succeed. -/
theorem splitLoop_of_lookupsSucceed (env : Env) (ing : Ingress) (path : String)
    (splits : List IngressBackendSplit) (st : SplitState)
    (h : ∀ s ∈ splits, lookupsSucceed env ing s) :
    ∃ ops : List CacheOp,
      splitLoop env ing path splits st =
        { caches := st.caches ++ ops
          wrs := st.wrs ++ splits.map
            (fun s => weightedCluster s.ServiceName (toUint32 s.Percent) path s.AppendHeaders) } ∧
      List.Forall₂
        (fun s op => ∃ c, op = CacheOp.AddCluster c s.ServiceName s.ServiceNamespace path ∧
          c.Name = s.ServiceName ++ path ∧ c.LoadAssignment.ClusterName = c.Name)
        splits ops := by
  induction splits generalizing st with
  | nil => exact ⟨[], by simp [splitLoop], List.Forall₂.nil⟩
  | cons s rest ih =>
    obtain ⟨c, hc, hc1, hc2⟩ :=
      splitBody_isSome_of_lookupsSucceed env ing path st s (h s (List.mem_cons_self _ _))
    obtain ⟨ops, hops, hall⟩ :=
      ih { caches := st.caches ++ [CacheOp.AddCluster c s.ServiceName s.ServiceNamespace path]
           wrs := st.wrs ++
             [weightedCluster s.ServiceName (toUint32 s.Percent) path s.AppendHeaders] }
        (fun x hx => h x (List.mem_cons_of_mem _ hx))
    refine ⟨CacheOp.AddCluster c s.ServiceName s.ServiceNamespace path :: ops, ?_, ?_⟩
    · simp only [splitLoop, hc, hops]
      simp [List.append_assoc]
    · exact List.Forall₂.cons ⟨c, rfl, hc1, hc2⟩ hall

/-- The split loop stops at the first split whose lookup fails. -/
theorem splitLoop_append_of_lookupFails (env : Env) (ing : Ingress) (path : String)
    (spre spost : List IngressBackendSplit) (s : IngressBackendSplit) (st : SplitState)
    (hpre : ∀ x ∈ spre, lookupsSucceed env ing x) (hs : lookupFails env s) :
    splitLoop env ing path (spre ++ s :: spost) st = splitLoop env ing path spre st := by
  induction spre generalizing st with
  | nil => simp [splitLoop, splitBody_of_lookupFails env ing path st s hs]
  | cons x rest ih =>
    obtain ⟨c, hc, -⟩ :=
      splitBody_isSome_of_lookupsSucceed env ing path st x (hpre x (List.mem_cons_self _ _))
    simp only [List.cons_append, splitLoop, hc]
    exact ih _ (fun y hy => hpre y (List.mem_cons_of_mem _ hy))

theorem pathBody_acc (env : Env) (ing : Ingress) (index : Int) (st : PathState)
    (p : HTTPIngressPath) :
    pathBody env ing index st p =
      { caches := st.caches ++ (pathBody env ing index { caches := [], ruleRoute := [] } p).caches
        ruleRoute :=
          st.ruleRoute ++ (pathBody env ing index { caches := [], ruleRoute := [] } p).ruleRoute } := by
  simp only [pathBody]
  rw [splitLoop_acc]
  simp [List.append_assoc]

theorem foldl_pathBody_acc (env : Env) (ing : Ingress) (index : Int)
    (paths : List HTTPIngressPath) (st : PathState) :
    paths.foldl (pathBody env ing index) st =
      { caches := st.caches ++ (pathsTranslation env ing index paths).caches
        ruleRoute := st.ruleRoute ++ (pathsTranslation env ing index paths).ruleRoute } := by
  induction paths generalizing st with
  | nil => simp [pathsTranslation]
  | cons p ps ih =>
    simp only [List.foldl_cons, pathsTranslation]
    rw [ih, ih (pathBody env ing index { caches := [], ruleRoute := [] } p), pathBody_acc]
    simp [List.append_assoc]

theorem pathsTranslation_append (env : Env) (ing : Ingress) (index : Int)
    (a b : List HTTPIngressPath) :
    pathsTranslation env ing index (a ++ b) =
      { caches := (pathsTranslation env ing index a).caches ++
          (pathsTranslation env ing index b).caches
        ruleRoute := (pathsTranslation env ing index a).ruleRoute ++
          (pathsTranslation env ing index b).ruleRoute } := by
  conv_lhs => unfold pathsTranslation
  rw [List.foldl_append, foldl_pathBody_acc]
  rfl

/-- The translation of a single path from an empty log: the cluster calls of
its split loop, then the `AddRoute` call of its route. -/
theorem pathsTranslation_singleton (env : Env) (ing : Ingress) (index : Int)
    (p : HTTPIngressPath) :
    pathsTranslation env ing index [p] =
      { caches :=
          (splitLoop env ing (if p.Path ≠ "" then p.Path else "/") p.Splits
            { caches := [], wrs := [] }).caches ++
          [CacheOp.AddRoute
            (createRouteForRevision ing.Name index p
              (splitLoop env ing (if p.Path ≠ "" then p.Path else "/") p.Splits
                { caches := [], wrs := [] }).wrs)
            ing.Name ing.Namespace]
        ruleRoute :=
          [createRouteForRevision ing.Name index p
            (splitLoop env ing (if p.Path ≠ "" then p.Path else "/") p.Splits
              { caches := [], wrs := [] }).wrs] } := by
  simp [pathsTranslation, pathBody]

theorem pathsTranslation_cons (env : Env) (ing : Ingress) (index : Int)
    (p : HTTPIngressPath) (ps : List HTTPIngressPath) :
    pathsTranslation env ing index (p :: ps) =
      { caches := (pathsTranslation env ing index [p]).caches ++
          (pathsTranslation env ing index ps).caches
        ruleRoute := (pathsTranslation env ing index [p]).ruleRoute ++
          (pathsTranslation env ing index ps).ruleRoute } := by
  have := pathsTranslation_append env ing index [p] ps
  simpa using this

theorem pathsTranslation_ruleRoute_length (env : Env) (ing : Ingress) (index : Int)
    (paths : List HTTPIngressPath) :
    (pathsTranslation env ing index paths).ruleRoute.length = paths.length := by
  induction paths with
  | nil => rfl
  | cons p ps ih =>
    rw [pathsTranslation_cons, pathsTranslation_singleton]
    simp [ih, Nat.add_comm]

theorem ruleBody_acc (env : Env) (ing : Ingress) (ldn : String) (index : Int) (st : RuleState)
    (rule : IngressRule) :
    ruleBody env ing ldn index st rule =
      { caches := st.caches ++ (rulesTranslation env ing ldn index [rule]).caches
        clusterLocalVirtualHosts := st.clusterLocalVirtualHosts ++
          (rulesTranslation env ing ldn index [rule]).clusterLocalVirtualHosts
        externalVirtualHosts := st.externalVirtualHosts ++
          (rulesTranslation env ing ldn index [rule]).externalVirtualHosts } := by
  simp only [rulesTranslation, List.foldl_cons, List.foldl_nil, ruleBody]
  rw [foldl_pathBody_acc]
  have h0 : List.foldl (pathBody env ing index) { caches := [], ruleRoute := [] }
      rule.HTTP.Paths = pathsTranslation env ing index rule.HTTP.Paths := rfl
  rw [h0]
  by_cases hx : env.RuleIsExternal rule ing.Spec.Visibility = true <;> simp [hx]

theorem foldl_ruleBody_acc (env : Env) (ing : Ingress) (ldn : String) (index : Int)
    (rules : List IngressRule) (st : RuleState) :
    rules.foldl (ruleBody env ing ldn index) st =
      { caches := st.caches ++ (rulesTranslation env ing ldn index rules).caches
        clusterLocalVirtualHosts := st.clusterLocalVirtualHosts ++
          (rulesTranslation env ing ldn index rules).clusterLocalVirtualHosts
        externalVirtualHosts := st.externalVirtualHosts ++
          (rulesTranslation env ing ldn index rules).externalVirtualHosts } := by
  induction rules generalizing st with
  | nil => simp [rulesTranslation]
  | cons r rs ih =>
    have h1 : rulesTranslation env ing ldn index (r :: rs) =
        rs.foldl (ruleBody env ing ldn index) (rulesTranslation env ing ldn index [r]) := rfl
    simp only [List.foldl_cons]
    rw [h1, ih, ih (rulesTranslation env ing ldn index [r]), ruleBody_acc]
    simp [List.append_assoc]

theorem rulesTranslation_append (env : Env) (ing : Ingress) (ldn : String) (index : Int)
    (a b : List IngressRule) :
    rulesTranslation env ing ldn index (a ++ b) =
      { caches := (rulesTranslation env ing ldn index a).caches ++
          (rulesTranslation env ing ldn index b).caches
        clusterLocalVirtualHosts :=
          (rulesTranslation env ing ldn index a).clusterLocalVirtualHosts ++
          (rulesTranslation env ing ldn index b).clusterLocalVirtualHosts
        externalVirtualHosts :=
          (rulesTranslation env ing ldn index a).externalVirtualHosts ++
          (rulesTranslation env ing ldn index b).externalVirtualHosts } := by
  conv_lhs => unfold rulesTranslation
  rw [List.foldl_append, foldl_ruleBody_acc]
  rfl

/-- The translation of a single rule from an empty log. -/
theorem rulesTranslation_singleton (env : Env) (ing : Ingress) (ldn : String) (index : Int)
    (rule : IngressRule) :
    rulesTranslation env ing ldn index [rule] =
      { caches := (pathsTranslation env ing index rule.HTTP.Paths).caches
        clusterLocalVirtualHosts :=
          [{ Name := ing.Name
             Domains := env.InternalDomains rule ldn ++ env.ExternalDomains rule ldn
             Routes := (pathsTranslation env ing index rule.HTTP.Paths).ruleRoute }]
        externalVirtualHosts :=
          if env.RuleIsExternal rule ing.Spec.Visibility then
            [{ Name := ing.Name
               Domains := env.ExternalDomains rule ldn
               Routes := (pathsTranslation env ing index rule.HTTP.Paths).ruleRoute }]
          else [] } := by
  simp only [rulesTranslation, List.foldl_cons, List.foldl_nil, ruleBody]
  have h0 : List.foldl (pathBody env ing index) { caches := [], ruleRoute := [] }
      rule.HTTP.Paths = pathsTranslation env ing index rule.HTTP.Paths := rfl
  rw [h0]
  simp

theorem rulesTranslation_cons (env : Env) (ing : Ingress) (ldn : String) (index : Int)
    (r : IngressRule) (rs : List IngressRule) :
    rulesTranslation env ing ldn index (r :: rs) =
      { caches := (rulesTranslation env ing ldn index [r]).caches ++
          (rulesTranslation env ing ldn index rs).caches
        clusterLocalVirtualHosts :=
          (rulesTranslation env ing ldn index [r]).clusterLocalVirtualHosts ++
          (rulesTranslation env ing ldn index rs).clusterLocalVirtualHosts
        externalVirtualHosts :=
          (rulesTranslation env ing ldn index [r]).externalVirtualHosts ++
          (rulesTranslation env ing ldn index rs).externalVirtualHosts } := by
  have := rulesTranslation_append env ing ldn index [r] rs
  simpa using this

theorem foldl_append_singleton {α β : Type} (f : β → α) (l : List β) (init : List α) :
    l.foldl (fun c v => c ++ [f v]) init = init ++ l.map f := by
  induction l generalizing init with
  | nil => simp
  | cons x xs ih => simp [ih, List.append_assoc]

/-- Closed form of `addIngressToCaches`: the calls already made, `AddIngress`,
the cluster and route calls of the rules, the external virtual hosts and then
the internal ones. -/
theorem addIngressToCaches_eq (env : Env) (caches : List CacheOp) (ing : Ingress)
    (ldn : String) (index : Int) :
    addIngressToCaches env caches ing ldn index =
      caches ++ [CacheOp.AddIngress ing] ++
        (rulesTranslation env ing ldn index ing.Spec.Rules).caches ++
        (rulesTranslation env ing ldn index ing.Spec.Rules).externalVirtualHosts.map
          (fun v => CacheOp.AddExternalVirtualHostForIngress v ing.Name ing.Namespace) ++
        (rulesTranslation env ing ldn index ing.Spec.Rules).clusterLocalVirtualHosts.map
          (fun v => CacheOp.AddInternalVirtualHostForIngress v ing.Name ing.Namespace) := by
  unfold addIngressToCaches
  simp only [foldl_append_singleton]
  rw [foldl_ruleBody_acc]
  simp [List.append_assoc]

/-! ## Reading the log of a translation -/

/-- The split loop handles a prefix of the splits: one `AddCluster` call and
one weighted cluster per handled split, in order; no lookup of a handled split
fails. -/
theorem splitLoop_handled (env : Env) (ing : Ingress) (path : String)
    (splits : List IngressBackendSplit) (st : SplitState) :
    ∃ (handled rest : List IngressBackendSplit) (ops : List CacheOp),
      splits = handled ++ rest ∧
      splitLoop env ing path splits st =
        { caches := st.caches ++ ops
          wrs := st.wrs ++ handled.map
            (fun s => weightedCluster s.ServiceName (toUint32 s.Percent) path s.AppendHeaders) } ∧
      List.Forall₂
        (fun s op => ∃ c, op = CacheOp.AddCluster c s.ServiceName s.ServiceNamespace path ∧
          c.Name = s.ServiceName ++ path ∧ c.LoadAssignment.ClusterName = c.Name)
        handled ops ∧
      ∀ s ∈ handled, ¬ lookupFails env s := by
  induction splits generalizing st with
  | nil => exact ⟨[], [], [], rfl, by simp [splitLoop], List.Forall₂.nil, by simp⟩
  | cons s tl ih =>
    cases hb : splitBody env ing path st s with
    | none =>
      exact ⟨[], s :: tl, [], rfl, by simp [splitLoop, hb], List.Forall₂.nil, by simp⟩
    | some st' =>
      obtain ⟨c, rfl, hc1, hc2⟩ := splitBody_some env ing path st st' s hb
      obtain ⟨handled, rest, ops, hsp, hres, hall, hnf⟩ :=
        ih { caches := st.caches ++ [CacheOp.AddCluster c s.ServiceName s.ServiceNamespace path]
             wrs := st.wrs ++
               [weightedCluster s.ServiceName (toUint32 s.Percent) path s.AppendHeaders] }
      refine ⟨s :: handled, rest, CacheOp.AddCluster c s.ServiceName s.ServiceNamespace path :: ops,
        by simp [hsp], ?_, List.Forall₂.cons ⟨c, rfl, hc1, hc2⟩ hall, ?_⟩
      · simp only [splitLoop, hb, hres]
        simp [List.append_assoc]
      · intro x hx
        rcases List.mem_cons.1 hx with rfl | hx
        · intro hf
          rw [splitBody_of_lookupFails env ing path st x hf] at hb
          cases hb
        · exact hnf x hx

theorem routesAdded_append (a b : List CacheOp) :
    routesAdded (a ++ b) = routesAdded a ++ routesAdded b := by
  simp [routesAdded, List.filterMap_append]

theorem internalVirtualHostsAdded_append (a b : List CacheOp) :
    internalVirtualHostsAdded (a ++ b) =
      internalVirtualHostsAdded a ++ internalVirtualHostsAdded b := by
  simp [internalVirtualHostsAdded, List.filterMap_append]

theorem externalVirtualHostsAdded_append (a b : List CacheOp) :
    externalVirtualHostsAdded (a ++ b) =
      externalVirtualHostsAdded a ++ externalVirtualHostsAdded b := by
  simp [externalVirtualHostsAdded, List.filterMap_append]

theorem clustersAdded_append (a b : List CacheOp) :
    clustersAdded (a ++ b) = clustersAdded a ++ clustersAdded b := by
  simp [clustersAdded, List.filterMap_append]

/-- Every call made by the split loop is an `AddCluster`. -/
theorem splitLoop_caches_addCluster (env : Env) (ing : Ingress) (path : String)
    (splits : List IngressBackendSplit) :
    ∀ op ∈ (splitLoop env ing path splits { caches := [], wrs := [] }).caches,
      ∃ c sn sns, op = CacheOp.AddCluster c sn sns path ∧ c.Name = sn ++ path ∧
        c.LoadAssignment.ClusterName = c.Name := by
  obtain ⟨handled, rest, ops, -, hres, hall, -⟩ :=
    splitLoop_handled env ing path splits { caches := [], wrs := [] }
  rw [hres]
  simp only [List.nil_append]
  clear hres
  induction hall with
  | nil => simp
  | cons h _ ih =>
    intro op hop
    rcases List.mem_cons.1 hop with rfl | hop
    · obtain ⟨c, hc, h1, h2⟩ := h
      exact ⟨c, _, _, hc, h1, h2⟩
    · exact ih op hop

/-- Calls that are all `AddCluster` carry no route and no virtual host. -/
theorem observe_of_addCluster (ops : List CacheOp)
    (h : ∀ op ∈ ops, ∃ c sn sns path, op = CacheOp.AddCluster c sn sns path) :
    routesAdded ops = [] ∧ internalVirtualHostsAdded ops = [] ∧
      externalVirtualHostsAdded ops = [] ∧ ∀ op ∈ ops, op.isVirtualHostOp = false := by
  refine ⟨?_, ?_, ?_, ?_⟩
  · simp only [routesAdded, List.filterMap_eq_nil_iff]
    intro op hop
    obtain ⟨c, sn, sns, path, rfl⟩ := h op hop
    rfl
  · simp only [internalVirtualHostsAdded, List.filterMap_eq_nil_iff]
    intro op hop
    obtain ⟨c, sn, sns, path, rfl⟩ := h op hop
    rfl
  · simp only [externalVirtualHostsAdded, List.filterMap_eq_nil_iff]
    intro op hop
    obtain ⟨c, sn, sns, path, rfl⟩ := h op hop
    rfl
  · intro op hop
    obtain ⟨c, sn, sns, path, rfl⟩ := h op hop
    rfl

theorem splitLoop_observe (env : Env) (ing : Ingress) (path : String)
    (splits : List IngressBackendSplit) :
    routesAdded (splitLoop env ing path splits { caches := [], wrs := [] }).caches = [] ∧
    internalVirtualHostsAdded
      (splitLoop env ing path splits { caches := [], wrs := [] }).caches = [] ∧
    externalVirtualHostsAdded
      (splitLoop env ing path splits { caches := [], wrs := [] }).caches = [] ∧
    ∀ op ∈ (splitLoop env ing path splits { caches := [], wrs := [] }).caches,
      op.isVirtualHostOp = false := by
  apply observe_of_addCluster
  intro op hop
  obtain ⟨c, sn, sns, hc, -⟩ := splitLoop_caches_addCluster env ing path splits op hop
  exact ⟨c, sn, sns, path, hc⟩

/-- The log of a path loop: its `AddRoute` calls are the routes of the rule,
and it registers no virtual host. -/
theorem pathsTranslation_observe (env : Env) (ing : Ingress) (index : Int)
    (paths : List HTTPIngressPath) :
    routesAdded (pathsTranslation env ing index paths).caches =
      (pathsTranslation env ing index paths).ruleRoute ∧
    internalVirtualHostsAdded (pathsTranslation env ing index paths).caches = [] ∧
    externalVirtualHostsAdded (pathsTranslation env ing index paths).caches = [] ∧
    ∀ op ∈ (pathsTranslation env ing index paths).caches, op.isVirtualHostOp = false := by
  induction paths with
  | nil => exact ⟨rfl, rfl, rfl, by simp [pathsTranslation]⟩
  | cons p ps ih =>
    obtain ⟨h1, h2, h3, h4⟩ := ih
    obtain ⟨s1, s2, s3, s4⟩ :=
      splitLoop_observe env ing (if p.Path ≠ "" then p.Path else "/") p.Splits
    rw [pathsTranslation_cons, pathsTranslation_singleton]
    simp only [routesAdded_append, internalVirtualHostsAdded_append,
      externalVirtualHostsAdded_append, h1, h2, h3, s1, s2, s3]
    refine ⟨by simp [routesAdded], by simp [internalVirtualHostsAdded],
      by simp [externalVirtualHostsAdded], ?_⟩
    intro op hop
    simp only [List.mem_append, List.mem_singleton] at hop
    rcases hop with (hop | rfl) | hop
    · exact s4 op hop
    · rfl
    · exact h4 op hop

/-- The log of a rule loop: its `AddRoute` calls are the routes of the rules in
order, and it registers no virtual host. -/
theorem rulesTranslation_observe (env : Env) (ing : Ingress) (ldn : String) (index : Int)
    (rules : List IngressRule) :
    routesAdded (rulesTranslation env ing ldn index rules).caches =
      (rules.map (fun rule => (pathsTranslation env ing index rule.HTTP.Paths).ruleRoute)).flatten ∧
    internalVirtualHostsAdded (rulesTranslation env ing ldn index rules).caches = [] ∧
    externalVirtualHostsAdded (rulesTranslation env ing ldn index rules).caches = [] ∧
    ∀ op ∈ (rulesTranslation env ing ldn index rules).caches, op.isVirtualHostOp = false := by
  induction rules with
  | nil => exact ⟨rfl, rfl, rfl, by simp [rulesTranslation]⟩
  | cons r rs ih =>
    obtain ⟨h1, h2, h3, h4⟩ := ih
    obtain ⟨p1, p2, p3, p4⟩ := pathsTranslation_observe env ing index r.HTTP.Paths
    rw [rulesTranslation_cons, rulesTranslation_singleton]
    simp only [routesAdded_append, internalVirtualHostsAdded_append,
      externalVirtualHostsAdded_append, h1, h2, h3, p1, p2, p3]
    refine ⟨by simp, by simp, by simp, ?_⟩
    intro op hop
    simp only [List.mem_append] at hop
    rcases hop with hop | hop
    · exact p4 op hop
    · exact h4 op hop

/-- The virtual hosts a rule loop leaves in its two local lists. -/
theorem rulesTranslation_virtualHosts (env : Env) (ing : Ingress) (ldn : String) (index : Int)
    (rules : List IngressRule) :
    (rulesTranslation env ing ldn index rules).clusterLocalVirtualHosts =
      rules.map (fun rule =>
        { Name := ing.Name
          Domains := env.InternalDomains rule ldn ++ env.ExternalDomains rule ldn
          Routes := (pathsTranslation env ing index rule.HTTP.Paths).ruleRoute }) ∧
    (rulesTranslation env ing ldn index rules).externalVirtualHosts =
      (rules.filter (fun rule => env.RuleIsExternal rule ing.Spec.Visibility)).map (fun rule =>
        { Name := ing.Name
          Domains := env.ExternalDomains rule ldn
          Routes := (pathsTranslation env ing index rule.HTTP.Paths).ruleRoute }) := by
  induction rules with
  | nil => exact ⟨rfl, rfl⟩
  | cons r rs ih =>
    rw [rulesTranslation_cons, rulesTranslation_singleton]
    simp only [ih.1, ih.2]
    refine ⟨by simp, ?_⟩
    by_cases hx : env.RuleIsExternal r ing.Spec.Visibility = true
    · simp [hx, List.filter_cons]
    · simp [hx, List.filter_cons]

theorem getElem?_length_append {α : Type} (a b : List α) (x : α) :
    (a ++ x :: b)[a.length]? = some x := by
  rw [List.getElem?_append_right (Nat.le_refl _)]
  simp

theorem routesAdded_map_addRoute (l : List Route) (a b : String) :
    routesAdded (l.map (fun r => CacheOp.AddRoute r a b)) = l := by
  induction l with
  | nil => rfl
  | cons x xs ih =>
    simp [routesAdded] at ih ⊢
    exact ih

theorem routesAdded_map_external (l : List VirtualHost) (a b : String) :
    routesAdded (l.map (fun v => CacheOp.AddExternalVirtualHostForIngress v a b)) = [] := by
  simp [routesAdded]

theorem routesAdded_map_internal (l : List VirtualHost) (a b : String) :
    routesAdded (l.map (fun v => CacheOp.AddInternalVirtualHostForIngress v a b)) = [] := by
  simp [routesAdded]

theorem internalAdded_map_external (l : List VirtualHost) (a b : String) :
    internalVirtualHostsAdded
      (l.map (fun v => CacheOp.AddExternalVirtualHostForIngress v a b)) = [] := by
  simp [internalVirtualHostsAdded]

theorem internalAdded_map_internal (l : List VirtualHost) (a b : String) :
    internalVirtualHostsAdded
      (l.map (fun v => CacheOp.AddInternalVirtualHostForIngress v a b)) = l := by
  induction l with
  | nil => rfl
  | cons x xs ih =>
    simp [internalVirtualHostsAdded] at ih ⊢
    exact ih

theorem externalAdded_map_external (l : List VirtualHost) (a b : String) :
    externalVirtualHostsAdded
      (l.map (fun v => CacheOp.AddExternalVirtualHostForIngress v a b)) = l := by
  induction l with
  | nil => rfl
  | cons x xs ih =>
    simp [externalVirtualHostsAdded] at ih ⊢
    exact ih

theorem externalAdded_map_internal (l : List VirtualHost) (a b : String) :
    externalVirtualHostsAdded
      (l.map (fun v => CacheOp.AddInternalVirtualHostForIngress v a b)) = [] := by
  simp [externalVirtualHostsAdded]

/-- What can be read from the log of `addIngressToCaches`. -/
theorem addIngressToCaches_observe (env : Env) (ing : Ingress) (ldn : String) (index : Int) :
    routesAdded (addIngressToCaches env [] ing ldn index) =
      (ing.Spec.Rules.map
        (fun rule => (pathsTranslation env ing index rule.HTTP.Paths).ruleRoute)).flatten ∧
    internalVirtualHostsAdded (addIngressToCaches env [] ing ldn index) =
      ing.Spec.Rules.map (fun rule =>
        { Name := ing.Name
          Domains := env.InternalDomains rule ldn ++ env.ExternalDomains rule ldn
          Routes := (pathsTranslation env ing index rule.HTTP.Paths).ruleRoute }) ∧
    externalVirtualHostsAdded (addIngressToCaches env [] ing ldn index) =
      (ing.Spec.Rules.filter (fun rule => env.RuleIsExternal rule ing.Spec.Visibility)).map
        (fun rule =>
          { Name := ing.Name
            Domains := env.ExternalDomains rule ldn
            Routes := (pathsTranslation env ing index rule.HTTP.Paths).ruleRoute }) := by
  obtain ⟨h1, h2, h3, -⟩ := rulesTranslation_observe env ing ldn index ing.Spec.Rules
  obtain ⟨v1, v2⟩ := rulesTranslation_virtualHosts env ing ldn index ing.Spec.Rules
  rw [addIngressToCaches_eq]
  simp only [routesAdded_append, internalVirtualHostsAdded_append,
    externalVirtualHostsAdded_append, h1, h2, h3]
  rw [← v1, ← v2]
  simp only [routesAdded_map_external, routesAdded_map_internal, internalAdded_map_external,
    internalAdded_map_internal, externalAdded_map_external, externalAdded_map_internal]
  refine ⟨?_, ?_, ?_⟩
  · simp [routesAdded]
  · simp [internalVirtualHostsAdded]
  · simp [externalVirtualHostsAdded]

theorem flatten_map_length_sum {α β : Type} (f : α → List β) (g : α → Nat) (l : List α)
    (h : ∀ a, (f a).length = g a) :
    (l.map f).flatten.length = (l.map g).sum := by
  induction l with
  | nil => rfl
  | cons a l ih => simp [h, ih]

/-- Where the route of one path ends up: in the sequence of `AddRoute` calls,
in the internal virtual host of its rule and, when the rule is external, in
the external virtual host of its rule. -/
theorem route_of_path (env : Env) (ing : Ingress) (ldn : String) (index : Int)
    (pre post : List IngressRule) (rule : IngressRule)
    (ppre ppost : List HTTPIngressPath) (p : HTTPIngressPath)
    (hr : ing.Spec.Rules = pre ++ rule :: post)
    (hp : rule.HTTP.Paths = ppre ++ p :: ppost) :
    (routesAdded (addIngressToCaches env [] ing ldn index))[
        (pre.map (fun x => x.HTTP.Paths.length)).sum + ppre.length]? =
      some (createRouteForRevision ing.Name index p
        (splitLoop env ing (if p.Path ≠ "" then p.Path else "/") p.Splits
          { caches := [], wrs := [] }).wrs) ∧
    (∃ vh, (internalVirtualHostsAdded (addIngressToCaches env [] ing ldn index))[pre.length]? =
        some vh ∧
      vh.Routes[ppre.length]? =
        some (createRouteForRevision ing.Name index p
          (splitLoop env ing (if p.Path ≠ "" then p.Path else "/") p.Splits
            { caches := [], wrs := [] }).wrs)) ∧
    (env.RuleIsExternal rule ing.Spec.Visibility = true →
      ∃ vh, (externalVirtualHostsAdded (addIngressToCaches env [] ing ldn index))[
          (pre.filter (fun x => env.RuleIsExternal x ing.Spec.Visibility)).length]? = some vh ∧
        vh.Routes[ppre.length]? =
          some (createRouteForRevision ing.Name index p
            (splitLoop env ing (if p.Path ≠ "" then p.Path else "/") p.Splits
              { caches := [], wrs := [] }).wrs)) := by
  obtain ⟨o1, o2, o3⟩ := addIngressToCaches_observe env ing ldn index
  have hroutes : (pathsTranslation env ing index rule.HTTP.Paths).ruleRoute =
      (pathsTranslation env ing index ppre).ruleRoute ++
        createRouteForRevision ing.Name index p
          (splitLoop env ing (if p.Path ≠ "" then p.Path else "/") p.Splits
            { caches := [], wrs := [] }).wrs ::
        (pathsTranslation env ing index ppost).ruleRoute := by
    rw [hp, pathsTranslation_append, pathsTranslation_cons, pathsTranslation_singleton]
    simp
  have hlen := pathsTranslation_ruleRoute_length env ing index ppre
  refine ⟨?_, ?_, ?_⟩
  · rw [o1, hr]
    simp only [List.map_append, List.map_cons, List.flatten_append, List.flatten_cons, hroutes]
    have hl : ((pre.map (fun rule =>
          (pathsTranslation env ing index rule.HTTP.Paths).ruleRoute)).flatten ++
        (pathsTranslation env ing index ppre).ruleRoute).length =
        (pre.map (fun x => x.HTTP.Paths.length)).sum + ppre.length := by
      rw [List.length_append, hlen,
        flatten_map_length_sum _ (fun x => x.HTTP.Paths.length) pre
          (fun a => pathsTranslation_ruleRoute_length env ing index a.HTTP.Paths)]
    have e : (pre.map (fun rule =>
          (pathsTranslation env ing index rule.HTTP.Paths).ruleRoute)).flatten ++
        ((pathsTranslation env ing index ppre).ruleRoute ++
          createRouteForRevision ing.Name index p
            (splitLoop env ing (if p.Path ≠ "" then p.Path else "/") p.Splits
              { caches := [], wrs := [] }).wrs ::
          (pathsTranslation env ing index ppost).ruleRoute ++
        (post.map (fun rule =>
          (pathsTranslation env ing index rule.HTTP.Paths).ruleRoute)).flatten) =
        ((pre.map (fun rule =>
          (pathsTranslation env ing index rule.HTTP.Paths).ruleRoute)).flatten ++
        (pathsTranslation env ing index ppre).ruleRoute) ++
          createRouteForRevision ing.Name index p
            (splitLoop env ing (if p.Path ≠ "" then p.Path else "/") p.Splits
              { caches := [], wrs := [] }).wrs ::
          ((pathsTranslation env ing index ppost).ruleRoute ++
        (post.map (fun rule =>
          (pathsTranslation env ing index rule.HTTP.Paths).ruleRoute)).flatten) := by
      simp [List.append_assoc]
    rw [e, ← hl]
    exact getElem?_length_append _ _ _
  · refine ⟨VirtualHost.mk ing.Name
      (env.InternalDomains rule ldn ++ env.ExternalDomains rule ldn)
      (pathsTranslation env ing index rule.HTTP.Paths).ruleRoute, ?_, ?_⟩
    · rw [o2, hr]
      have hl : (pre.map (fun rule : IngressRule =>
          ({ Name := ing.Name
             Domains := env.InternalDomains rule ldn ++ env.ExternalDomains rule ldn
             Routes := (pathsTranslation env ing index rule.HTTP.Paths).ruleRoute } :
            VirtualHost))).length = pre.length := by simp
      rw [← hl, List.map_append, List.map_cons]
      exact getElem?_length_append _ _ _
    · simp only [hroutes]
      rw [← hlen]
      exact getElem?_length_append _ _ _
  · intro hx
    refine ⟨VirtualHost.mk ing.Name (env.ExternalDomains rule ldn)
      (pathsTranslation env ing index rule.HTTP.Paths).ruleRoute, ?_, ?_⟩
    · rw [o3, hr]
      have hl : ((pre.filter (fun x => env.RuleIsExternal x ing.Spec.Visibility)).map
          (fun rule : IngressRule =>
          ({ Name := ing.Name
             Domains := env.ExternalDomains rule ldn
             Routes := (pathsTranslation env ing index rule.HTTP.Paths).ruleRoute } :
            VirtualHost))).length =
          (pre.filter (fun x => env.RuleIsExternal x ing.Spec.Visibility)).length := by simp
      rw [← hl, List.filter_append, List.filter_cons, if_pos hx, List.map_append, List.map_cons]
      exact getElem?_length_append _ _ _
    · simp only [hroutes]
      rw [← hlen]
      exact getElem?_length_append _ _ _

/-- In `exampleEnv` every lookup of a split to `foo` succeeds. -/
theorem exampleEnv_foo (ing : Ingress) (percent : Int) :
    lookupsSucceed exampleEnv ing (exampleSplit "foo" percent) :=
  ⟨⟨_, rfl⟩, fun _ ht => (nomatch ht), ⟨_, rfl⟩⟩

/-- In `exampleEnv` the endpoints lookup of a split to `bar` fails. -/
theorem exampleEnv_bar (percent : Int) : lookupFails exampleEnv (exampleSplit "bar" percent) :=
  Or.inl ⟨_, rfl⟩

/-! ## Claims -/

/-- C1: in a path all of whose splits pass the endpoints lookup, the tracker and
the service lookup and have a percentage in `[0, 2^32)`, the route emitted for
the path (the `AddRoute` call of the path, which is also the route at the
path's position in the virtual hosts of its rule) carries one weighted cluster
per split, in source order, the `k`-th named `ServiceName ++ path` (an empty
path read as `/`) with weight exactly `Percent`. -/
theorem weighted_clusters_follow_splits (env : Env) (ing : Ingress) (ldn : String)
    (index : Int) (pre post : List IngressRule) (rule : IngressRule)
    (ppre ppost : List HTTPIngressPath) (p : HTTPIngressPath)
    (hr : ing.Spec.Rules = pre ++ rule :: post)
    (hp : rule.HTTP.Paths = ppre ++ p :: ppost)
    (hok : ∀ s ∈ p.Splits, lookupsSucceed env ing s)
    (hpc : ∀ s ∈ p.Splits, 0 ≤ s.Percent ∧ s.Percent < 2 ^ 32) :
    ∃ r : Route,
      (routesAdded (addIngressToCaches env [] ing ldn index))[
          (pre.map (fun x => x.HTTP.Paths.length)).sum + ppre.length]? = some r ∧
      (∃ vh, (internalVirtualHostsAdded (addIngressToCaches env [] ing ldn index))[pre.length]? =
          some vh ∧ vh.Routes[ppre.length]? = some r) ∧
      (env.RuleIsExternal rule ing.Spec.Visibility = true →
        ∃ vh, (externalVirtualHostsAdded (addIngressToCaches env [] ing ldn index))[
            (pre.filter (fun x => env.RuleIsExternal x ing.Spec.Visibility)).length]? = some vh ∧
          vh.Routes[ppre.length]? = some r) ∧
      r.Clusters.length = p.Splits.length ∧
      ∀ (k : Nat) (s : IngressBackendSplit), p.Splits[k]? = some s →
        ∃ w, r.Clusters[k]? = some w ∧
          w.Name = s.ServiceName ++ (if p.Path ≠ "" then p.Path else "/") ∧
          w.Weight = s.Percent := by
  obtain ⟨h1, h2, h3⟩ := route_of_path env ing ldn index pre post rule ppre ppost p hr hp
  obtain ⟨ops, hops, -⟩ := splitLoop_of_lookupsSucceed env ing
    (if p.Path ≠ "" then p.Path else "/") p.Splits { caches := [], wrs := [] } hok
  rw [hops] at h1 h2 h3
  refine ⟨_, h1, h2, h3, ?_, ?_⟩
  · simp [createRouteForRevision]
  · intro k s hk
    refine ⟨weightedCluster s.ServiceName (toUint32 s.Percent)
      (if p.Path ≠ "" then p.Path else "/") s.AppendHeaders, ?_, rfl, ?_⟩
    · simp [createRouteForRevision, List.getElem?_map, hk]
    · have hmem : s ∈ p.Splits := List.getElem?_mem hk
      obtain ⟨h0, hlt⟩ := hpc s hmem
      simp only [weightedCluster, toUint32]
      exact Int.emod_eq_of_lt h0 (by simpa using hlt)

/-- C1 at the traffic split `[(foo, 60), (foo, 40)]` of the only path of the
only rule. -/
theorem weighted_clusters_follow_splits_witness :
    ∃ r : Route,
      (routesAdded (addIngressToCaches exampleEnv []
        (exampleIngress [exampleRule "a.example.com"
          [examplePath [exampleSplit "foo" 60, exampleSplit "foo" 40]]]) "cluster.local" 0))[
          (([] : List IngressRule).map (fun x => x.HTTP.Paths.length)).sum +
            ([] : List HTTPIngressPath).length]? = some r ∧
      r.Clusters.map (fun w => (w.Name, w.Weight)) = [("foo/", 60), ("foo/", 40)] := by
  obtain ⟨r, h1, -, -, -, h5⟩ := weighted_clusters_follow_splits exampleEnv
    (exampleIngress [exampleRule "a.example.com"
      [examplePath [exampleSplit "foo" 60, exampleSplit "foo" 40]]]) "cluster.local" 0
    [] [] (exampleRule "a.example.com"
      [examplePath [exampleSplit "foo" 60, exampleSplit "foo" 40]])
    [] [] (examplePath [exampleSplit "foo" 60, exampleSplit "foo" 40]) rfl rfl
    (by
      intro s hs
      simp only [examplePath, List.mem_cons, List.mem_singleton, List.not_mem_nil, or_false] at hs
      rcases hs with rfl | rfl
      · exact exampleEnv_foo _ _
      · exact exampleEnv_foo _ _)
    (by
      intro s hs
      simp only [examplePath, List.mem_cons, List.mem_singleton, List.not_mem_nil, or_false] at hs
      rcases hs with rfl | rfl <;> decide)
  refine ⟨r, h1, ?_⟩
  have e : (routesAdded (addIngressToCaches exampleEnv []
        (exampleIngress [exampleRule "a.example.com"
          [examplePath [exampleSplit "foo" 60, exampleSplit "foo" 40]]]) "cluster.local" 0))[
          (([] : List IngressRule).map (fun x => x.HTTP.Paths.length)).sum +
            ([] : List HTTPIngressPath).length]? =
      some (createRouteForRevision "ing" 0
        (examplePath [exampleSplit "foo" 60, exampleSplit "foo" 40])
        [weightedCluster "foo" 60 "/" [], weightedCluster "foo" 40 "/" []]) := by decide
  rw [e] at h1
  cases h1
  decide

/-- C2: when the endpoints or the service lookup fails at split `k` of a path
(the splits before it pass their lookups), the split loop of that path stops:
its weighted-cluster list holds exactly the entries of splits `0..k-1` and
`AddCluster` is called exactly for those splits; the log of the whole
translation is the log of the earlier rules and paths, these cluster calls, the
`AddRoute` of the path, and then the logs that the later paths and the later
rules produce when translated on their own, followed by the virtual hosts,
whose route lists are those of the earlier paths, the route of this path and
the routes of the later paths translated on their own. -/
theorem lookup_failure_ends_split_loop_only (env : Env) (ing : Ingress) (ldn : String)
    (index : Int) (pre post : List IngressRule) (rule : IngressRule)
    (ppre ppost : List HTTPIngressPath) (p : HTTPIngressPath)
    (spre spost : List IngressBackendSplit) (s : IngressBackendSplit)
    (hr : ing.Spec.Rules = pre ++ rule :: post)
    (hp : rule.HTTP.Paths = ppre ++ p :: ppost)
    (hsp : p.Splits = spre ++ s :: spost)
    (hpre : ∀ x ∈ spre, lookupsSucceed env ing x)
    (hfail : lookupFails env s) :
    ∃ ops : List CacheOp,
      splitLoop env ing (if p.Path ≠ "" then p.Path else "/") p.Splits
          { caches := [], wrs := [] } =
        { caches := ops
          wrs := spre.map (fun x => weightedCluster x.ServiceName (toUint32 x.Percent)
            (if p.Path ≠ "" then p.Path else "/") x.AppendHeaders) } ∧
      List.Forall₂
        (fun x op => ∃ c, op = CacheOp.AddCluster c x.ServiceName x.ServiceNamespace
          (if p.Path ≠ "" then p.Path else "/"))
        spre ops ∧
      addIngressToCaches env [] ing ldn index =
        [CacheOp.AddIngress ing] ++
        (rulesTranslation env ing ldn index pre).caches ++
        (pathsTranslation env ing index ppre).caches ++
        ops ++
        [CacheOp.AddRoute
          (createRouteForRevision ing.Name index p
            (spre.map (fun x => weightedCluster x.ServiceName (toUint32 x.Percent)
              (if p.Path ≠ "" then p.Path else "/") x.AppendHeaders)))
          ing.Name ing.Namespace] ++
        (pathsTranslation env ing index ppost).caches ++
        (rulesTranslation env ing ldn index post).caches ++
        ((rulesTranslation env ing ldn index pre).externalVirtualHosts ++
          (if env.RuleIsExternal rule ing.Spec.Visibility then
            [({ Name := ing.Name
                Domains := env.ExternalDomains rule ldn
                Routes := (pathsTranslation env ing index ppre).ruleRoute ++
                  createRouteForRevision ing.Name index p
                    (spre.map (fun x => weightedCluster x.ServiceName (toUint32 x.Percent)
                      (if p.Path ≠ "" then p.Path else "/") x.AppendHeaders)) ::
                  (pathsTranslation env ing index ppost).ruleRoute } : VirtualHost)]
          else []) ++
          (rulesTranslation env ing ldn index post).externalVirtualHosts).map
          (fun v => CacheOp.AddExternalVirtualHostForIngress v ing.Name ing.Namespace) ++
        ((rulesTranslation env ing ldn index pre).clusterLocalVirtualHosts ++
          ({ Name := ing.Name
             Domains := env.InternalDomains rule ldn ++ env.ExternalDomains rule ldn
             Routes := (pathsTranslation env ing index ppre).ruleRoute ++
               createRouteForRevision ing.Name index p
                 (spre.map (fun x => weightedCluster x.ServiceName (toUint32 x.Percent)
                   (if p.Path ≠ "" then p.Path else "/") x.AppendHeaders)) ::
               (pathsTranslation env ing index ppost).ruleRoute } : VirtualHost) ::
          (rulesTranslation env ing ldn index post).clusterLocalVirtualHosts).map
          (fun v => CacheOp.AddInternalVirtualHostForIngress v ing.Name ing.Namespace) := by
  obtain ⟨ops, hops, hall⟩ := splitLoop_of_lookupsSucceed env ing
    (if p.Path ≠ "" then p.Path else "/") spre { caches := [], wrs := [] } hpre
  have hloop : splitLoop env ing (if p.Path ≠ "" then p.Path else "/") p.Splits
      { caches := [], wrs := [] } =
      { caches := ops
        wrs := spre.map (fun x => weightedCluster x.ServiceName (toUint32 x.Percent)
          (if p.Path ≠ "" then p.Path else "/") x.AppendHeaders) } := by
    rw [hsp, splitLoop_append_of_lookupFails env ing _ spre spost s _ hpre hfail, hops]
    simp
  refine ⟨ops, hloop, ?_, ?_⟩
  · exact hall.imp (fun _ _ ⟨c, hc, _⟩ => ⟨c, hc⟩)
  · rw [addIngressToCaches_eq, hr, rulesTranslation_append, rulesTranslation_cons,
      rulesTranslation_singleton, hp, pathsTranslation_append, pathsTranslation_cons,
      pathsTranslation_singleton, hloop]
    by_cases hx : env.RuleIsExternal rule ing.Spec.Visibility = true <;>
      simp [hx, List.append_assoc]

/-- C2 at a path whose second split points at a service that is not visible,
followed by a second path and a second rule. -/
theorem lookup_failure_ends_split_loop_only_witness :
    lookupFails exampleEnv (exampleSplit "bar" 40) ∧
    ∃ ops : List CacheOp,
      splitLoop exampleEnv
          (exampleIngress
            [exampleRule "a.example.com"
              [examplePath [exampleSplit "foo" 60, exampleSplit "bar" 40],
               examplePath [exampleSplit "foo" 100]],
             exampleRule "b.example.com" [examplePath [exampleSplit "foo" 100]]])
          "/" [exampleSplit "foo" 60, exampleSplit "bar" 40] { caches := [], wrs := [] } =
        { caches := ops, wrs := [weightedCluster "foo" 60 "/" []] } ∧
      ops.length = 1 := by
  refine ⟨exampleEnv_bar 40, ?_⟩
  obtain ⟨ops, h1, h2, -⟩ := lookup_failure_ends_split_loop_only exampleEnv
    (exampleIngress
      [exampleRule "a.example.com"
        [examplePath [exampleSplit "foo" 60, exampleSplit "bar" 40],
         examplePath [exampleSplit "foo" 100]],
       exampleRule "b.example.com" [examplePath [exampleSplit "foo" 100]]])
    "cluster.local" 0
    [] [exampleRule "b.example.com" [examplePath [exampleSplit "foo" 100]]]
    (exampleRule "a.example.com"
      [examplePath [exampleSplit "foo" 60, exampleSplit "bar" 40],
       examplePath [exampleSplit "foo" 100]])
    [] [examplePath [exampleSplit "foo" 100]]
    (examplePath [exampleSplit "foo" 60, exampleSplit "bar" 40])
    [exampleSplit "foo" 60] [] (exampleSplit "bar" 40) rfl rfl rfl
    (by
      intro x hx
      simp only [List.mem_singleton] at hx
      subst hx
      exact exampleEnv_foo _ _)
    (exampleEnv_bar 40)
  exact ⟨ops, h1, by simpa using h2.length_eq.symm⟩

/-- The routes of a path loop are the routes built for its paths. -/
theorem mem_ruleRoute (env : Env) (ing : Ingress) (index : Int)
    (paths : List HTTPIngressPath) (r : Route)
    (h : r ∈ (pathsTranslation env ing index paths).ruleRoute) :
    ∃ p ∈ paths, r = createRouteForRevision ing.Name index p
      (splitLoop env ing (if p.Path ≠ "" then p.Path else "/") p.Splits
        { caches := [], wrs := [] }).wrs := by
  induction paths with
  | nil => simp [pathsTranslation] at h
  | cons q qs ih =>
    rw [pathsTranslation_cons, pathsTranslation_singleton] at h
    simp only [List.singleton_append, List.mem_cons] at h
    rcases h with rfl | h
    · exact ⟨q, List.mem_cons_self _ _, rfl⟩
    · obtain ⟨p, hp, hr⟩ := ih h
      exact ⟨p, List.mem_cons_of_mem _ hp, hr⟩

/-- Every route of a translation, wherever it is emitted, is the route built
for one path of one rule of the ingress. -/
theorem mem_routesEmitted (env : Env) (ing : Ingress) (ldn : String) (index : Int) (r : Route)
    (h : r ∈ routesEmitted (addIngressToCaches env [] ing ldn index)) :
    ∃ rule ∈ ing.Spec.Rules, ∃ p ∈ rule.HTTP.Paths,
      r = createRouteForRevision ing.Name index p
        (splitLoop env ing (if p.Path ≠ "" then p.Path else "/") p.Splits
          { caches := [], wrs := [] }).wrs := by
  obtain ⟨o1, o2, o3⟩ := addIngressToCaches_observe env ing ldn index
  simp only [routesEmitted, o1, o2, o3, List.mem_append, List.mem_flatten, List.mem_map,
    List.mem_filter] at h
  rcases h with (⟨l, ⟨rule, hrule, rfl⟩, hr⟩ | ⟨l, ⟨v, ⟨rule, hrule, rfl⟩, rfl⟩, hr⟩) |
    ⟨l, ⟨v, ⟨rule, ⟨hrule, -⟩, rfl⟩, rfl⟩, hr⟩
  · obtain ⟨p, hp, e⟩ := mem_ruleRoute env ing index _ r hr
    exact ⟨rule, hrule, p, hp, e⟩
  · obtain ⟨p, hp, e⟩ := mem_ruleRoute env ing index _ r hr
    exact ⟨rule, hrule, p, hp, e⟩
  · obtain ⟨p, hp, e⟩ := mem_ruleRoute env ing index _ r hr
    exact ⟨rule, hrule, p, hp, e⟩

theorem addIngressToCaches_append (env : Env) (caches : List CacheOp) (ing : Ingress)
    (ldn : String) (index : Int) :
    addIngressToCaches env caches ing ldn index =
      caches ++ addIngressToCaches env [] ing ldn index := by
  rw [addIngressToCaches_eq, addIngressToCaches_eq env []]
  simp [List.append_assoc]

/-- `UpdateInfoForIngress` emits the routes of `addIngressToCaches` at the
index it computes. -/
theorem routesEmitted_UpdateInfoForIngress (env : Env) (ing : Ingress) (ldn : String)
    (lenLocal lenExternal : Int) :
    routesEmitted (UpdateInfoForIngress env [] ing ldn lenLocal lenExternal) =
      routesEmitted (addIngressToCaches env [] ing ldn (Kourier.max lenLocal lenExternal)) := by
  unfold UpdateInfoForIngress
  simp only [List.nil_append]
  rw [addIngressToCaches_append]
  simp [routesEmitted, routesAdded, internalVirtualHostsAdded, externalVirtualHostsAdded,
    List.filterMap_append]

/-- C3, refuted as stated: the only split of the only path of this ingress
points at a service whose endpoints lookup fails, and the path still gets its
route, passed to `AddRoute` and listed in the external and the internal
virtual host of the rule. -/
theorem failed_lookup_path_still_routed :
    (∃ s ∈ (examplePath [exampleSplit "bar" 100]).Splits, lookupFails exampleEnv s) ∧
    routesAdded (addIngressToCaches exampleEnv []
      (exampleIngress [exampleRule "a.example.com" [examplePath [exampleSplit "bar" 100]]])
      "cluster.local" 0) =
      [createRouteForRevision "ing" 0 (examplePath [exampleSplit "bar" 100]) []] ∧
    internalVirtualHostsAdded (addIngressToCaches exampleEnv []
      (exampleIngress [exampleRule "a.example.com" [examplePath [exampleSplit "bar" 100]]])
      "cluster.local" 0) =
      [{ Name := "ing", Domains := ["a.example.com"]
         Routes := [createRouteForRevision "ing" 0 (examplePath [exampleSplit "bar" 100]) []] }] ∧
    externalVirtualHostsAdded (addIngressToCaches exampleEnv []
      (exampleIngress [exampleRule "a.example.com" [examplePath [exampleSplit "bar" 100]]])
      "cluster.local" 0) =
      [{ Name := "ing", Domains := ["a.example.com"]
         Routes := [createRouteForRevision "ing" 0 (examplePath [exampleSplit "bar" 100]) []] }] :=
  ⟨⟨exampleSplit "bar" 100, List.mem_singleton.2 rfl, exampleEnv_bar 100⟩,
    by decide, by decide, by decide⟩

/-- C3, amended: when the service or the endpoints lookup fails for some split
of a path, the route of the path is still emitted, by `AddRoute` and in the
virtual hosts of the rule; it matches the prefix of the path and its weighted
clusters are those of a proper prefix of the splits, the ones handled before
the loop over the splits was left. -/
theorem failed_lookup_path_keeps_handled_splits (env : Env) (ing : Ingress) (ldn : String)
    (index : Int) (pre post : List IngressRule) (rule : IngressRule)
    (ppre ppost : List HTTPIngressPath) (p : HTTPIngressPath)
    (hr : ing.Spec.Rules = pre ++ rule :: post)
    (hp : rule.HTTP.Paths = ppre ++ p :: ppost)
    (hfail : ∃ s ∈ p.Splits, lookupFails env s) :
    ∃ (r : Route) (handled rest : List IngressBackendSplit),
      (routesAdded (addIngressToCaches env [] ing ldn index))[
          (pre.map (fun x => x.HTTP.Paths.length)).sum + ppre.length]? = some r ∧
      (∃ vh, (internalVirtualHostsAdded (addIngressToCaches env [] ing ldn index))[pre.length]? =
          some vh ∧ vh.Routes[ppre.length]? = some r) ∧
      (env.RuleIsExternal rule ing.Spec.Visibility = true →
        ∃ vh, (externalVirtualHostsAdded (addIngressToCaches env [] ing ldn index))[
            (pre.filter (fun x => env.RuleIsExternal x ing.Spec.Visibility)).length]? = some vh ∧
          vh.Routes[ppre.length]? = some r) ∧
      r.Prefix = (if p.Path ≠ "" then p.Path else "/") ∧
      p.Splits = handled ++ rest ∧ rest ≠ [] ∧
      r.Clusters = handled.map (fun x => weightedCluster x.ServiceName (toUint32 x.Percent)
        (if p.Path ≠ "" then p.Path else "/") x.AppendHeaders) := by
  obtain ⟨h1, h2, h3⟩ := route_of_path env ing ldn index pre post rule ppre ppost p hr hp
  obtain ⟨handled, rest, ops, hsp, hres, -, hnf⟩ := splitLoop_handled env ing
    (if p.Path ≠ "" then p.Path else "/") p.Splits { caches := [], wrs := [] }
  rw [hres] at h1 h2 h3
  refine ⟨_, handled, rest, h1, h2, h3, rfl, hsp, ?_, by simp [createRouteForRevision]⟩
  rintro rfl
  obtain ⟨s, hs, hf⟩ := hfail
  rw [hsp, List.append_nil] at hs
  exact hnf s hs hf

/-- C3, amended, at a path whose second split points at a service that is not
visible. -/
theorem failed_lookup_path_keeps_handled_splits_witness :
    (∃ s ∈ (examplePath [exampleSplit "foo" 60, exampleSplit "bar" 40]).Splits,
      lookupFails exampleEnv s) ∧
    ∃ (r : Route) (handled rest : List IngressBackendSplit),
      (routesAdded (addIngressToCaches exampleEnv []
        (exampleIngress [exampleRule "a.example.com"
          [examplePath [exampleSplit "foo" 60, exampleSplit "bar" 40]]]) "cluster.local" 0))[
          (([] : List IngressRule).map (fun x => x.HTTP.Paths.length)).sum +
            ([] : List HTTPIngressPath).length]? = some r ∧
      (examplePath [exampleSplit "foo" 60, exampleSplit "bar" 40]).Splits = handled ++ rest ∧
      rest ≠ [] ∧
      r.Clusters = handled.map (fun x => weightedCluster x.ServiceName (toUint32 x.Percent)
        (if (examplePath [exampleSplit "foo" 60, exampleSplit "bar" 40]).Path ≠ ""
          then (examplePath [exampleSplit "foo" 60, exampleSplit "bar" 40]).Path else "/")
        x.AppendHeaders) := by
  have hf : ∃ s ∈ (examplePath [exampleSplit "foo" 60, exampleSplit "bar" 40]).Splits,
      lookupFails exampleEnv s :=
    ⟨exampleSplit "bar" 40, by simp [examplePath], exampleEnv_bar 40⟩
  refine ⟨hf, ?_⟩
  obtain ⟨r, handled, rest, h1, -, -, -, h5, h6, h7⟩ :=
    failed_lookup_path_keeps_handled_splits exampleEnv
      (exampleIngress [exampleRule "a.example.com"
        [examplePath [exampleSplit "foo" 60, exampleSplit "bar" 40]]]) "cluster.local" 0
      [] [] (exampleRule "a.example.com"
        [examplePath [exampleSplit "foo" 60, exampleSplit "bar" 40]])
      [] [] (examplePath [exampleSplit "foo" 60, exampleSplit "bar" 40]) rfl rfl hf
  exact ⟨r, handled, rest, h1, h5, h6, h7⟩

/-- C4, refuted as stated: on an empty cache `UpdateInfoForIngress` names the
route of the rule at index 1 `ing_0`, not `ing_1`. -/
theorem second_rule_route_named_by_cache_index :
    (exampleIngress [exampleRule "a.example.com" [examplePath []],
      exampleRule "b.example.com" [examplePath []]]).Spec.Rules[1]? =
      some (exampleRule "b.example.com" [examplePath []]) ∧
    (internalVirtualHostsAdded (UpdateInfoForIngress exampleEnv []
      (exampleIngress [exampleRule "a.example.com" [examplePath []],
        exampleRule "b.example.com" [examplePath []]]) "cluster.local" 0 0))[1]? =
      some { Name := "ing", Domains := ["b.example.com"]
             Routes := [createRouteForRevision "ing" 0 (examplePath []) []] } ∧
    (createRouteForRevision "ing" 0 (examplePath []) []).Name = "ing_0" ∧
    (createRouteForRevision "ing" 0 (examplePath []) []).Name ≠
      (exampleIngress [exampleRule "a.example.com" [examplePath []],
        exampleRule "b.example.com" [examplePath []]]).Name ++ "_" ++ Itoa 1 := by
  decide

/-- C4, amended: every route emitted for an ingress, whatever its rule, is
named `ingress.Name ++ "_" ++ decimal(index)` where `index` is the argument of
`addIngressToCaches`, which `UpdateInfoForIngress` sets to the larger of the
sizes of the two virtual-host maps of the caches. -/
theorem route_names_use_cache_index (env : Env) (ing : Ingress) (ldn : String)
    (index lenLocal lenExternal : Int) (r : Route) :
    (r ∈ routesEmitted (addIngressToCaches env [] ing ldn index) →
      r.Name = ing.Name ++ "_" ++ Itoa index) ∧
    (r ∈ routesEmitted (UpdateInfoForIngress env [] ing ldn lenLocal lenExternal) →
      r.Name = ing.Name ++ "_" ++ Itoa (Kourier.max lenLocal lenExternal)) := by
  constructor
  · intro h
    obtain ⟨rule, -, p, -, rfl⟩ := mem_routesEmitted env ing ldn index r h
    rfl
  · intro h
    rw [routesEmitted_UpdateInfoForIngress] at h
    obtain ⟨rule, -, p, -, rfl⟩ := mem_routesEmitted env ing ldn _ r h
    rfl

/-- C4, amended, at the route of the second rule of a two-rule ingress on a
cache holding three ingresses. -/
theorem route_names_use_cache_index_witness :
    createRouteForRevision "ing" 3 (examplePath []) [] ∈
      routesEmitted (UpdateInfoForIngress exampleEnv []
        (exampleIngress [exampleRule "a.example.com" [examplePath []],
          exampleRule "b.example.com" [examplePath []]]) "cluster.local" 3 2) ∧
    (createRouteForRevision "ing" 3 (examplePath []) []).Name = "ing" ++ "_" ++ Itoa 3 :=
  ⟨by decide,
    (route_names_use_cache_index exampleEnv
      (exampleIngress [exampleRule "a.example.com" [examplePath []],
        exampleRule "b.example.com" [examplePath []]]) "cluster.local" 3 3 2
      (createRouteForRevision "ing" 3 (examplePath []) [])).2 (by decide)⟩

/-! ## Domain expansion -/

/-- A string `h` has the suffix `s` and trims to `x` exactly when `h = x ++ s`. -/
theorem hasSuffix_trimSuffix_iff (h s x : String) :
    (HasSuffix h s = true ∧ x = TrimSuffix h s) ↔ h = x ++ s := by
  constructor
  · rintro ⟨hs, rfl⟩
    have hs' := hs
    simp only [HasSuffix, Bool.and_eq_true, decide_eq_true_eq] at hs'
    obtain ⟨-, hdrop⟩ := hs'
    apply String.ext
    simp only [TrimSuffix, hs, if_true, String.data_append]
    rw [← hdrop]
    exact (List.take_append_drop _ _).symm
  · rintro rfl
    have hlen : (x ++ s).length - s.length = x.data.length := by
      show (x ++ s).length - s.length = x.length
      rw [String.length_append]
      omega
    have hs : HasSuffix (x ++ s) s = true := by
      simp only [HasSuffix, Bool.and_eq_true, decide_eq_true_eq]
      refine ⟨by rw [String.length_append]; omega, ?_⟩
      rw [hlen]
      simp
    refine ⟨hs, ?_⟩
    apply String.ext
    simp only [TrimSuffix, hs, if_true]
    rw [hlen]
    simp

theorem mem_suffix_foldl (h : String) (suffixes : List String) (acc : Finset String)
    (x : String) :
    x ∈ suffixes.foldl
        (fun expanded suffix =>
          if HasSuffix h suffix then insert (TrimSuffix h suffix) expanded else expanded)
        acc ↔
      x ∈ acc ∨ ∃ s ∈ suffixes, HasSuffix h s = true ∧ x = TrimSuffix h s := by
  induction suffixes generalizing acc with
  | nil => simp
  | cons s rest ih =>
    rw [List.foldl_cons, ih]
    by_cases hs : HasSuffix h s = true
    · simp only [hs, if_true, Finset.mem_insert, List.mem_cons, exists_eq_or_imp, true_and]
      tauto
    · simp only [hs, List.mem_cons, exists_eq_or_imp, false_and, false_or]
      simp

theorem mem_host_foldl (suffixes : List String) (hosts : List String) (acc : Finset String)
    (x : String) :
    x ∈ hosts.foldl
        (fun expanded h =>
          suffixes.foldl
            (fun expanded suffix =>
              if HasSuffix h suffix then insert (TrimSuffix h suffix) expanded else expanded)
            expanded)
        acc ↔
      x ∈ acc ∨ ∃ h ∈ hosts, ∃ s ∈ suffixes, HasSuffix h s = true ∧ x = TrimSuffix h s := by
  induction hosts generalizing acc with
  | nil => simp
  | cons h rest ih =>
    rw [List.foldl_cons, ih, mem_suffix_foldl]
    constructor
    · rintro ((hx | hx) | ⟨h', hh', hx⟩)
      · exact Or.inl hx
      · exact Or.inr ⟨h, List.mem_cons_self _ _, hx⟩
      · exact Or.inr ⟨h', List.mem_cons_of_mem _ hh', hx⟩
    · rintro (hx | ⟨h', hh', hx⟩)
      · exact Or.inl (Or.inl hx)
      · rcases List.mem_cons.1 hh' with rfl | hh'
        · exact Or.inl (Or.inr hx)
        · exact Or.inr ⟨h', hh', hx⟩

/-- Membership in the expanded set. -/
theorem mem_ExpandedHosts_iff (S : String) (H : Finset String) (x : String) :
    x ∈ ExpandedHosts S H ↔
      ∃ h ∈ H, ∃ s ∈ ["", "." ++ S, ".svc." ++ S], h = x ++ s := by
  unfold ExpandedHosts
  simp only [mem_host_foldl, Finset.not_mem_empty, false_or, Finset.mem_sort,
    hasSuffix_trimSuffix_iff]

theorem subset_ExpandedHosts (S : String) (H : Finset String) : H ⊆ ExpandedHosts S H := by
  intro h hh
  rw [mem_ExpandedHosts_iff]
  exact ⟨h, hh, "", by simp, by simp⟩

theorem hasSuffix_iff (h s : String) : HasSuffix h s = true ↔ ∃ x, h = x ++ s := by
  constructor
  · intro hs
    exact ⟨TrimSuffix h s, (hasSuffix_trimSuffix_iff h s _).1 ⟨hs, rfl⟩⟩
  · rintro ⟨x, hx⟩
    exact ((hasSuffix_trimSuffix_iff h s x).2 hx).1

/-- A name ending in `.svc.S` ends in `.S`. -/
theorem hasSuffix_dot_of_svc (S y : String) (h : HasSuffix y (".svc." ++ S) = true) :
    HasSuffix y ("." ++ S) = true := by
  obtain ⟨x, rfl⟩ := (hasSuffix_iff _ _).1 h
  refine (hasSuffix_iff _ _).2 ⟨x ++ ".svc", ?_⟩
  apply String.ext
  simp [String.data_append, List.append_assoc]

/-- C5, refuted as stated: with cluster domain `cluster.local` the host
`a.cluster.local.cluster.local` expands to itself and `a.cluster.local`;
expanding again adds `a`. -/
theorem expansion_not_idempotent :
    ExpandedHosts "cluster.local"
        (ExpandedHosts "cluster.local" {"a.cluster.local.cluster.local"}) ≠
      ExpandedHosts "cluster.local" {"a.cluster.local.cluster.local"} := by
  intro heq
  have h1 : "a.cluster.local" ∈
      ExpandedHosts "cluster.local" {"a.cluster.local.cluster.local"} :=
    (mem_ExpandedHosts_iff _ _ _).2
      ⟨"a.cluster.local.cluster.local", by simp, "." ++ "cluster.local", by simp, by decide⟩
  have h2 : "a" ∈ ExpandedHosts "cluster.local"
      (ExpandedHosts "cluster.local" {"a.cluster.local.cluster.local"}) :=
    (mem_ExpandedHosts_iff _ _ _).2
      ⟨"a.cluster.local", h1, "." ++ "cluster.local", by simp, by decide⟩
  rw [heq, mem_ExpandedHosts_iff] at h2
  obtain ⟨h, hh, s, hs, e⟩ := h2
  rw [Finset.mem_singleton] at hh
  subst hh
  simp only [List.mem_cons, List.mem_singleton, List.not_mem_nil, or_false] at hs
  rcases hs with rfl | rfl | rfl
  · exact absurd e (by decide)
  · exact absurd e (by decide)
  · exact absurd e (by decide)

/-- C5, amended: expansion only adds names, and it is idempotent on every host
set none of whose added short forms (the members of the expanded set that are
not hosts of the set) still ends with `"." ++ clusterDomainName`. -/
theorem expansion_idempotent_without_nested_suffix (S : String) (H : Finset String) :
    ExpandedHosts S H ⊆ ExpandedHosts S (ExpandedHosts S H) ∧
    ((∀ y ∈ ExpandedHosts S H, y ∉ H → HasSuffix y ("." ++ S) = false) →
      ExpandedHosts S (ExpandedHosts S H) = ExpandedHosts S H) := by
  refine ⟨subset_ExpandedHosts S _, fun hyp => ?_⟩
  apply Finset.Subset.antisymm _ (subset_ExpandedHosts S _)
  intro x hx
  rw [mem_ExpandedHosts_iff] at hx
  obtain ⟨y, hy, s, hs, e⟩ := hx
  by_cases hyH : y ∈ H
  · exact (mem_ExpandedHosts_iff S H x).2 ⟨y, hyH, s, hs, e⟩
  · have hno := hyp y hy hyH
    simp only [List.mem_cons, List.mem_singleton, List.not_mem_nil, or_false] at hs
    rcases hs with rfl | rfl | rfl
    · have : x = y := by
        rw [e]
        exact (String.append_empty x).symm
      rw [this]
      exact hy
    · have := (hasSuffix_iff y ("." ++ S)).2 ⟨x, e⟩
      rw [hno] at this
      cases this
    · have := hasSuffix_dot_of_svc S y ((hasSuffix_iff y (".svc." ++ S)).2 ⟨x, e⟩)
      rw [hno] at this
      cases this

/-- C5, amended, at the host set `{a.cluster.local}`, whose only added short
form is `a`. -/
theorem expansion_idempotent_without_nested_suffix_witness :
    ExpandedHosts "cluster.local" (ExpandedHosts "cluster.local" {"a.cluster.local"}) =
      ExpandedHosts "cluster.local" {"a.cluster.local"} := by
  refine (expansion_idempotent_without_nested_suffix "cluster.local" {"a.cluster.local"}).2 ?_
  intro y hy hny
  rw [mem_ExpandedHosts_iff] at hy
  obtain ⟨h, hh, s, hs, e⟩ := hy
  rw [Finset.mem_singleton] at hh hny
  subst hh
  obtain ⟨hsuf, rfl⟩ := (hasSuffix_trimSuffix_iff _ _ _).2 e
  simp only [List.mem_cons, List.mem_singleton, List.not_mem_nil, or_false] at hs
  rcases hs with rfl | rfl | rfl
  · exact absurd (by decide) hny
  · decide
  · exact absurd hsuf (by decide)

/-- C6: a string is in the expanded set exactly when it is a host of the set
with one of the suffixes `""`, `"." ++ S`, `".svc." ++ S` removed from its end
(the host has the suffix, the string is the trimmed host, the host is the
string followed by the suffix); in particular every host is in the expanded
set. -/
theorem expanded_hosts_are_trimmed_hosts (S : String) (H : Finset String) :
    (∀ x : String, x ∈ ExpandedHosts S H ↔
      ∃ h ∈ H, ∃ s ∈ ["", "." ++ S, ".svc." ++ S],
        HasSuffix h s = true ∧ x = TrimSuffix h s ∧ h = x ++ s) ∧
    H ⊆ ExpandedHosts S H := by
  refine ⟨fun x => ?_, subset_ExpandedHosts S H⟩
  rw [mem_ExpandedHosts_iff]
  constructor
  · rintro ⟨h, hh, s, hs, e⟩
    obtain ⟨h1, h2⟩ := (hasSuffix_trimSuffix_iff h s x).2 e
    exact ⟨h, hh, s, hs, h1, h2, e⟩
  · rintro ⟨h, hh, s, hs, -, -, e⟩
    exact ⟨h, hh, s, hs, e⟩

/-- C7: when the spec serializes to `bytes`, `ComputeHash` returns no error
and `Sum256 (bytes ++ namespace ++ name)`; when serialization fails it
returns an error and the all-zero digest of 32 bytes. -/
theorem compute_hash_digest_or_zero (jsonMarshal : IngressSpec → Except String (List Nat))
    (Sum256 : List Nat → List Nat) (ing : Ingress) :
    (∀ bytes, jsonMarshal ing.Spec = .ok bytes →
      ComputeHash jsonMarshal Sum256 ing =
        (Sum256 (bytes ++ stringBytes ing.Namespace ++ stringBytes ing.Name), none)) ∧
    (∀ err, jsonMarshal ing.Spec = .error err →
      (ComputeHash jsonMarshal Sum256 ing).1 = List.replicate 32 0 ∧
      (ComputeHash jsonMarshal Sum256 ing).2.isSome = true ∧
      ∀ b ∈ (ComputeHash jsonMarshal Sum256 ing).1, b = 0) := by
  constructor
  · intro bytes h
    simp [ComputeHash, h]
  · intro err h
    simp [ComputeHash, h]

/-- C7 with a serializer that returns the two bytes `{}` and a digest function
that returns its input. -/
theorem compute_hash_digest_or_zero_witness :
    ComputeHash (fun _ => .ok [123, 125]) (fun bytes => bytes) (exampleIngress []) =
      ([123, 125] ++ stringBytes "default" ++ stringBytes "ing", none) ∧
    (ComputeHash (fun _ => .error "unsupported") (fun bytes => bytes) (exampleIngress [])).1 =
      List.replicate 32 0 :=
  ⟨(compute_hash_digest_or_zero (fun _ => .ok [123, 125]) (fun bytes => bytes)
      (exampleIngress [])).1 [123, 125] rfl,
    ((compute_hash_digest_or_zero (fun _ => .error "unsupported") (fun bytes => bytes)
      (exampleIngress [])).2 "unsupported" rfl).1⟩

theorem portLoop_foldl_of_no_match (sp : IntOrString) (l : List ServicePort) (st : Int × Bool)
    (h : ∀ q ∈ l, ¬ portMatches sp q) :
    l.foldl
      (fun st port =>
        if port.Port = sp.IntVal ∨ port.Name = sp.StrVal then
          (port.TargetPort.IntVal, decide (port.Name = "http2" ∨ port.Name = "h2c"))
        else st)
      st = st := by
  induction l generalizing st with
  | nil => rfl
  | cons q qs ih =>
    have hq : ¬ (q.Port = sp.IntVal ∨ q.Name = sp.StrVal) := h q (List.mem_cons_self _ _)
    simp only [List.foldl_cons, if_neg hq]
    exact ih st (fun x hx => h x (List.mem_cons_of_mem _ hx))

/-- The port loop on a port list with exactly one matching port. -/
theorem portLoop_of_unique_match (sp : IntOrString) (l1 l2 : List ServicePort) (p : ServicePort)
    (h1 : ∀ q ∈ l1, ¬ portMatches sp q) (hp : portMatches sp p)
    (h2 : ∀ q ∈ l2, ¬ portMatches sp q) :
    portLoop (l1 ++ p :: l2) sp =
      (p.TargetPort.IntVal, decide (p.Name = "http2" ∨ p.Name = "h2c")) := by
  have hp' : p.Port = sp.IntVal ∨ p.Name = sp.StrVal := hp
  unfold portLoop
  rw [List.foldl_append, portLoop_foldl_of_no_match sp l1 _ h1, List.foldl_cons, if_pos hp',
    portLoop_foldl_of_no_match sp l2 _ h2]

/-- Closed form of `lbEndpointsForKubeEndpoints`: one endpoint per address of
every subset, in order, all on `uint32(targetPort)`. -/
theorem lbEndpointsForKubeEndpoints_eq (e : Endpoints) (targetPort : Int) :
    lbEndpointsForKubeEndpoints e targetPort =
      (e.Subsets.map (fun subset => subset.Addresses.map (fun address =>
        ({ Protocol := SocketProtocol.TCP
           Address := address.IP
           PortValue := toUint32 targetPort
           Ipv4Compat := true } : LbEndpoint)))).flatten := by
  unfold lbEndpointsForKubeEndpoints
  simp only [foldl_append_singleton]
  generalize e.Subsets = subsets
  suffices h : ∀ init : List LbEndpoint,
      subsets.foldl (fun acc subset => acc ++ subset.Addresses.map (fun address =>
        ({ Protocol := SocketProtocol.TCP
           Address := address.IP
           PortValue := toUint32 targetPort
           Ipv4Compat := true } : LbEndpoint))) init =
      init ++ (subsets.map (fun subset => subset.Addresses.map (fun address =>
        ({ Protocol := SocketProtocol.TCP
           Address := address.IP
           PortValue := toUint32 targetPort
           Ipv4Compat := true } : LbEndpoint)))).flatten by
    simpa using h []
  intro init
  induction subsets generalizing init with
  | nil => simp
  | cons x xs ih => simp [ih, List.append_assoc]

/-- C8: when exactly one port `p` of the service matches the port reference of
a split (by number or by name), the iteration for the split calls `AddCluster`
with the cluster built from the LB endpoints on `p.TargetPort.IntVal` (one per
endpoint address, each with port value `uint32(p.TargetPort.IntVal)`, which is
`p.TargetPort.IntVal` itself when that is not negative), and the cluster has
HTTP/2 options exactly when `p.Name` is `http2` or `h2c`. -/
theorem unique_port_sets_target_and_http2 (env : Env) (ing : Ingress) (path : String)
    (st : SplitState) (s : IngressBackendSplit) (e : Endpoints) (svc : Service)
    (l1 l2 : List ServicePort) (p : ServicePort)
    (he : env.endpoints s.ServiceNamespace s.ServiceName = .ok e)
    (ht : ∀ track, env.tracker = some track →
      track { Kind := "Endpoints", APIVersion := "v1"
              Namespace := ing.Namespace, Name := s.ServiceName } ing = none)
    (hs : env.services s.ServiceNamespace s.ServiceName = .ok svc)
    (hports : svc.Ports = l1 ++ p :: l2)
    (h1 : ∀ q ∈ l1, ¬ portMatches s.ServicePort q)
    (hp : portMatches s.ServicePort p)
    (h2 : ∀ q ∈ l2, ¬ portMatches s.ServicePort q) :
    ∃ c : Cluster,
      splitBody env ing path st s =
        some
          { caches := st.caches ++
              [CacheOp.AddCluster c s.ServiceName s.ServiceNamespace path]
            wrs := st.wrs ++
              [weightedCluster s.ServiceName (toUint32 s.Percent) path s.AppendHeaders] } ∧
      c = clusterForRevision s.ServiceName 5000000000
        (lbEndpointsForKubeEndpoints e p.TargetPort.IntVal)
        (decide (p.Name = "http2" ∨ p.Name = "h2c")) path ∧
      c.LoadAssignment.Endpoints =
        [{ LbEndpoints := (e.Subsets.map (fun subset => subset.Addresses.map (fun address =>
            ({ Protocol := SocketProtocol.TCP
               Address := address.IP
               PortValue := toUint32 p.TargetPort.IntVal
               Ipv4Compat := true } : LbEndpoint)))).flatten
           Priority := 1 }] ∧
      (0 ≤ p.TargetPort.IntVal ∧ p.TargetPort.IntVal < 2 ^ 32 →
        toUint32 p.TargetPort.IntVal = p.TargetPort.IntVal) ∧
      (c.Http2ProtocolOptions.isSome = true ↔ (p.Name = "http2" ∨ p.Name = "h2c")) := by
  have hbody := splitBody_of_lookups env ing path st s e svc he ht hs
  rw [hports, portLoop_of_unique_match s.ServicePort l1 l2 p h1 hp h2] at hbody
  refine ⟨_, hbody, rfl, ?_, ?_, ?_⟩
  · rw [lbEndpointsForKubeEndpoints_eq]
    unfold clusterForRevision
    split <;> rfl
  · rintro ⟨h0, hlt⟩
    exact Int.emod_eq_of_lt h0 (by simpa using hlt)
  · unfold clusterForRevision
    by_cases hn : p.Name = "http2" ∨ p.Name = "h2c"
    · simp [hn]
    · simp [hn]

/-- C8 at the service `foo` of `exampleEnv`, whose only port is named `h2c`
and targets 8080. -/
theorem unique_port_sets_target_and_http2_witness :
    portMatches (exampleSplit "foo" 100).ServicePort
      { Name := "h2c", Port := 80, TargetPort := { IntVal := 8080, StrVal := "" } } ∧
    ∃ c : Cluster,
      splitBody exampleEnv (exampleIngress []) "/" { caches := [], wrs := [] }
          (exampleSplit "foo" 100) =
        some
          { caches := [CacheOp.AddCluster c "foo" "default" "/"]
            wrs := [weightedCluster "foo" 100 "/" []] } ∧
      c.LoadAssignment.Endpoints =
        [{ LbEndpoints := [{ Protocol := SocketProtocol.TCP, Address := "10.0.0.1"
                             PortValue := 8080, Ipv4Compat := true }]
           Priority := 1 }] ∧
      c.Http2ProtocolOptions.isSome = true := by
  refine ⟨by decide, ?_⟩
  obtain ⟨c, hc1, -, hc3, -, hc5⟩ := unique_port_sets_target_and_http2 exampleEnv
    (exampleIngress []) "/" { caches := [], wrs := [] } (exampleSplit "foo" 100)
    { Subsets := [{ Addresses := [{ IP := "10.0.0.1" }] }] }
    { Ports := [{ Name := "h2c", Port := 80, TargetPort := { IntVal := 8080, StrVal := "" } }] }
    [] [] { Name := "h2c", Port := 80, TargetPort := { IntVal := 8080, StrVal := "" } }
    rfl (fun _ h => nomatch h) rfl rfl (by simp) (by decide) (by simp)
  exact ⟨c, hc1, hc3, hc5.2 (by decide)⟩

theorem mem_pathsTranslation_caches (env : Env) (ing : Ingress) (index : Int)
    (paths : List HTTPIngressPath) (p : HTTPIngressPath) (op : CacheOp) (hp : p ∈ paths)
    (hop : op ∈ (splitLoop env ing (if p.Path ≠ "" then p.Path else "/") p.Splits
      { caches := [], wrs := [] }).caches) :
    op ∈ (pathsTranslation env ing index paths).caches := by
  induction paths with
  | nil => cases hp
  | cons q qs ih =>
    rw [pathsTranslation_cons, pathsTranslation_singleton]
    simp only [List.mem_append]
    rcases List.mem_cons.1 hp with rfl | hp
    · exact Or.inl (Or.inl hop)
    · exact Or.inr (ih hp)

theorem mem_rulesTranslation_caches (env : Env) (ing : Ingress) (ldn : String) (index : Int)
    (rules : List IngressRule) (rule : IngressRule) (op : CacheOp) (hr : rule ∈ rules)
    (hop : op ∈ (pathsTranslation env ing index rule.HTTP.Paths).caches) :
    op ∈ (rulesTranslation env ing ldn index rules).caches := by
  induction rules with
  | nil => cases hr
  | cons q qs ih =>
    rw [rulesTranslation_cons, rulesTranslation_singleton]
    simp only [List.mem_append]
    rcases List.mem_cons.1 hr with rfl | hr
    · exact Or.inl hop
    · exact Or.inr (ih hr)

theorem forall₂_exists_of_mem {α β : Type} {R : α → β → Prop} {l1 : List α} {l2 : List β}
    (h : List.Forall₂ R l1 l2) {a : α} (ha : a ∈ l1) : ∃ b ∈ l2, R a b := by
  induction h with
  | nil => cases ha
  | cons hab _ ih =>
    rcases List.mem_cons.1 ha with rfl | ha
    · exact ⟨_, List.mem_cons_self _ _, hab⟩
    · obtain ⟨b, hb, hr⟩ := ih ha
      exact ⟨b, List.mem_cons_of_mem _ hb, hr⟩

/-- C9: every weighted cluster of every route emitted by a translation (through
`AddRoute` or inside a virtual host) is named after a cluster passed to
`AddCluster` in the same translation: the cluster of a split of the route's
path, named `ServiceName ++ path` (an empty path read as `/`), whose
load-assignment `ClusterName` equals its `Name`. -/
theorem routes_reference_added_clusters (env : Env) (ing : Ingress) (ldn : String)
    (index : Int) (r : Route) (w : ClusterWeight)
    (hr : r ∈ routesEmitted (addIngressToCaches env [] ing ldn index))
    (hw : w ∈ r.Clusters) :
    ∃ rule ∈ ing.Spec.Rules, ∃ p ∈ rule.HTTP.Paths, ∃ s ∈ p.Splits, ∃ c : Cluster,
      CacheOp.AddCluster c s.ServiceName s.ServiceNamespace
          (if p.Path ≠ "" then p.Path else "/") ∈
        addIngressToCaches env [] ing ldn index ∧
      r.Prefix = (if p.Path ≠ "" then p.Path else "/") ∧
      w.Name = s.ServiceName ++ (if p.Path ≠ "" then p.Path else "/") ∧
      c.Name = w.Name ∧
      c.LoadAssignment.ClusterName = c.Name := by
  obtain ⟨rule, hrule, p, hp, rfl⟩ := mem_routesEmitted env ing ldn index r hr
  obtain ⟨handled, rest, ops, hsp, hres, hall, -⟩ := splitLoop_handled env ing
    (if p.Path ≠ "" then p.Path else "/") p.Splits { caches := [], wrs := [] }
  have hw' : w ∈ handled.map (fun s => weightedCluster s.ServiceName (toUint32 s.Percent)
      (if p.Path ≠ "" then p.Path else "/") s.AppendHeaders) := by
    have : (createRouteForRevision ing.Name index p
        (splitLoop env ing (if p.Path ≠ "" then p.Path else "/") p.Splits
          { caches := [], wrs := [] }).wrs).Clusters =
        handled.map (fun s => weightedCluster s.ServiceName (toUint32 s.Percent)
          (if p.Path ≠ "" then p.Path else "/") s.AppendHeaders) := by
      rw [hres]
      simp [createRouteForRevision]
    rw [this] at hw
    exact hw
  obtain ⟨s, hs, rfl⟩ := List.mem_map.1 hw'
  obtain ⟨op, hop, c, rfl, hc1, hc2⟩ := forall₂_exists_of_mem hall hs
  refine ⟨rule, hrule, p, hp, s, ?_, c, ?_, rfl, rfl, hc1, hc2⟩
  · rw [hsp]
    exact List.mem_append_left _ hs
  · rw [addIngressToCaches_eq]
    have hmem : CacheOp.AddCluster c s.ServiceName s.ServiceNamespace
        (if p.Path ≠ "" then p.Path else "/") ∈
        (rulesTranslation env ing ldn index ing.Spec.Rules).caches := by
      apply mem_rulesTranslation_caches env ing ldn index _ rule _ hrule
      apply mem_pathsTranslation_caches env ing index _ p _ hp
      rw [hres]
      simpa using hop
    simp only [List.mem_append]
    exact Or.inl (Or.inl (Or.inr hmem))

/-- C9 at the first weighted cluster of the route of a path with the traffic
split `[(foo, 60), (foo, 40)]`. -/
theorem routes_reference_added_clusters_witness :
    createRouteForRevision "ing" 0 (examplePath [exampleSplit "foo" 60, exampleSplit "foo" 40])
        [weightedCluster "foo" 60 "/" [], weightedCluster "foo" 40 "/" []] ∈
      routesEmitted (addIngressToCaches exampleEnv []
        (exampleIngress [exampleRule "a.example.com"
          [examplePath [exampleSplit "foo" 60, exampleSplit "foo" 40]]]) "cluster.local" 0) ∧
    ∃ rule ∈ (exampleIngress [exampleRule "a.example.com"
        [examplePath [exampleSplit "foo" 60, exampleSplit "foo" 40]]]).Spec.Rules,
      ∃ p ∈ rule.HTTP.Paths, ∃ s ∈ p.Splits, ∃ c : Cluster,
        CacheOp.AddCluster c s.ServiceName s.ServiceNamespace
            (if p.Path ≠ "" then p.Path else "/") ∈
          addIngressToCaches exampleEnv []
            (exampleIngress [exampleRule "a.example.com"
              [examplePath [exampleSplit "foo" 60, exampleSplit "foo" 40]]]) "cluster.local" 0 ∧
        c.Name = "foo/" ∧ c.LoadAssignment.ClusterName = c.Name := by
  have hmem : createRouteForRevision "ing" 0
      (examplePath [exampleSplit "foo" 60, exampleSplit "foo" 40])
        [weightedCluster "foo" 60 "/" [], weightedCluster "foo" 40 "/" []] ∈
      routesEmitted (addIngressToCaches exampleEnv []
        (exampleIngress [exampleRule "a.example.com"
          [examplePath [exampleSplit "foo" 60, exampleSplit "foo" 40]]]) "cluster.local" 0) := by
    decide
  refine ⟨hmem, ?_⟩
  obtain ⟨rule, hrule, p, hp, s, hs, c, h1, -, -, h4, h5⟩ :=
    routes_reference_added_clusters exampleEnv
      (exampleIngress [exampleRule "a.example.com"
        [examplePath [exampleSplit "foo" 60, exampleSplit "foo" 40]]]) "cluster.local" 0
      (createRouteForRevision "ing" 0 (examplePath [exampleSplit "foo" 60, exampleSplit "foo" 40])
        [weightedCluster "foo" 60 "/" [], weightedCluster "foo" 40 "/" []])
      (weightedCluster "foo" 60 "/" []) hmem (by decide)
  exact ⟨rule, hrule, p, hp, s, hs, c, h1, h4, h5⟩

/-- C10: the log of `addIngressToCaches` ends with the registrations of the
virtual hosts: first one `AddExternalVirtualHostForIngress` per rule for which
`RuleIsExternal` holds, in rule order, then one
`AddInternalVirtualHostForIngress` per rule, in rule order; no virtual host is
registered before them, so an ingress with `n` rules registers exactly `n`
internal virtual hosts. -/
theorem virtual_hosts_registered_per_rule (env : Env) (caches : List CacheOp) (ing : Ingress)
    (ldn : String) (index : Int) :
    ∃ ops : List CacheOp,
      (∀ op ∈ ops, op.isVirtualHostOp = false) ∧
      addIngressToCaches env caches ing ldn index =
        caches ++ ops ++
        (ing.Spec.Rules.filter (fun rule => env.RuleIsExternal rule ing.Spec.Visibility)).map
          (fun rule => CacheOp.AddExternalVirtualHostForIngress
            { Name := ing.Name
              Domains := env.ExternalDomains rule ldn
              Routes := (pathsTranslation env ing index rule.HTTP.Paths).ruleRoute }
            ing.Name ing.Namespace) ++
        ing.Spec.Rules.map
          (fun rule => CacheOp.AddInternalVirtualHostForIngress
            { Name := ing.Name
              Domains := env.InternalDomains rule ldn ++ env.ExternalDomains rule ldn
              Routes := (pathsTranslation env ing index rule.HTTP.Paths).ruleRoute }
            ing.Name ing.Namespace) ∧
      (internalVirtualHostsAdded (addIngressToCaches env [] ing ldn index)).length =
        ing.Spec.Rules.length ∧
      (externalVirtualHostsAdded (addIngressToCaches env [] ing ldn index)).length =
        (ing.Spec.Rules.filter
          (fun rule => env.RuleIsExternal rule ing.Spec.Visibility)).length := by
  obtain ⟨-, -, -, h4⟩ := rulesTranslation_observe env ing ldn index ing.Spec.Rules
  obtain ⟨v1, v2⟩ := rulesTranslation_virtualHosts env ing ldn index ing.Spec.Rules
  obtain ⟨-, o2, o3⟩ := addIngressToCaches_observe env ing ldn index
  refine ⟨CacheOp.AddIngress ing :: (rulesTranslation env ing ldn index ing.Spec.Rules).caches,
    ?_, ?_, ?_, ?_⟩
  · intro op hop
    rcases List.mem_cons.1 hop with rfl | hop
    · rfl
    · exact h4 op hop
  · rw [addIngressToCaches_eq, v1, v2]
    simp only [List.map_map, List.append_assoc, List.cons_append, List.nil_append,
      List.singleton_append]
    rfl
  · rw [o2, List.length_map]
  · rw [o3, List.length_map]

/-! ## Virtual hosts of a rule -/

/-- The routes of a path loop: one per path, in path order. -/
theorem pathsTranslation_ruleRoute_eq_map (env : Env) (ing : Ingress) (index : Int)
    (paths : List HTTPIngressPath) :
    (pathsTranslation env ing index paths).ruleRoute =
      paths.map (fun p => createRouteForRevision ing.Name index p
        (splitLoop env ing (if p.Path ≠ "" then p.Path else "/") p.Splits
          { caches := [], wrs := [] }).wrs) := by
  induction paths with
  | nil => rfl
  | cons p ps ih =>
    rw [pathsTranslation_cons, pathsTranslation_singleton]
    simp [ih]

/-- The virtual hosts registered for one rule, and where they are registered. -/
theorem virtualHosts_of_rule (env : Env) (ing : Ingress) (ldn : String) (index : Int)
    (pre post : List IngressRule) (rule : IngressRule)
    (hr : ing.Spec.Rules = pre ++ rule :: post) :
    (internalVirtualHostsAdded (addIngressToCaches env [] ing ldn index))[pre.length]? =
      some { Name := ing.Name
             Domains := env.InternalDomains rule ldn ++ env.ExternalDomains rule ldn
             Routes := (pathsTranslation env ing index rule.HTTP.Paths).ruleRoute } ∧
    (env.RuleIsExternal rule ing.Spec.Visibility = true →
      (externalVirtualHostsAdded (addIngressToCaches env [] ing ldn index))[
          (pre.filter (fun x => env.RuleIsExternal x ing.Spec.Visibility)).length]? =
        some { Name := ing.Name
               Domains := env.ExternalDomains rule ldn
               Routes := (pathsTranslation env ing index rule.HTTP.Paths).ruleRoute }) := by
  obtain ⟨-, o2, o3⟩ := addIngressToCaches_observe env ing ldn index
  constructor
  · rw [o2, hr]
    have hl : (pre.map (fun rule : IngressRule =>
        ({ Name := ing.Name
           Domains := env.InternalDomains rule ldn ++ env.ExternalDomains rule ldn
           Routes := (pathsTranslation env ing index rule.HTTP.Paths).ruleRoute } :
          VirtualHost))).length = pre.length := by simp
    rw [← hl, List.map_append, List.map_cons]
    exact getElem?_length_append _ _ _
  · intro hx
    rw [o3, hr]
    have hl : ((pre.filter (fun x => env.RuleIsExternal x ing.Spec.Visibility)).map
        (fun rule : IngressRule =>
        ({ Name := ing.Name
           Domains := env.ExternalDomains rule ldn
           Routes := (pathsTranslation env ing index rule.HTTP.Paths).ruleRoute } :
          VirtualHost))).length =
        (pre.filter (fun x => env.RuleIsExternal x ing.Spec.Visibility)).length := by simp
    rw [← hl, List.filter_append, List.filter_cons, if_pos hx, List.map_append, List.map_cons]
    exact getElem?_length_append _ _ _

/-- C11, refuted as stated: an ingress with two externally visible rules
registers two external and two internal virtual hosts. -/
theorem two_rules_register_two_virtual_hosts :
    (internalVirtualHostsAdded (addIngressToCaches exampleEnv []
      (exampleIngress [exampleRule "a.example.com" [examplePath []],
        exampleRule "b.example.com" [examplePath []]]) "cluster.local" 0)).length = 2 ∧
    (externalVirtualHostsAdded (addIngressToCaches exampleEnv []
      (exampleIngress [exampleRule "a.example.com" [examplePath []],
        exampleRule "b.example.com" [examplePath []]]) "cluster.local" 0)).length = 2 := by
  decide

/-- C11, amended: a translation registers exactly one internal virtual host
per rule and one external virtual host per rule for which `RuleIsExternal`
holds, so at most one per rule; an ingress with exactly one rule contributes
exactly one internal and zero or one external virtual host. -/
theorem virtual_host_counts_follow_rules (env : Env) (ing : Ingress) (ldn : String)
    (index : Int) :
    (internalVirtualHostsAdded (addIngressToCaches env [] ing ldn index)).length =
      ing.Spec.Rules.length ∧
    (externalVirtualHostsAdded (addIngressToCaches env [] ing ldn index)).length =
      (ing.Spec.Rules.filter
        (fun rule => env.RuleIsExternal rule ing.Spec.Visibility)).length ∧
    (externalVirtualHostsAdded (addIngressToCaches env [] ing ldn index)).length ≤
      ing.Spec.Rules.length ∧
    (ing.Spec.Rules.length = 1 →
      (internalVirtualHostsAdded (addIngressToCaches env [] ing ldn index)).length = 1 ∧
      (externalVirtualHostsAdded (addIngressToCaches env [] ing ldn index)).length ≤ 1) := by
  obtain ⟨-, o2, o3⟩ := addIngressToCaches_observe env ing ldn index
  have h1 : (internalVirtualHostsAdded (addIngressToCaches env [] ing ldn index)).length =
      ing.Spec.Rules.length := by rw [o2, List.length_map]
  have h2 : (externalVirtualHostsAdded (addIngressToCaches env [] ing ldn index)).length =
      (ing.Spec.Rules.filter
        (fun rule => env.RuleIsExternal rule ing.Spec.Visibility)).length := by
    rw [o3, List.length_map]
  have h3 : (externalVirtualHostsAdded (addIngressToCaches env [] ing ldn index)).length ≤
      ing.Spec.Rules.length := by
    rw [h2]
    exact List.length_filter_le _ _
  exact ⟨h1, h2, h3, fun h => ⟨by rw [h1, h], by rw [← h]; exact h3⟩⟩

/-- C11, amended, at an ingress with one external rule. -/
theorem virtual_host_counts_follow_rules_witness :
    (exampleIngress [exampleRule "a.example.com" [examplePath []]]).Spec.Rules.length = 1 ∧
    (internalVirtualHostsAdded (addIngressToCaches exampleEnv []
      (exampleIngress [exampleRule "a.example.com" [examplePath []]])
      "cluster.local" 0)).length = 1 ∧
    (externalVirtualHostsAdded (addIngressToCaches exampleEnv []
      (exampleIngress [exampleRule "a.example.com" [examplePath []]])
      "cluster.local" 0)).length ≤ 1 :=
  ⟨rfl, (virtual_host_counts_follow_rules exampleEnv
    (exampleIngress [exampleRule "a.example.com" [examplePath []]]) "cluster.local" 0).2.2.2 rfl⟩

/-- C12: the internal virtual host registered for a rule has the domain list
`InternalDomains(rule) ++ ExternalDomains(rule)`, which contains every domain
of the external virtual host built for the same rule, whose domain list is
`ExternalDomains(rule)`. -/
theorem internal_domains_contain_external (env : Env) (ing : Ingress) (ldn : String)
    (index : Int) (pre post : List IngressRule) (rule : IngressRule)
    (hr : ing.Spec.Rules = pre ++ rule :: post) :
    ∃ vi : VirtualHost,
      (internalVirtualHostsAdded (addIngressToCaches env [] ing ldn index))[pre.length]? =
        some vi ∧
      vi.Domains = env.InternalDomains rule ldn ++ env.ExternalDomains rule ldn ∧
      (∀ d ∈ env.ExternalDomains rule ldn, d ∈ vi.Domains) ∧
      (env.RuleIsExternal rule ing.Spec.Visibility = true →
        ∃ ve : VirtualHost,
          (externalVirtualHostsAdded (addIngressToCaches env [] ing ldn index))[
            (pre.filter (fun x => env.RuleIsExternal x ing.Spec.Visibility)).length]? =
            some ve ∧
          ve.Domains = env.ExternalDomains rule ldn ∧
          ∀ d ∈ ve.Domains, d ∈ vi.Domains) := by
  obtain ⟨h1, h2⟩ := virtualHosts_of_rule env ing ldn index pre post rule hr
  refine ⟨_, h1, rfl, fun d hd => List.mem_append_right _ hd, fun hx => ?_⟩
  exact ⟨_, h2 hx, rfl, fun d hd => List.mem_append_right _ hd⟩

/-- C12 at the second rule of a two-rule ingress. -/
theorem internal_domains_contain_external_witness :
    ∃ vi : VirtualHost,
      (internalVirtualHostsAdded (addIngressToCaches exampleEnv []
        (exampleIngress [exampleRule "a.example.com" [examplePath []],
          exampleRule "b.example.com" [examplePath []]]) "cluster.local" 0))[
        [exampleRule "a.example.com" [examplePath []]].length]? = some vi ∧
      vi.Domains = ["b.example.com"] := by
  obtain ⟨vi, h1, h2, -⟩ := internal_domains_contain_external exampleEnv
    (exampleIngress [exampleRule "a.example.com" [examplePath []],
      exampleRule "b.example.com" [examplePath []]]) "cluster.local" 0
    [exampleRule "a.example.com" [examplePath []]] []
    (exampleRule "b.example.com" [examplePath []]) rfl
  exact ⟨vi, h1, h2⟩

/-- C13: the internal virtual host of a rule and, when the rule is external,
its external virtual host are both named `ingress.Name` and carry the same
route list: one route per path of the rule, in path order; these are the
routes passed to `AddRoute` for the rule, at the rule's position in the
sequence of `AddRoute` calls. -/
theorem virtual_hosts_share_routes (env : Env) (ing : Ingress) (ldn : String)
    (index : Int) (pre post : List IngressRule) (rule : IngressRule)
    (hr : ing.Spec.Rules = pre ++ rule :: post) :
    ∃ vi : VirtualHost,
      (internalVirtualHostsAdded (addIngressToCaches env [] ing ldn index))[pre.length]? =
        some vi ∧
      vi.Name = ing.Name ∧
      vi.Routes = rule.HTTP.Paths.map (fun p => createRouteForRevision ing.Name index p
        (splitLoop env ing (if p.Path ≠ "" then p.Path else "/") p.Splits
          { caches := [], wrs := [] }).wrs) ∧
      vi.Routes.length = rule.HTTP.Paths.length ∧
      ((routesAdded (addIngressToCaches env [] ing ldn index)).drop
          (pre.map (fun x => x.HTTP.Paths.length)).sum).take rule.HTTP.Paths.length =
        vi.Routes ∧
      (env.RuleIsExternal rule ing.Spec.Visibility = true →
        ∃ ve : VirtualHost,
          (externalVirtualHostsAdded (addIngressToCaches env [] ing ldn index))[
            (pre.filter (fun x => env.RuleIsExternal x ing.Spec.Visibility)).length]? =
            some ve ∧
          ve.Name = ing.Name ∧ ve.Routes = vi.Routes) := by
  obtain ⟨h1, h2⟩ := virtualHosts_of_rule env ing ldn index pre post rule hr
  obtain ⟨o1, -, -⟩ := addIngressToCaches_observe env ing ldn index
  have hlen := pathsTranslation_ruleRoute_length env ing index rule.HTTP.Paths
  refine ⟨_, h1, rfl, pathsTranslation_ruleRoute_eq_map env ing index _, hlen, ?_,
    fun hx => ⟨_, h2 hx, rfl, rfl⟩⟩
  rw [o1, hr]
  simp only [List.map_append, List.map_cons, List.flatten_append, List.flatten_cons]
  have hl : (pre.map (fun rule =>
      (pathsTranslation env ing index rule.HTTP.Paths).ruleRoute)).flatten.length =
      (pre.map (fun x => x.HTTP.Paths.length)).sum :=
    flatten_map_length_sum _ (fun x => x.HTTP.Paths.length) pre
      (fun a => pathsTranslation_ruleRoute_length env ing index a.HTTP.Paths)
  rw [← hl, List.drop_left, ← hlen, List.take_left]

/-- C13 at a rule with two paths. -/
theorem virtual_hosts_share_routes_witness :
    ∃ vi : VirtualHost,
      (internalVirtualHostsAdded (addIngressToCaches exampleEnv []
        (exampleIngress [exampleRule "a.example.com"
          [examplePath [exampleSplit "foo" 100], examplePath []]]) "cluster.local" 0))[
        ([] : List IngressRule).length]? = some vi ∧
      vi.Name = "ing" ∧ vi.Routes.length = 2 := by
  obtain ⟨vi, h1, h2, -, h4, -⟩ := virtual_hosts_share_routes exampleEnv
    (exampleIngress [exampleRule "a.example.com"
      [examplePath [exampleSplit "foo" 100], examplePath []]]) "cluster.local" 0
    [] [] (exampleRule "a.example.com" [examplePath [exampleSplit "foo" 100], examplePath []])
    rfl
  exact ⟨vi, h1, h2, h4⟩

/-! ## The log around one rule and one path -/

/-- The log of a translation, split around one rule. -/
theorem addIngressToCaches_at_rule (env : Env) (ing : Ingress) (ldn : String) (index : Int)
    (pre post : List IngressRule) (rule : IngressRule)
    (hr : ing.Spec.Rules = pre ++ rule :: post) :
    addIngressToCaches env [] ing ldn index =
      [CacheOp.AddIngress ing] ++
      (rulesTranslation env ing ldn index pre).caches ++
      (pathsTranslation env ing index rule.HTTP.Paths).caches ++
      (rulesTranslation env ing ldn index post).caches ++
      ((rulesTranslation env ing ldn index pre).externalVirtualHosts ++
        (if env.RuleIsExternal rule ing.Spec.Visibility then
          [({ Name := ing.Name
              Domains := env.ExternalDomains rule ldn
              Routes := (pathsTranslation env ing index rule.HTTP.Paths).ruleRoute } :
            VirtualHost)]
        else []) ++
        (rulesTranslation env ing ldn index post).externalVirtualHosts).map
        (fun v => CacheOp.AddExternalVirtualHostForIngress v ing.Name ing.Namespace) ++
      ((rulesTranslation env ing ldn index pre).clusterLocalVirtualHosts ++
        ({ Name := ing.Name
           Domains := env.InternalDomains rule ldn ++ env.ExternalDomains rule ldn
           Routes := (pathsTranslation env ing index rule.HTTP.Paths).ruleRoute } :
          VirtualHost) ::
        (rulesTranslation env ing ldn index post).clusterLocalVirtualHosts).map
        (fun v => CacheOp.AddInternalVirtualHostForIngress v ing.Name ing.Namespace) := by
  rw [addIngressToCaches_eq, hr, rulesTranslation_append, rulesTranslation_cons,
    rulesTranslation_singleton]
  by_cases hx : env.RuleIsExternal rule ing.Spec.Visibility = true <;>
    simp [hx, List.append_assoc]

/-- The log and the routes of a path loop, split around one path. -/
theorem pathsTranslation_at_path (env : Env) (ing : Ingress) (index : Int)
    (ppre ppost : List HTTPIngressPath) (p : HTTPIngressPath) :
    pathsTranslation env ing index (ppre ++ p :: ppost) =
      { caches := (pathsTranslation env ing index ppre).caches ++
          (splitLoop env ing (if p.Path ≠ "" then p.Path else "/") p.Splits
            { caches := [], wrs := [] }).caches ++
          [CacheOp.AddRoute
            (createRouteForRevision ing.Name index p
              (splitLoop env ing (if p.Path ≠ "" then p.Path else "/") p.Splits
                { caches := [], wrs := [] }).wrs)
            ing.Name ing.Namespace] ++
          (pathsTranslation env ing index ppost).caches
        ruleRoute := (pathsTranslation env ing index ppre).ruleRoute ++
          createRouteForRevision ing.Name index p
            (splitLoop env ing (if p.Path ≠ "" then p.Path else "/") p.Splits
              { caches := [], wrs := [] }).wrs ::
          (pathsTranslation env ing index ppost).ruleRoute } := by
  rw [pathsTranslation_append, pathsTranslation_cons, pathsTranslation_singleton]
  simp [List.append_assoc]

/-- C14, refuted as stated: with the splits `[(foo, 60), (bar, 40)]`, where the
lookup of `bar` fails, the weights of the route sum to 60 and the percentages
to 100; with the single split `(foo, 2^32 + 100)` the weight is 100. -/
theorem weight_sum_differs_from_percent_sum :
    ((routesAdded (addIngressToCaches exampleEnv []
      (exampleIngress [exampleRule "a.example.com"
        [examplePath [exampleSplit "foo" 60, exampleSplit "bar" 40]]]) "cluster.local" 0)).map
      (fun r => (r.Clusters.map (fun w => w.Weight)).sum) = [60] ∧
    ((examplePath [exampleSplit "foo" 60, exampleSplit "bar" 40]).Splits.map
      (fun s => s.Percent)).sum = 100) ∧
    ((routesAdded (addIngressToCaches exampleEnv []
      (exampleIngress [exampleRule "a.example.com"
        [examplePath [exampleSplit "foo" 4294967396]]]) "cluster.local" 0)).map
      (fun r => (r.Clusters.map (fun w => w.Weight)).sum) = [100] ∧
    ((examplePath [exampleSplit "foo" 4294967396]).Splits.map
      (fun s => s.Percent)).sum = 4294967396) := by
  decide

/-- C14, amended: in a path all of whose splits pass their lookups and have a
percentage in `[0, 2^32)`, the weights of the weighted clusters of the route
emitted for the path sum to the sum of the percentages of the splits. -/
theorem weight_sum_equals_percent_sum (env : Env) (ing : Ingress) (ldn : String)
    (index : Int) (pre post : List IngressRule) (rule : IngressRule)
    (ppre ppost : List HTTPIngressPath) (p : HTTPIngressPath)
    (hr : ing.Spec.Rules = pre ++ rule :: post)
    (hp : rule.HTTP.Paths = ppre ++ p :: ppost)
    (hok : ∀ s ∈ p.Splits, lookupsSucceed env ing s)
    (hpc : ∀ s ∈ p.Splits, 0 ≤ s.Percent ∧ s.Percent < 2 ^ 32) :
    ∃ r : Route,
      (routesAdded (addIngressToCaches env [] ing ldn index))[
          (pre.map (fun x => x.HTTP.Paths.length)).sum + ppre.length]? = some r ∧
      (r.Clusters.map (fun w => w.Weight)).sum = (p.Splits.map (fun s => s.Percent)).sum := by
  obtain ⟨h1, -, -⟩ := route_of_path env ing ldn index pre post rule ppre ppost p hr hp
  obtain ⟨ops, hops, -⟩ := splitLoop_of_lookupsSucceed env ing
    (if p.Path ≠ "" then p.Path else "/") p.Splits { caches := [], wrs := [] } hok
  rw [hops] at h1
  refine ⟨_, h1, ?_⟩
  have hw : ∀ s ∈ p.Splits, toUint32 s.Percent = s.Percent := by
    intro s hs
    obtain ⟨h0, hlt⟩ := hpc s hs
    exact Int.emod_eq_of_lt h0 (by simpa using hlt)
  simp only [createRouteForRevision, List.nil_append, List.map_map]
  congr 1
  apply List.map_congr_left
  intro s hs
  simp [weightedCluster, hw s hs]

/-- C14, amended, at the traffic split `[(foo, 60), (foo, 40)]`. -/
theorem weight_sum_equals_percent_sum_witness :
    ∃ r : Route,
      (routesAdded (addIngressToCaches exampleEnv []
        (exampleIngress [exampleRule "a.example.com"
          [examplePath [exampleSplit "foo" 60, exampleSplit "foo" 40]]]) "cluster.local" 0))[
          (([] : List IngressRule).map (fun x => x.HTTP.Paths.length)).sum +
            ([] : List HTTPIngressPath).length]? = some r ∧
      (r.Clusters.map (fun w => w.Weight)).sum = 100 := by
  obtain ⟨r, h1, h2⟩ := weight_sum_equals_percent_sum exampleEnv
    (exampleIngress [exampleRule "a.example.com"
      [examplePath [exampleSplit "foo" 60, exampleSplit "foo" 40]]]) "cluster.local" 0
    [] [] (exampleRule "a.example.com"
      [examplePath [exampleSplit "foo" 60, exampleSplit "foo" 40]])
    [] [] (examplePath [exampleSplit "foo" 60, exampleSplit "foo" 40]) rfl rfl
    (by
      intro s hs
      simp only [examplePath, List.mem_cons, List.mem_singleton, List.not_mem_nil, or_false] at hs
      rcases hs with rfl | rfl
      · exact exampleEnv_foo _ _
      · exact exampleEnv_foo _ _)
    (by
      intro s hs
      simp only [examplePath, List.mem_cons, List.mem_singleton, List.not_mem_nil, or_false] at hs
      rcases hs with rfl | rfl <;> decide)
  exact ⟨r, h1, h2.trans (by decide)⟩

/-- C15, refuted as stated: a rule without paths still gets its external and
its internal virtual host, with an empty route list, and a path without splits
still gets its route, with an empty weighted-cluster list. -/
theorem empty_rule_and_empty_path_still_emitted :
    (exampleRule "a.example.com" []).HTTP.Paths = [] ∧
    internalVirtualHostsAdded (addIngressToCaches exampleEnv []
      (exampleIngress [exampleRule "a.example.com" []]) "cluster.local" 0) =
      [{ Name := "ing", Domains := ["a.example.com"], Routes := [] }] ∧
    externalVirtualHostsAdded (addIngressToCaches exampleEnv []
      (exampleIngress [exampleRule "a.example.com" []]) "cluster.local" 0) =
      [{ Name := "ing", Domains := ["a.example.com"], Routes := [] }] ∧
    (examplePath []).Splits = [] ∧
    routesAdded (addIngressToCaches exampleEnv []
      (exampleIngress [exampleRule "a.example.com" [examplePath []]]) "cluster.local" 0) =
      [createRouteForRevision "ing" 0 (examplePath []) []] := by
  decide

/-- C15, amended: a rule without paths emits no route and no cluster, but its
virtual hosts are still registered, with an empty route list; a path without
splits emits no cluster, but its route is still emitted, with an empty
weighted-cluster list, and stays in the virtual hosts of its rule; in both
cases the rest of the log is the log of the other rules and paths translated
on their own. -/
theorem empty_rule_keeps_virtual_hosts_and_empty_path_its_route (env : Env) (ing : Ingress)
    (ldn : String) (index : Int) (pre post : List IngressRule) (rule : IngressRule)
    (hr : ing.Spec.Rules = pre ++ rule :: post) :
    (rule.HTTP.Paths = [] →
      addIngressToCaches env [] ing ldn index =
        [CacheOp.AddIngress ing] ++
        (rulesTranslation env ing ldn index pre).caches ++
        (rulesTranslation env ing ldn index post).caches ++
        ((rulesTranslation env ing ldn index pre).externalVirtualHosts ++
          (if env.RuleIsExternal rule ing.Spec.Visibility then
            [({ Name := ing.Name, Domains := env.ExternalDomains rule ldn, Routes := [] } :
              VirtualHost)]
          else []) ++
          (rulesTranslation env ing ldn index post).externalVirtualHosts).map
          (fun v => CacheOp.AddExternalVirtualHostForIngress v ing.Name ing.Namespace) ++
        ((rulesTranslation env ing ldn index pre).clusterLocalVirtualHosts ++
          ({ Name := ing.Name
             Domains := env.InternalDomains rule ldn ++ env.ExternalDomains rule ldn
             Routes := [] } : VirtualHost) ::
          (rulesTranslation env ing ldn index post).clusterLocalVirtualHosts).map
          (fun v => CacheOp.AddInternalVirtualHostForIngress v ing.Name ing.Namespace)) ∧
    (∀ (ppre ppost : List HTTPIngressPath) (p : HTTPIngressPath),
      rule.HTTP.Paths = ppre ++ p :: ppost → p.Splits = [] →
      addIngressToCaches env [] ing ldn index =
        [CacheOp.AddIngress ing] ++
        (rulesTranslation env ing ldn index pre).caches ++
        ((pathsTranslation env ing index ppre).caches ++
          [CacheOp.AddRoute (createRouteForRevision ing.Name index p []) ing.Name ing.Namespace] ++
          (pathsTranslation env ing index ppost).caches) ++
        (rulesTranslation env ing ldn index post).caches ++
        ((rulesTranslation env ing ldn index pre).externalVirtualHosts ++
          (if env.RuleIsExternal rule ing.Spec.Visibility then
            [({ Name := ing.Name
                Domains := env.ExternalDomains rule ldn
                Routes := (pathsTranslation env ing index ppre).ruleRoute ++
                  createRouteForRevision ing.Name index p [] ::
                  (pathsTranslation env ing index ppost).ruleRoute } : VirtualHost)]
          else []) ++
          (rulesTranslation env ing ldn index post).externalVirtualHosts).map
          (fun v => CacheOp.AddExternalVirtualHostForIngress v ing.Name ing.Namespace) ++
        ((rulesTranslation env ing ldn index pre).clusterLocalVirtualHosts ++
          ({ Name := ing.Name
             Domains := env.InternalDomains rule ldn ++ env.ExternalDomains rule ldn
             Routes := (pathsTranslation env ing index ppre).ruleRoute ++
               createRouteForRevision ing.Name index p [] ::
               (pathsTranslation env ing index ppost).ruleRoute } : VirtualHost) ::
          (rulesTranslation env ing ldn index post).clusterLocalVirtualHosts).map
          (fun v => CacheOp.AddInternalVirtualHostForIngress v ing.Name ing.Namespace)) := by
  have hrule := addIngressToCaches_at_rule env ing ldn index pre post rule hr
  constructor
  · intro hp
    rw [hrule, hp]
    simp [pathsTranslation]
  · intro ppre ppost p hp hs
    rw [hrule, hp, pathsTranslation_at_path, hs]
    simp [splitLoop]

/-- C15, amended, at an ingress whose only rule has no path. -/
theorem empty_rule_keeps_virtual_hosts_and_empty_path_its_route_witness :
    (exampleRule "a.example.com" []).HTTP.Paths = [] ∧
    addIngressToCaches exampleEnv [] (exampleIngress [exampleRule "a.example.com" []])
        "cluster.local" 0 =
      [CacheOp.AddIngress (exampleIngress [exampleRule "a.example.com" []]),
       CacheOp.AddExternalVirtualHostForIngress
         { Name := "ing", Domains := ["a.example.com"], Routes := [] } "ing" "default",
       CacheOp.AddInternalVirtualHostForIngress
         { Name := "ing", Domains := ["a.example.com"], Routes := [] } "ing" "default"] :=
  ⟨rfl, ((empty_rule_keeps_virtual_hosts_and_empty_path_its_route exampleEnv
    (exampleIngress [exampleRule "a.example.com" []]) "cluster.local" 0 [] []
    (exampleRule "a.example.com" []) rfl).1 rfl).trans (by decide)⟩

/-! ## Status routes -/

/-- The hash loop on ingresses whose hashes all compute. -/
theorem hashLoop_of_hashes (ComputeIngressHash : Ingress → Except String (List Nat))
    (ingresses : List Ingress) (hashes : List (List Nat)) (acc : List String)
    (h : List.Forall₂ (fun ing hash => ComputeIngressHash ing = .ok hash) ingresses hashes) :
    hashLoop ComputeIngressHash ingresses acc = acc ++ hashes.map hexEncode := by
  induction h generalizing acc with
  | nil => simp [hashLoop]
  | cons hab _ ih =>
    simp only [hashLoop, hab, ih, List.map_cons]
    simp [List.append_assoc]

/-- C16: when the hashes of all `n` ingresses compute, `internalKourierRoutes`
returns `n + 1` routes: the `k`-th has the exact path
`InternalKourierPath ++ "/" ++ hex(hash_k)` and the last the bare
`InternalKourierPath`, each with a direct response 200;
`internalKourierVirtualHost` puts them under the single domain
`InternalKourierDomain`. -/
theorem status_routes_one_per_ingress (InternalKourierDomain InternalKourierPath : String)
    (ComputeIngressHash : Ingress → Except String (List Nat))
    (ingresses : List Ingress) (hashes : List (List Nat))
    (h : List.Forall₂ (fun ing hash => ComputeIngressHash ing = .ok hash) ingresses hashes) :
    internalKourierRoutes InternalKourierDomain InternalKourierPath ComputeIngressHash
        ingresses =
      hashes.map (fun hash =>
        ({ Name := InternalKourierDomain ++ "_" ++ hexEncode hash
           Path := InternalKourierPath ++ "/" ++ hexEncode hash
           Status := 200 } : DirectResponseRoute)) ++
      [{ Name := InternalKourierDomain, Path := InternalKourierPath, Status := 200 }] ∧
    (internalKourierRoutes InternalKourierDomain InternalKourierPath ComputeIngressHash
        ingresses).length = ingresses.length + 1 ∧
    (internalKourierRoutes InternalKourierDomain InternalKourierPath ComputeIngressHash
        ingresses)[ingresses.length]? =
      some { Name := InternalKourierDomain, Path := InternalKourierPath, Status := 200 } ∧
    (∀ (k : Nat) (hash : List Nat), hashes[k]? = some hash →
      ∃ r, (internalKourierRoutes InternalKourierDomain InternalKourierPath ComputeIngressHash
          ingresses)[k]? = some r ∧
        r.Path = InternalKourierPath ++ "/" ++ hexEncode hash ∧ r.Status = 200) ∧
    (internalKourierVirtualHost InternalKourierDomain
      (internalKourierRoutes InternalKourierDomain InternalKourierPath ComputeIngressHash
        ingresses)).Domains = [InternalKourierDomain] ∧
    (internalKourierVirtualHost InternalKourierDomain
      (internalKourierRoutes InternalKourierDomain InternalKourierPath ComputeIngressHash
        ingresses)).Routes =
      internalKourierRoutes InternalKourierDomain InternalKourierPath ComputeIngressHash
        ingresses := by
  have heq : internalKourierRoutes InternalKourierDomain InternalKourierPath ComputeIngressHash
      ingresses =
      hashes.map (fun hash =>
        ({ Name := InternalKourierDomain ++ "_" ++ hexEncode hash
           Path := InternalKourierPath ++ "/" ++ hexEncode hash
           Status := 200 } : DirectResponseRoute)) ++
      [{ Name := InternalKourierDomain, Path := InternalKourierPath, Status := 200 }] := by
    unfold internalKourierRoutes
    simp only [hashLoop_of_hashes ComputeIngressHash ingresses hashes [] h,
      foldl_append_singleton, List.nil_append, List.map_map]
    rfl
  have hlen : hashes.length = ingresses.length := h.length_eq.symm
  refine ⟨heq, ?_, ?_, ?_, rfl, rfl⟩
  · rw [heq]
    simp [hlen]
  · rw [heq]
    have hl : (hashes.map (fun hash =>
        ({ Name := InternalKourierDomain ++ "_" ++ hexEncode hash
           Path := InternalKourierPath ++ "/" ++ hexEncode hash
           Status := 200 } : DirectResponseRoute))).length = ingresses.length := by
      simp [hlen]
    rw [← hl]
    exact getElem?_length_append _ _ _
  · intro k hash hk
    refine ⟨{ Name := InternalKourierDomain ++ "_" ++ hexEncode hash
              Path := InternalKourierPath ++ "/" ++ hexEncode hash
              Status := 200 }, ?_, rfl, rfl⟩
    rw [heq]
    have hlt : k < hashes.length := (List.getElem?_eq_some_iff.1 hk).1
    rw [List.getElem?_append_left (by simpa using hlt)]
    simp [List.getElem?_map, hk]

/-- C16 at two ingresses whose hashes are the bytes `01 ab` and `ff`. -/
theorem status_routes_one_per_ingress_witness :
    internalKourierRoutes "internalkourier" "/__internalkouriersnapshot"
        (fun ing => if ing.Spec.Rules = [] then .ok [1, 171] else .ok [255])
        [exampleIngress [], exampleIngress [exampleRule "a.example.com" []]] =
      [{ Name := "internalkourier_01ab", Path := "/__internalkouriersnapshot/01ab"
         Status := 200 },
       { Name := "internalkourier_ff", Path := "/__internalkouriersnapshot/ff", Status := 200 },
       { Name := "internalkourier", Path := "/__internalkouriersnapshot", Status := 200 }] :=
  (status_routes_one_per_ingress "internalkourier" "/__internalkouriersnapshot"
    (fun ing => if ing.Spec.Rules = [] then .ok [1, 171] else .ok [255])
    [exampleIngress [], exampleIngress [exampleRule "a.example.com" []]]
    [[1, 171], [255]]
    (List.Forall₂.cons rfl (List.Forall₂.cons rfl List.Forall₂.nil))).1.trans
    (by decide)

/-- C17: `lbEndpointsForKubeEndpoints` returns one endpoint per address, subset
by subset and address by address, so as many as there are addresses; each has
the IP of its address, port value `uint32(targetPort)`, protocol TCP and
`Ipv4Compat` true. -/
theorem lb_endpoints_one_per_address (e : Endpoints) (targetPort : Int) :
    lbEndpointsForKubeEndpoints e targetPort =
      (e.Subsets.map (fun subset => subset.Addresses.map (fun address =>
        ({ Protocol := SocketProtocol.TCP
           Address := address.IP
           PortValue := toUint32 targetPort
           Ipv4Compat := true } : LbEndpoint)))).flatten ∧
    (lbEndpointsForKubeEndpoints e targetPort).length =
      (e.Subsets.map (fun subset => subset.Addresses.length)).sum ∧
    (lbEndpointsForKubeEndpoints e targetPort).map (fun lb => lb.Address) =
      (e.Subsets.map (fun subset => subset.Addresses.map (fun a => a.IP))).flatten ∧
    ∀ lb ∈ lbEndpointsForKubeEndpoints e targetPort,
      lb.PortValue = targetPort % 2 ^ 32 ∧ lb.Protocol = SocketProtocol.TCP ∧
        lb.Ipv4Compat = true := by
  have heq := lbEndpointsForKubeEndpoints_eq e targetPort
  refine ⟨heq, ?_, ?_, ?_⟩
  · rw [heq]
    exact flatten_map_length_sum _ _ _ (fun a => by simp)
  · rw [heq]
    generalize e.Subsets = subsets
    induction subsets with
    | nil => rfl
    | cons x xs ih => simp [ih]
  · rw [heq]
    intro lb hlb
    simp only [List.mem_flatten, List.mem_map] at hlb
    obtain ⟨l, ⟨subset, -, rfl⟩, hl⟩ := hlb
    obtain ⟨a, -, rfl⟩ := List.mem_map.1 hl
    exact ⟨rfl, rfl, rfl⟩

/-- C17 at two subsets with two addresses and one address, on port 8080. -/
theorem lb_endpoints_one_per_address_witness :
    lbEndpointsForKubeEndpoints
        { Subsets := [{ Addresses := [{ IP := "10.0.0.1" }, { IP := "10.0.0.2" }] },
                      { Addresses := [{ IP := "10.0.1.1" }] }] } 8080 =
      [{ Protocol := SocketProtocol.TCP, Address := "10.0.0.1", PortValue := 8080
         Ipv4Compat := true },
       { Protocol := SocketProtocol.TCP, Address := "10.0.0.2", PortValue := 8080
         Ipv4Compat := true },
       { Protocol := SocketProtocol.TCP, Address := "10.0.1.1", PortValue := 8080
         Ipv4Compat := true }] :=
  (lb_endpoints_one_per_address
    { Subsets := [{ Addresses := [{ IP := "10.0.0.1" }, { IP := "10.0.0.2" }] },
                  { Addresses := [{ IP := "10.0.1.1" }] }] } 8080).1.trans (by decide)

/-! ## Where the calls of a log come from -/

/-- A successful iteration of the split loop resolved the endpoints and the
service of its split and called `AddCluster` with the cluster built from them. -/
theorem splitBody_some_lookups (env : Env) (ing : Ingress) (path : String) (st st' : SplitState)
    (s : IngressBackendSplit) (h : splitBody env ing path st s = some st') :
    ∃ e svc, env.endpoints s.ServiceNamespace s.ServiceName = .ok e ∧
      env.services s.ServiceNamespace s.ServiceName = .ok svc ∧
      st' =
        { caches := st.caches ++
            [CacheOp.AddCluster
              (clusterForRevision s.ServiceName 5000000000
                (lbEndpointsForKubeEndpoints e (portLoop svc.Ports s.ServicePort).1)
                (portLoop svc.Ports s.ServicePort).2 path)
              s.ServiceName s.ServiceNamespace path]
          wrs := st.wrs ++
            [weightedCluster s.ServiceName (toUint32 s.Percent) path s.AppendHeaders] } := by
  unfold splitBody at h
  cases he : env.endpoints s.ServiceNamespace s.ServiceName with
  | error e => rw [he] at h; simp at h
  | ok e =>
    rw [he] at h
    simp only [] at h
    split at h
    · simp at h
    · cases hs : env.services s.ServiceNamespace s.ServiceName with
      | error e => rw [hs] at h; simp at h
      | ok svc =>
        rw [hs] at h
        simp only [Option.some.injEq] at h
        exact ⟨e, svc, rfl, rfl, h.symm⟩

/-- Every call in the state of the split loop was there before the loop or is
the `AddCluster` of one of the splits, built from its resolved lookups. -/
theorem mem_splitLoop_caches (env : Env) (ing : Ingress) (path : String)
    (splits : List IngressBackendSplit) (st : SplitState) (op : CacheOp)
    (h : op ∈ (splitLoop env ing path splits st).caches) :
    op ∈ st.caches ∨ ∃ s ∈ splits, ∃ e svc,
      env.endpoints s.ServiceNamespace s.ServiceName = .ok e ∧
      env.services s.ServiceNamespace s.ServiceName = .ok svc ∧
      op = CacheOp.AddCluster
        (clusterForRevision s.ServiceName 5000000000
          (lbEndpointsForKubeEndpoints e (portLoop svc.Ports s.ServicePort).1)
          (portLoop svc.Ports s.ServicePort).2 path)
        s.ServiceName s.ServiceNamespace path := by
  induction splits generalizing st with
  | nil => exact Or.inl h
  | cons s rest ih =>
    simp only [splitLoop] at h
    cases hb : splitBody env ing path st s with
    | none =>
      rw [hb] at h
      exact Or.inl h
    | some st' =>
      rw [hb] at h
      obtain ⟨e, svc, he, hs, rfl⟩ := splitBody_some_lookups env ing path st st' s hb
      rcases ih _ h with hin | ⟨x, hx, e', svc', he', hs', hop⟩
      · simp only [List.mem_append, List.mem_singleton] at hin
        rcases hin with hin | rfl
        · exact Or.inl hin
        · exact Or.inr ⟨s, List.mem_cons_self _ _, e, svc, he, hs, rfl⟩
      · exact Or.inr ⟨x, List.mem_cons_of_mem _ hx, e', svc', he', hs', hop⟩

/-- Every call of a path loop is a call of the split loop of one of the paths
or the `AddRoute` of one of the paths. -/
theorem mem_pathsTranslation_caches_cases (env : Env) (ing : Ingress) (index : Int)
    (paths : List HTTPIngressPath) (op : CacheOp)
    (h : op ∈ (pathsTranslation env ing index paths).caches) :
    ∃ p ∈ paths,
      op ∈ (splitLoop env ing (if p.Path ≠ "" then p.Path else "/") p.Splits
        { caches := [], wrs := [] }).caches ∨
      op = CacheOp.AddRoute
        (createRouteForRevision ing.Name index p
          (splitLoop env ing (if p.Path ≠ "" then p.Path else "/") p.Splits
            { caches := [], wrs := [] }).wrs)
        ing.Name ing.Namespace := by
  induction paths with
  | nil => simp [pathsTranslation] at h
  | cons q qs ih =>
    rw [pathsTranslation_cons, pathsTranslation_singleton] at h
    simp only [List.mem_append, List.mem_singleton] at h
    rcases h with (h | h) | h
    · exact ⟨q, List.mem_cons_self _ _, Or.inl h⟩
    · exact ⟨q, List.mem_cons_self _ _, Or.inr h⟩
    · obtain ⟨p, hp, hop⟩ := ih h
      exact ⟨p, List.mem_cons_of_mem _ hp, hop⟩

/-- Every call of a rule loop is a call of the path loop of one of the rules. -/
theorem mem_rulesTranslation_caches_cases (env : Env) (ing : Ingress) (ldn : String)
    (index : Int) (rules : List IngressRule) (op : CacheOp)
    (h : op ∈ (rulesTranslation env ing ldn index rules).caches) :
    ∃ rule ∈ rules, op ∈ (pathsTranslation env ing index rule.HTTP.Paths).caches := by
  induction rules with
  | nil => simp [rulesTranslation] at h
  | cons q qs ih =>
    rw [rulesTranslation_cons, rulesTranslation_singleton] at h
    simp only [List.mem_append] at h
    rcases h with h | h
    · exact ⟨q, List.mem_cons_self _ _, h⟩
    · obtain ⟨rule, hrule, hop⟩ := ih h
      exact ⟨rule, List.mem_cons_of_mem _ hrule, hop⟩

/-- Every `AddCluster` call of a translation is the call of one split of one
path of one rule, with the cluster built from the resolved lookups of the
split. -/
theorem mem_addIngressToCaches_addCluster (env : Env) (ing : Ingress) (ldn : String)
    (index : Int) (c : Cluster) (sn sns path : String)
    (h : CacheOp.AddCluster c sn sns path ∈ addIngressToCaches env [] ing ldn index) :
    ∃ rule ∈ ing.Spec.Rules, ∃ p ∈ rule.HTTP.Paths, ∃ s ∈ p.Splits, ∃ e svc,
      env.endpoints s.ServiceNamespace s.ServiceName = .ok e ∧
      env.services s.ServiceNamespace s.ServiceName = .ok svc ∧
      sn = s.ServiceName ∧ sns = s.ServiceNamespace ∧
      path = (if p.Path ≠ "" then p.Path else "/") ∧
      c = clusterForRevision s.ServiceName 5000000000
        (lbEndpointsForKubeEndpoints e (portLoop svc.Ports s.ServicePort).1)
        (portLoop svc.Ports s.ServicePort).2 path := by
  rw [addIngressToCaches_eq] at h
  simp only [List.nil_append, List.mem_append, List.mem_singleton, List.mem_map] at h
  rcases h with ((h | h) | ⟨v, -, h⟩) | ⟨v, -, h⟩
  · cases h
  · obtain ⟨rule, hrule, h⟩ := mem_rulesTranslation_caches_cases env ing ldn index _ _ h
    obtain ⟨p, hp, h | h⟩ := mem_pathsTranslation_caches_cases env ing index _ _ h
    · rcases mem_splitLoop_caches env ing _ p.Splits _ _ h with h | ⟨s, hs, e, svc, he, hsv, hop⟩
      · simp at h
      · injection hop with h1 h2 h3 h4
        exact ⟨rule, hrule, p, hp, s, hs, e, svc, he, hsv, h2, h3, h4, by rw [h1, h4]⟩
    · cases h
  · cases h
  · cases h

/-- C18: every cluster passed to `AddCluster` by a translation is named
`serviceName ++ path`, has a connect timeout of 5 seconds (in nanoseconds),
discovery type `STRICT_DNS`, and a load assignment named like the cluster with
exactly one locality, which holds the LB endpoints resolved for the split and
has priority 1; it has HTTP/2 options exactly when the flag computed by the
port loop is set. -/
theorem emitted_cluster_shape (env : Env) (ing : Ingress) (ldn : String)
    (index : Int) (c : Cluster) (sn sns path : String)
    (h : CacheOp.AddCluster c sn sns path ∈ addIngressToCaches env [] ing ldn index) :
    ∃ rule ∈ ing.Spec.Rules, ∃ p ∈ rule.HTTP.Paths, ∃ s ∈ p.Splits, ∃ e svc,
      env.endpoints s.ServiceNamespace s.ServiceName = .ok e ∧
      env.services s.ServiceNamespace s.ServiceName = .ok svc ∧
      sn = s.ServiceName ∧
      path = (if p.Path ≠ "" then p.Path else "/") ∧
      c.Name = sn ++ path ∧
      c.ConnectTimeout = 5 * 1000000000 ∧
      c.ClusterDiscoveryType = DiscoveryType.STRICT_DNS ∧
      c.LoadAssignment =
        { ClusterName := sn ++ path
          Endpoints :=
            [{ LbEndpoints :=
                 lbEndpointsForKubeEndpoints e (portLoop svc.Ports s.ServicePort).1
               Priority := 1 }] } ∧
      (c.Http2ProtocolOptions.isSome = true ↔ (portLoop svc.Ports s.ServicePort).2 = true) := by
  obtain ⟨rule, hrule, p, hp, s, hs, e, svc, he, hsv, rfl, -, hpath, rfl⟩ :=
    mem_addIngressToCaches_addCluster env ing ldn index c sn sns path h
  refine ⟨rule, hrule, p, hp, s, hs, e, svc, he, hsv, rfl, hpath, ?_, ?_, ?_, ?_, ?_⟩
  · unfold clusterForRevision; split <;> rfl
  · unfold clusterForRevision; split <;> rfl
  · unfold clusterForRevision; split <;> rfl
  · unfold clusterForRevision; split <;> rfl
  · unfold clusterForRevision
    cases (portLoop svc.Ports s.ServicePort).2 <;> simp

/-- C18 at the cluster of the only split of an ingress, to the `h2c` port of
`foo`. -/
theorem emitted_cluster_shape_witness :
    CacheOp.AddCluster
        (clusterForRevision "foo" 5000000000
          [{ Protocol := SocketProtocol.TCP, Address := "10.0.0.1", PortValue := 8080
             Ipv4Compat := true }] true "/")
        "foo" "default" "/" ∈
      addIngressToCaches exampleEnv []
        (exampleIngress [exampleRule "a.example.com" [examplePath [exampleSplit "foo" 100]]])
        "cluster.local" 0 ∧
    ∃ rule ∈ (exampleIngress [exampleRule "a.example.com"
        [examplePath [exampleSplit "foo" 100]]]).Spec.Rules,
      ∃ p ∈ rule.HTTP.Paths, ∃ s ∈ p.Splits, "foo" = s.ServiceName := by
  have hmem : CacheOp.AddCluster
        (clusterForRevision "foo" 5000000000
          [{ Protocol := SocketProtocol.TCP, Address := "10.0.0.1", PortValue := 8080
             Ipv4Compat := true }] true "/")
        "foo" "default" "/" ∈
      addIngressToCaches exampleEnv []
        (exampleIngress [exampleRule "a.example.com" [examplePath [exampleSplit "foo" 100]]])
        "cluster.local" 0 := by decide
  obtain ⟨rule, hrule, p, hp, s, hs, -, -, -, -, h3, -⟩ :=
    emitted_cluster_shape exampleEnv
      (exampleIngress [exampleRule "a.example.com" [examplePath [exampleSplit "foo" 100]]])
      "cluster.local" 0 _ "foo" "default" "/" hmem
  exact ⟨hmem, rule, hrule, p, hp, s, hs, h3⟩

/-- C19: the route built by `createRouteForRevision` matches the prefix `/`
when the prefix string of the path is empty and the prefix string of the path
otherwise, which is never empty; so no route emitted by a translation, through
`AddRoute` or in a virtual host, has an empty prefix. -/
theorem route_prefix_never_empty (routeName : String) (i : Int) (httpPath : HTTPIngressPath)
    (wrs : List ClusterWeight) (env : Env) (ing : Ingress) (ldn : String) (index : Int) :
    (createRouteForRevision routeName i httpPath wrs).Prefix =
      (if httpPath.Path = "" then "/" else httpPath.Path) ∧
    (createRouteForRevision routeName i httpPath wrs).Prefix ≠ "" ∧
    ∀ r ∈ routesEmitted (addIngressToCaches env [] ing ldn index), r.Prefix ≠ "" := by
  have hne : ∀ (n : String) (j : Int) (p : HTTPIngressPath) (w : List ClusterWeight),
      (createRouteForRevision n j p w).Prefix ≠ "" := by
    intro n j p w
    simp only [createRouteForRevision]
    by_cases hp : p.Path = ""
    · simp [hp]
    · simp [hp]
  refine ⟨?_, hne _ _ _ _, ?_⟩
  · simp only [createRouteForRevision]
    by_cases hp : httpPath.Path = "" <;> simp [hp]
  · intro r hr
    obtain ⟨rule, -, p, -, rfl⟩ := mem_routesEmitted env ing ldn index r hr
    exact hne _ _ _ _

/-- C19 at the route of a path with an empty prefix string. -/
theorem route_prefix_never_empty_witness :
    createRouteForRevision "ing" 0 (examplePath []) [] ∈
      routesEmitted (addIngressToCaches exampleEnv []
        (exampleIngress [exampleRule "a.example.com" [examplePath []]]) "cluster.local" 0) ∧
    (createRouteForRevision "ing" 0 (examplePath []) []).Prefix = "/" ∧
    (createRouteForRevision "ing" 0 (examplePath []) []).Prefix ≠ "" :=
  ⟨by decide, by decide,
    (route_prefix_never_empty "ing" 0 (examplePath []) [] exampleEnv
      (exampleIngress [exampleRule "a.example.com" [examplePath []]]) "cluster.local" 0).2.2
      _ (by decide)⟩

/-! ## `SetSnapshotForClusterIngresses` -/

theorem foldl_invariant {σ α : Type} (P : σ → Prop) (f : σ → α → σ) (l : List α) (init : σ)
    (h0 : P init) (hstep : ∀ st x, x ∈ l → P st → P (f st x)) : P (l.foldl f init) := by
  induction l generalizing init with
  | nil => exact h0
  | cons x xs ih =>
    exact ih (f init x) (hstep init x (List.mem_cons_self _ _) h0)
      (fun st y hy hst => hstep st y (List.mem_cons_of_mem _ hy) hst)

/-- One rule adds one virtual host, named after the route and with the hosts
of the rule as domains. -/
theorem envoy_ruleBody_virtualHosts (kubeClient : envoy.KubernetesClient) (routeName : String)
    (i : Int) (st : envoy.Resources) (rule : IngressRule) :
    ∃ routes, (envoy.ruleBody kubeClient routeName i st rule).virtualHosts =
      st.virtualHosts ++ [{ Name := routeName, Domains := rule.Hosts, Routes := routes }] :=
  ⟨_, rfl⟩

/-- Every virtual host collected by `SetSnapshotForClusterIngresses` belongs
to a rule of one of the ingresses and has the hosts of that rule as domains. -/
theorem envoy_virtualHosts_domains (kubeClient : envoy.KubernetesClient)
    (Ingresses : List envoy.IngressAccessor) :
    ∀ vh ∈ (envoy.SetSnapshotForClusterIngresses kubeClient Ingresses).virtualHosts,
      ∃ ingress ∈ Ingresses, ∃ rule ∈ ingress.Spec.Rules,
        vh.Name = envoy.getRouteName ingress ∧ vh.Domains = rule.Hosts := by
  unfold envoy.SetSnapshotForClusterIngresses
  apply foldl_invariant
    (fun st : envoy.Resources × Int => ∀ vh ∈ st.1.virtualHosts,
      ∃ ingress ∈ Ingresses, ∃ rule ∈ ingress.Spec.Rules,
        vh.Name = envoy.getRouteName ingress ∧ vh.Domains = rule.Hosts)
  · intro vh hvh
    simp at hvh
  · intro st ingress hing hst
    simp only [envoy.ingressBody]
    apply foldl_invariant
      (fun r : envoy.Resources => ∀ vh ∈ r.virtualHosts,
        ∃ ingress ∈ Ingresses, ∃ rule ∈ ingress.Spec.Rules,
          vh.Name = envoy.getRouteName ingress ∧ vh.Domains = rule.Hosts)
    · exact hst
    · intro r rule hrule hr vh hvh
      obtain ⟨routes, heq⟩ :=
        envoy_ruleBody_virtualHosts kubeClient (envoy.getRouteName ingress) st.2 r rule
      rw [heq, List.mem_append, List.mem_singleton] at hvh
      rcases hvh with hvh | rfl
      · exact hr vh hvh
      · exact ⟨ingress, hing, rule, hrule, rfl, rfl⟩

/-- C20, refuted as stated: for an ingress with a rule without hosts,
`SetSnapshotForClusterIngresses` builds a virtual host whose domain list is
empty. -/
theorem rule_without_hosts_gives_empty_domains :
    (envoy.SetSnapshotForClusterIngresses envoy.exampleKubeClient
      [envoy.exampleAccessor
        [{ Hosts := [], Visibility := IngressVisibility.ExternalIP
           HTTP := { Paths := [] } }]]).virtualHosts =
      [{ Name := "r", Domains := [], Routes := [] }] := by
  decide

/-- C20, amended: the status virtual host has the single domain
`InternalKourierDomain`; every virtual host built by
`SetSnapshotForClusterIngresses` has the hosts of its rule as domains, so none
has an empty domain list when no rule has an empty host list; every internal
virtual host registered by `addIngressToCaches` has the domains
`InternalDomains(rule) ++ ExternalDomains(rule)` and every external one
`ExternalDomains(rule)` of an external rule. -/
theorem virtual_host_domains_follow_rule (kubeClient : envoy.KubernetesClient)
    (Ingresses : List envoy.IngressAccessor) (env : Env) (ing : Ingress) (ldn : String)
    (index : Int) (InternalKourierDomain : String) (ikrs : List DirectResponseRoute) :
    (internalKourierVirtualHost InternalKourierDomain ikrs).Domains =
      [InternalKourierDomain] ∧
    (internalKourierVirtualHost InternalKourierDomain ikrs).Domains ≠ [] ∧
    (∀ vh ∈ (envoy.SetSnapshotForClusterIngresses kubeClient Ingresses).virtualHosts,
      ∃ ingress ∈ Ingresses, ∃ rule ∈ ingress.Spec.Rules, vh.Domains = rule.Hosts) ∧
    ((∀ ingress ∈ Ingresses, ∀ rule ∈ ingress.Spec.Rules, rule.Hosts ≠ []) →
      ∀ vh ∈ (envoy.SetSnapshotForClusterIngresses kubeClient Ingresses).virtualHosts,
        vh.Domains ≠ []) ∧
    (∀ vh ∈ internalVirtualHostsAdded (addIngressToCaches env [] ing ldn index),
      ∃ rule ∈ ing.Spec.Rules,
        vh.Domains = env.InternalDomains rule ldn ++ env.ExternalDomains rule ldn) ∧
    (∀ vh ∈ externalVirtualHostsAdded (addIngressToCaches env [] ing ldn index),
      ∃ rule ∈ ing.Spec.Rules, env.RuleIsExternal rule ing.Spec.Visibility = true ∧
        vh.Domains = env.ExternalDomains rule ldn) := by
  obtain ⟨-, o2, o3⟩ := addIngressToCaches_observe env ing ldn index
  refine ⟨rfl, by simp [internalKourierVirtualHost], ?_, ?_, ?_, ?_⟩
  · intro vh hvh
    obtain ⟨ingress, hing, rule, hrule, -, hd⟩ :=
      envoy_virtualHosts_domains kubeClient Ingresses vh hvh
    exact ⟨ingress, hing, rule, hrule, hd⟩
  · intro hne vh hvh
    obtain ⟨ingress, hing, rule, hrule, -, hd⟩ :=
      envoy_virtualHosts_domains kubeClient Ingresses vh hvh
    rw [hd]
    exact hne ingress hing rule hrule
  · intro vh hvh
    rw [o2, List.mem_map] at hvh
    obtain ⟨rule, hrule, rfl⟩ := hvh
    exact ⟨rule, hrule, rfl⟩
  · intro vh hvh
    rw [o3, List.mem_map] at hvh
    obtain ⟨rule, hrule, rfl⟩ := hvh
    obtain ⟨h1, h2⟩ := List.mem_filter.1 hrule
    exact ⟨rule, h1, h2, rfl⟩

/-- C20, amended, at an ingress whose only rule has one host. -/
theorem virtual_host_domains_follow_rule_witness :
    (∀ ingress ∈ [envoy.exampleAccessor [exampleRule "a.example.com" []]],
      ∀ rule ∈ ingress.Spec.Rules, rule.Hosts ≠ []) ∧
    ({ Name := "r", Domains := ["a.example.com"], Routes := [] } : VirtualHost) ∈
      (envoy.SetSnapshotForClusterIngresses envoy.exampleKubeClient
        [envoy.exampleAccessor [exampleRule "a.example.com" []]]).virtualHosts ∧
    ({ Name := "r", Domains := ["a.example.com"], Routes := [] } : VirtualHost).Domains ≠ [] := by
  have hne : ∀ ingress ∈ [envoy.exampleAccessor [exampleRule "a.example.com" []]],
      ∀ rule ∈ ingress.Spec.Rules, rule.Hosts ≠ [] := by
    intro ingress hing rule hrule
    rw [List.mem_singleton] at hing
    subst hing
    simp only [envoy.exampleAccessor, List.mem_singleton] at hrule
    subst hrule
    decide
  have hmem : ({ Name := "r", Domains := ["a.example.com"], Routes := [] } : VirtualHost) ∈
      (envoy.SetSnapshotForClusterIngresses envoy.exampleKubeClient
        [envoy.exampleAccessor [exampleRule "a.example.com" []]]).virtualHosts := by decide
  exact ⟨hne, hmem,
    (virtual_host_domains_follow_rule envoy.exampleKubeClient
      [envoy.exampleAccessor [exampleRule "a.example.com" []]] exampleEnv
      (exampleIngress []) "cluster.local" 0 "internalkourier" []).2.2.2.1 hne _ hmem⟩

/-! ## The reconciler -/

/-- When `SetSnapshot` fails whenever it is called, `updateIngress` returns an
error and never reaches the prober. -/
theorem updateIngress_of_setSnapshot_fails (env : reconciler.Env) (ing : Ingress)
    (status : IngressStatus) (hs : ∀ s, env.SetSnapshot s ≠ none) :
    (reconciler.updateIngress env ing status).err ≠ none ∧
    reconciler.Call.IsReady ∉ (reconciler.updateIngress env ing status).calls ∧
    reconciler.Call.MarkIngressReady ∉ (reconciler.updateIngress env ing status).calls ∧
    reconciler.Call.UpdateStatus ∉ (reconciler.updateIngress env ing status).calls := by
  unfold reconciler.updateIngress
  cases h1 : env.UpdateInfoForIngress ing with
  | some e => simp
  | none =>
    cases h2 : env.ToEnvoySnapshot with
    | error e => simp
    | ok snapshot =>
      cases h3 : env.SetSnapshot snapshot with
      | some e => simp [h3]
      | none => exact absurd h3 (hs snapshot)

theorem deleteIngress_calls (env : reconciler.Env) (ns name : String) :
    reconciler.Call.IsReady ∉ (reconciler.deleteIngress env ns name).1 ∧
    reconciler.Call.MarkIngressReady ∉ (reconciler.deleteIngress env ns name).1 ∧
    reconciler.Call.UpdateStatus ∉ (reconciler.deleteIngress env ns name).1 ∧
    ((∀ s, env.SetSnapshot s ≠ none) →
      reconciler.Call.SetSnapshot ∈ (reconciler.deleteIngress env ns name).1 →
      (reconciler.deleteIngress env ns name).2 ≠ none) := by
  unfold reconciler.deleteIngress
  cases h0 : env.GetIngress name ns <;>
  cases h1 : env.DeleteIngressInfo name ns <;>
  cases h2 : env.ToEnvoySnapshot <;>
  simp <;>
  intro hs <;>
  exact hs _

/-- C21: when `SetSnapshot` returns an error, `updateIngress` returns that
error after the calls `UpdateInfoForIngress`, `ToEnvoySnapshot`, `SetSnapshot`
only, with the status untouched; a `Reconcile` that reaches `SetSnapshot` then
returns an error and makes no call to the prober, to `MarkIngressReady` or to
`UpdateStatus`; an error of `UpdateInfoForIngress` or of `ToEnvoySnapshot` is
returned before `SetSnapshot` is called. -/
theorem snapshot_error_ends_update (env : reconciler.Env) (ing : Ingress)
    (status : IngressStatus) (key err : String) (snapshot : Nat) :
    (env.UpdateInfoForIngress ing = none → env.ToEnvoySnapshot = .ok snapshot →
      env.SetSnapshot snapshot = some err →
      reconciler.updateIngress env ing status =
        { calls := [reconciler.Call.UpdateInfoForIngress, reconciler.Call.ToEnvoySnapshot,
            reconciler.Call.SetSnapshot]
          status := status, err := some err }) ∧
    ((∀ s, env.SetSnapshot s ≠ none) →
      reconciler.Call.SetSnapshot ∈ (reconciler.Reconcile env key).1 →
      (reconciler.Reconcile env key).2 ≠ none ∧
      reconciler.Call.IsReady ∉ (reconciler.Reconcile env key).1 ∧
      reconciler.Call.MarkIngressReady ∉ (reconciler.Reconcile env key).1 ∧
      reconciler.Call.UpdateStatus ∉ (reconciler.Reconcile env key).1) ∧
    (env.UpdateInfoForIngress ing = some err →
      reconciler.updateIngress env ing status =
        { calls := [reconciler.Call.UpdateInfoForIngress], status := status, err := some err }) ∧
    (env.UpdateInfoForIngress ing = none → env.ToEnvoySnapshot = .error err →
      reconciler.updateIngress env ing status =
        { calls := [reconciler.Call.UpdateInfoForIngress, reconciler.Call.ToEnvoySnapshot]
          status := status, err := some err }) := by
  refine ⟨?_, ?_, ?_, ?_⟩
  · intro h1 h2 h3
    simp [reconciler.updateIngress, h1, h2, h3]
  · intro hs hmem
    unfold reconciler.Reconcile at hmem ⊢
    cases hk : env.SplitMetaNamespaceKey key with
    | error e => rw [hk] at hmem; simp at hmem
    | ok nn =>
      obtain ⟨ns, name⟩ := nn
      rw [hk] at hmem
      simp only [] at hmem ⊢
      cases hg : env.Get ns name with
      | error e =>
        rw [hg] at hmem
        simp only [] at hmem ⊢
        by_cases hnf : e.IsNotFound = true
        · obtain ⟨d1, d2, d3, d4⟩ := deleteIngress_calls env ns name
          simp only [hnf, if_true] at hmem ⊢
          simp only [List.singleton_append, List.mem_cons] at hmem ⊢
          rcases hmem with hmem | hmem
          · cases hmem
          · refine ⟨d4 hs hmem, ?_, ?_, ?_⟩
            · rintro (h | h)
              · cases h
              · exact d1 h
            · rintro (h | h)
              · cases h
              · exact d2 h
            · rintro (h | h)
              · cases h
              · exact d3 h
        · simp [hnf] at hmem
      | ok os =>
        obtain ⟨original, originalStatus⟩ := os
        obtain ⟨u1, u2, u3, u4⟩ := updateIngress_of_setSnapshot_fails env original originalStatus hs
        simp only []
        cases he : (reconciler.updateIngress env original originalStatus).err with
        | none => exact absurd he u1
        | some e =>
          simp only [List.singleton_append, List.mem_cons]
          refine ⟨by simp, ?_, ?_, ?_⟩
          · rintro (h | h)
            · cases h
            · exact u2 h
          · rintro (h | h)
            · cases h
            · exact u3 h
          · rintro (h | h)
            · cases h
            · exact u4 h
  · intro h1
    simp [reconciler.updateIngress, h1]
  · intro h1 h2
    simp [reconciler.updateIngress, h1, h2]

/-- C21 at a reconciler whose xDS server rejects every snapshot. -/
theorem snapshot_error_ends_update_witness :
    reconciler.updateIngress reconciler.rejectingEnv (exampleIngress [])
        { ConditionsInitialized := false, LoadBalancerReady := false
          NetworkConfigured := false, ObservedGeneration := 0 } =
      { calls := [reconciler.Call.UpdateInfoForIngress, reconciler.Call.ToEnvoySnapshot,
          reconciler.Call.SetSnapshot]
        status := { ConditionsInitialized := false, LoadBalancerReady := false
                    NetworkConfigured := false, ObservedGeneration := 0 }
        err := some "rejected" } ∧
    (reconciler.Reconcile reconciler.rejectingEnv "default/ing").2 ≠ none :=
  ⟨(snapshot_error_ends_update reconciler.rejectingEnv (exampleIngress [])
      { ConditionsInitialized := false, LoadBalancerReady := false
        NetworkConfigured := false, ObservedGeneration := 0 }
      "default/ing" "rejected" 1).1 rfl rfl rfl,
    ((snapshot_error_ends_update reconciler.rejectingEnv (exampleIngress [])
      { ConditionsInitialized := false, LoadBalancerReady := false
        NetworkConfigured := false, ObservedGeneration := 0 }
      "default/ing" "rejected" 1).2.1 (fun _ h => nomatch h) (by decide)).1⟩

/-! ## Listeners -/

/-- C22: `useHTTPSListener` holds exactly when both certificate variables are
non-empty; then, when the secret is found, `newExternalEnvoyListener` reads
that one secret and returns what `NewHTTPSListener` builds on the external
HTTPS port from the fields `tls.crt` and `tls.key` of the secret; when
`useHTTPSListener` does not hold it reads no secret and returns what
`NewHTTPListener` builds on the external HTTP port. -/
theorem external_listener_follows_certificate_variables (env : ListenerEnv)
    (manager : HttpConnectionManager) :
    (useHTTPSListener env = true ↔
      (env.Getenv "CERTS_SECRET_NAMESPACE" ≠ "" ∧ env.Getenv "CERTS_SECRET_NAME" ≠ "")) ∧
    (∀ secret : Secret, useHTTPSListener env = true →
      env.GetSecret (env.Getenv "CERTS_SECRET_NAMESPACE") (env.Getenv "CERTS_SECRET_NAME") =
        .ok secret →
      newExternalEnvoyListener env manager =
        ([(env.Getenv "CERTS_SECRET_NAMESPACE", env.Getenv "CERTS_SECRET_NAME")],
          env.NewHTTPSListener manager env.HttpsPortExternal
            (secretField secret.Data "tls.crt") (secretField secret.Data "tls.key"))) ∧
    (useHTTPSListener env = false →
      newExternalEnvoyListener env manager =
        ([], env.NewHTTPListener manager env.HttpPortExternal)) := by
  refine ⟨?_, ?_, ?_⟩
  · simp [useHTTPSListener, envCertsSecretNamespace, envCertsSecretName]
  · intro secret hu hs
    have hs' : env.GetSecret (env.Getenv envCertsSecretNamespace)
        (env.Getenv envCertsSecretName) = .ok secret := hs
    simp only [newExternalEnvoyListener, hu, if_true, sslCreds, hs']
    rfl
  · intro hu
    simp [newExternalEnvoyListener, hu]

/-- C22 with both variables set and a secret holding both fields. -/
theorem external_listener_follows_certificate_variables_witness :
    useHTTPSListener (exampleListenerEnv httpsGetenv
      (fun _ _ => .ok { Data := [("tls.crt", "CHAIN"), ("tls.key", "KEY")] })) = true ∧
    newExternalEnvoyListener (exampleListenerEnv httpsGetenv
        (fun _ _ => .ok { Data := [("tls.crt", "CHAIN"), ("tls.key", "KEY")] }))
        { VirtualHosts := [] } =
      ([("certs", "tls")],
        .ok { Port := 8443, Manager := { VirtualHosts := [] }, Tls := some ("CHAIN", "KEY") }) :=
  ⟨by decide,
    (external_listener_follows_certificate_variables (exampleListenerEnv httpsGetenv
        (fun _ _ => .ok { Data := [("tls.crt", "CHAIN"), ("tls.key", "KEY")] }))
      { VirtualHosts := [] }).2.1
      { Data := [("tls.crt", "CHAIN"), ("tls.key", "KEY")] } (by decide) rfl⟩

/-- C23, refuted as stated: with HTTPS requested and a secret that holds
neither `tls.crt` nor `tls.key`, `sslCreds` returns two empty strings and no
error, and `newExternalEnvoyListener` hands them to `NewHTTPSListener`. -/
theorem secret_without_fields_gives_no_error :
    useHTTPSListener (exampleListenerEnv httpsGetenv (fun _ _ => .ok { Data := [] })) = true ∧
    (sslCreds (exampleListenerEnv httpsGetenv (fun _ _ => .ok { Data := [] }))).2 =
      ("", "", none) ∧
    (newExternalEnvoyListener (exampleListenerEnv httpsGetenv (fun _ _ => .ok { Data := [] }))
        { VirtualHosts := [] }).2 =
      (exampleListenerEnv httpsGetenv (fun _ _ => .ok { Data := [] })).NewHTTPSListener
        { VirtualHosts := [] } 8443 "" "" :=
  ⟨by decide, by decide, rfl⟩

/-- C23, amended: when HTTPS is requested and the secret cannot be fetched,
`sslCreds` returns the error of the lookup, `newExternalEnvoyListener` returns
that error and no listener, and `listenersFromVirtualHosts` panics with it. -/
theorem missing_secret_reports_error (env : ListenerEnv) (manager : HttpConnectionManager)
    (external clusterLocal : List VirtualHost) (err : String)
    (hu : useHTTPSListener env = true)
    (hs : env.GetSecret (env.Getenv "CERTS_SECRET_NAMESPACE") (env.Getenv "CERTS_SECRET_NAME") =
      .error err) :
    (sslCreds env).2 = ("", "", some err) ∧
    (newExternalEnvoyListener env manager).2 = .error err ∧
    listenersFromVirtualHosts env external clusterLocal = .error err := by
  have hs' : env.GetSecret (env.Getenv envCertsSecretNamespace)
      (env.Getenv envCertsSecretName) = .error err := hs
  have h1 : (sslCreds env).2 = ("", "", some err) := by simp [sslCreds, hs']
  have h2 : ∀ m, (newExternalEnvoyListener env m).2 = .error err := by
    intro m
    simp [newExternalEnvoyListener, hu, h1]
  refine ⟨h1, h2 manager, ?_⟩
  simp [listenersFromVirtualHosts, h2]

/-- C23, amended, with both variables set and no secret in the cluster. -/
theorem missing_secret_reports_error_witness :
    useHTTPSListener (exampleListenerEnv httpsGetenv (fun _ _ => .error "not found")) = true ∧
    listenersFromVirtualHosts (exampleListenerEnv httpsGetenv (fun _ _ => .error "not found"))
      [] [] = .error "not found" :=
  ⟨by decide,
    (missing_secret_reports_error (exampleListenerEnv httpsGetenv (fun _ _ => .error "not found"))
      { VirtualHosts := [] } [] [] "not found" (by decide) rfl).2.2⟩

/-- C24: `Hasher.ID` returns the id of a node unchanged and `unknown` for the
nil node. -/
theorem hasher_id_is_node_id (node : envoy.Node) :
    envoy.Hasher.ID (some node) = node.Id ∧ envoy.Hasher.ID none = "unknown" :=
  ⟨rfl, rfl⟩

/-! ## Status, routes and retry policies -/

/-- C25, refuted as stated: `markIngressReady` returns without error and
leaves the status untouched when the generation has already been observed,
although the load balancer is not marked ready, and when the status is already
ready, although the observed generation differs from the generation. -/
theorem mark_ready_skips_observed_or_ready_status :
    envoy.markIngressReady flagStatusMethods (fun _ _ => none) envoy.IngressKind.Ingress 1
        { ConditionsInitialized := false, LoadBalancerReady := false
          NetworkConfigured := false, ObservedGeneration := 1 } =
      ({ ConditionsInitialized := false, LoadBalancerReady := false
         NetworkConfigured := false, ObservedGeneration := 1 }, none) ∧
    envoy.markIngressReady flagStatusMethods (fun _ _ => none) envoy.IngressKind.Ingress 2
        { ConditionsInitialized := true, LoadBalancerReady := true
          NetworkConfigured := true, ObservedGeneration := 1 } =
      ({ ConditionsInitialized := true, LoadBalancerReady := true
         NetworkConfigured := true, ObservedGeneration := 1 }, none) := by
  decide

/-- C25, amended: for an ingress whose generation differs from the observed
generation of its status and whose status is not ready, `markIngressReady`
leaves the status with `InitializeConditions`, `MarkLoadBalancerReady` and
`MarkNetworkConfigured` applied in this order and the observed generation set
to the generation, and returns the error of the status update; for any other
ingress it returns no error and leaves the status as it was. -/
theorem mark_ready_updates_unobserved_unready_status (m : StatusMethods)
    (UpdateStatus : envoy.IngressKind → IngressStatus → Option String)
    (kind : envoy.IngressKind) (generation : Int) (status : IngressStatus) :
    (generation ≠ status.ObservedGeneration → m.IsReady status = false →
      (envoy.markIngressReady m UpdateStatus kind generation status).1 =
        { m.MarkNetworkConfigured (m.MarkLoadBalancerReady (m.InitializeConditions status)) with
          ObservedGeneration := generation } ∧
      (envoy.markIngressReady m UpdateStatus kind generation status).1.ObservedGeneration =
        generation ∧
      (kind ≠ envoy.IngressKind.Other →
        (envoy.markIngressReady m UpdateStatus kind generation status).2 =
          UpdateStatus kind (envoy.markIngressReady m UpdateStatus kind generation status).1)) ∧
    ((generation = status.ObservedGeneration ∨ m.IsReady status = true) →
      envoy.markIngressReady m UpdateStatus kind generation status = (status, none)) := by
  constructor
  · intro hg hr
    have hguard : generation ≠ status.ObservedGeneration ∧ ¬ (m.IsReady status = true) :=
      ⟨hg, by simp [hr]⟩
    cases kind <;> simp [envoy.markIngressReady, hguard]
  · intro h
    have hguard : ¬ (generation ≠ status.ObservedGeneration ∧ ¬ (m.IsReady status = true)) := by
      rcases h with h | h
      · exact fun hh => hh.1 h
      · exact fun hh => hh.2 h
    simp only [envoy.markIngressReady, if_neg hguard]

/-- C25, amended, at a status that is neither observed nor ready. -/
theorem mark_ready_updates_unobserved_unready_status_witness :
    (envoy.markIngressReady flagStatusMethods (fun _ _ => none) envoy.IngressKind.Ingress 2
        { ConditionsInitialized := false, LoadBalancerReady := false
          NetworkConfigured := false, ObservedGeneration := 1 }).1 =
      { ConditionsInitialized := true, LoadBalancerReady := true
        NetworkConfigured := true, ObservedGeneration := 2 } :=
  ((mark_ready_updates_unobserved_unready_status flagStatusMethods (fun _ _ => none)
      envoy.IngressKind.Ingress 2
      { ConditionsInitialized := false, LoadBalancerReady := false
        NetworkConfigured := false, ObservedGeneration := 1 }).1
    (by decide) (by decide)).1.trans (by decide)

/-- C26: the route built by `createRouteForRevision` of the generator carries
exactly the given weighted clusters, the timeout of the path, zero when the
path has none, and exactly one upgrade config, of type `websocket` and
enabled. -/
theorem route_action_timeout_and_websocket (routeName : String) (i : Int)
    (httpPath : HTTPIngressPath) (wrs : List ClusterWeight) :
    (createRouteForRevision routeName i httpPath wrs).Clusters = wrs ∧
    (createRouteForRevision routeName i httpPath wrs).Timeout =
      (match httpPath.Timeout with
       | some d => d
       | none => 0) ∧
    (httpPath.Timeout = none → (createRouteForRevision routeName i httpPath wrs).Timeout = 0) ∧
    (createRouteForRevision routeName i httpPath wrs).UpgradeConfigs =
      [{ UpgradeType := "websocket", Enabled := true }] := by
  refine ⟨rfl, rfl, ?_, rfl⟩
  intro h
  simp [createRouteForRevision, h]

/-- C26 at a path without timeout. -/
theorem route_action_timeout_and_websocket_witness :
    (createRouteForRevision "ing" 0 (examplePath []) []).Timeout = 0 :=
  (route_action_timeout_and_websocket "ing" 0 (examplePath []) []).2.2.1 rfl

/-- C27, refuted as stated: with `2^32` attempts the policy has zero retries. -/
theorem retries_wrap_at_uint32 :
    createRetryPolicyForRoute
        { Path := "", Splits := [], AppendHeaders := [], Timeout := none
          Retries := some { Attempts := 4294967296, PerTryTimeout := none } } =
      some { RetryOn := "5xx", NumRetries := 0, PerTryTimeout := 0 } := by
  decide

/-- C27, amended: `createRetryPolicyForRoute` returns no policy exactly when
the path has no retry configuration or its attempts are not positive;
otherwise the policy has `RetryOn = "5xx"`, `NumRetries = uint32(attempts)`,
which is `attempts` when `attempts < 2^32`, and the configured per-try
timeout, zero when none is configured. -/
theorem retry_policy_follows_attempts (httpPath : HTTPIngressPath) :
    (createRetryPolicyForRoute httpPath = none ↔
      (httpPath.Retries = none ∨ ∃ r, httpPath.Retries = some r ∧ r.Attempts ≤ 0)) ∧
    (∀ r, httpPath.Retries = some r → 0 < r.Attempts →
      createRetryPolicyForRoute httpPath =
        some { RetryOn := "5xx"
               NumRetries := r.Attempts % 2 ^ 32
               PerTryTimeout :=
                 (match r.PerTryTimeout with
                  | some d => d
                  | none => 0) } ∧
      (r.Attempts < 2 ^ 32 → r.Attempts % 2 ^ 32 = r.Attempts)) := by
  constructor
  · cases hr : httpPath.Retries with
    | none => simp [createRetryPolicyForRoute, hr]
    | some r =>
      by_cases ha : r.Attempts > 0
      · simp [createRetryPolicyForRoute, hr, ha]
      · simp only [createRetryPolicyForRoute, hr, if_neg ha]
        simp only [Option.some.injEq, false_or, exists_eq_left', true_iff]
        omega
  · intro r hr ha
    refine ⟨?_, fun hlt => Int.emod_eq_of_lt (le_of_lt ha) hlt⟩
    have ha' : r.Attempts > 0 := ha
    simp only [createRetryPolicyForRoute, hr, if_pos ha', toUint32]
    rfl

/-- C27, amended, at three attempts with a per-try timeout of one second. -/
theorem retry_policy_follows_attempts_witness :
    createRetryPolicyForRoute
        { Path := "", Splits := [], AppendHeaders := [], Timeout := none
          Retries := some { Attempts := 3, PerTryTimeout := some 1000000000 } } =
      some { RetryOn := "5xx", NumRetries := 3, PerTryTimeout := 1000000000 } :=
  ((retry_policy_follows_attempts
      { Path := "", Splits := [], AppendHeaders := [], Timeout := none
        Retries := some { Attempts := 3, PerTryTimeout := some 1000000000 } }).2
    { Attempts := 3, PerTryTimeout := some 1000000000 } rfl (by decide)).1.trans (by decide)

/-! ## Port selection and status hashes -/

/-- The port loop ends with the values of the last matching port. -/
theorem portLoop_of_last_match (sp : IntOrString) (l1 l2 : List ServicePort) (p : ServicePort)
    (hp : portMatches sp p) (h2 : ∀ q ∈ l2, ¬ portMatches sp q) :
    portLoop (l1 ++ p :: l2) sp =
      (p.TargetPort.IntVal, decide (p.Name = "http2" ∨ p.Name = "h2c")) := by
  have hp' : p.Port = sp.IntVal ∨ p.Name = sp.StrVal := hp
  unfold portLoop
  rw [List.foldl_append, List.foldl_cons, if_pos hp', portLoop_foldl_of_no_match sp l2 _ h2]

/-- The port loop on a port list without matching port. -/
theorem portLoop_of_no_match (sp : IntOrString) (ports : List ServicePort)
    (h : ∀ q ∈ ports, ¬ portMatches sp q) : portLoop ports sp = (0, false) := by
  unfold portLoop
  exact portLoop_foldl_of_no_match sp ports _ h

/-- C28: the port loop yields the target port and the HTTP/2 flag of the last
port of the service, in list order, that matches the port reference of the
split by number or by name; when no port matches it yields target port 0 and
no HTTP/2, and the iteration still emits the cluster and the weighted entry,
in `addIngressToCaches` and in `SetSnapshotForClusterIngresses`; for a port
reference with an empty name, a later port with an empty name overrides the
port whose number matched. -/
theorem port_loop_takes_last_match (sp : IntOrString) (l1 l2 l3 : List ServicePort)
    (p q : ServicePort) (env : Env) (ing : Ingress) (path : String) (st : SplitState)
    (kubeClient : envoy.KubernetesClient) (est : envoy.SplitState)
    (s : IngressBackendSplit) :
    (portMatches sp p → (∀ x ∈ l2, ¬ portMatches sp x) →
      portLoop (l1 ++ p :: l2) sp =
        (p.TargetPort.IntVal, decide (p.Name = "http2" ∨ p.Name = "h2c"))) ∧
    ((∀ x ∈ l1, ¬ portMatches sp x) → portLoop l1 sp = (0, false)) ∧
    (∀ (e : Endpoints) (svc : Service),
      env.endpoints s.ServiceNamespace s.ServiceName = .ok e →
      (∀ track, env.tracker = some track →
        track { Kind := "Endpoints", APIVersion := "v1"
                Namespace := ing.Namespace, Name := s.ServiceName } ing = none) →
      env.services s.ServiceNamespace s.ServiceName = .ok svc →
      (∀ x ∈ svc.Ports, ¬ portMatches s.ServicePort x) →
      splitBody env ing path st s =
        some
          { caches := st.caches ++
              [CacheOp.AddCluster
                (clusterForRevision s.ServiceName 5000000000
                  (lbEndpointsForKubeEndpoints e 0) false path)
                s.ServiceName s.ServiceNamespace path]
            wrs := st.wrs ++
              [weightedCluster s.ServiceName (toUint32 s.Percent) path s.AppendHeaders] }) ∧
    (∀ (e : envoy.EndpointsList) (svc : Service),
      kubeClient.EndpointsForRevision s.ServiceNamespace s.ServiceName = .ok e →
      kubeClient.ServiceForRevision s.ServiceNamespace s.ServiceName = .ok svc →
      (∀ x ∈ svc.Ports, ¬ portMatches s.ServicePort x) →
      envoy.splitBody kubeClient path est s =
        some
          { clusterCache := est.clusterCache ++
              [envoy.clusterForRevision s.ServiceName 5000000000
                (envoy.lbEndpointsForKubeEndpoints e 0) false path]
            wrs := est.wrs ++
              [weightedCluster s.ServiceName (toUint32 s.Percent) path s.AppendHeaders] }) ∧
    (sp.StrVal = "" → p.Port = sp.IntVal → q.Name = "" → (∀ x ∈ l3, ¬ portMatches sp x) →
      portLoop (l1 ++ p :: l2 ++ q :: l3) sp = (q.TargetPort.IntVal, false)) := by
  refine ⟨fun hp h2 => portLoop_of_last_match sp l1 l2 p hp h2,
    fun h => portLoop_of_no_match sp l1 h, ?_, ?_, ?_⟩
  · intro e svc he ht hs hno
    rw [splitBody_of_lookups env ing path st s e svc he ht hs,
      portLoop_of_no_match s.ServicePort svc.Ports hno]
  · intro e svc he hs hno
    simp only [envoy.splitBody, he, hs, portLoop_of_no_match s.ServicePort svc.Ports hno]
    rfl
  · intro hstr _ hq h3
    have hm : portMatches sp q := Or.inr (by rw [hq, hstr])
    have e : l1 ++ p :: l2 ++ q :: l3 = (l1 ++ p :: l2) ++ q :: l3 := by simp
    rw [e, portLoop_of_last_match sp (l1 ++ p :: l2) l3 q hm h3, hq]
    rfl

/-- C28 at a split to port 80 of a service whose port 80 is followed by an
unnamed port 9090. -/
theorem port_loop_takes_last_match_witness :
    portLoop
        [{ Name := "http", Port := 80, TargetPort := { IntVal := 8080, StrVal := "" } },
         { Name := "", Port := 9090, TargetPort := { IntVal := 9091, StrVal := "" } }]
        { IntVal := 80, StrVal := "" } = (9091, false) :=
  (port_loop_takes_last_match { IntVal := 80, StrVal := "" } [] [] []
    { Name := "http", Port := 80, TargetPort := { IntVal := 8080, StrVal := "" } }
    { Name := "", Port := 9090, TargetPort := { IntVal := 9091, StrVal := "" } }
    exampleEnv (exampleIngress []) "/" { caches := [], wrs := [] }
    envoy.exampleKubeClient { clusterCache := [], wrs := [] } (exampleSplit "foo" 100)).2.2.2.2
    rfl rfl rfl (by simp)

theorem stringBytes_append (a b : String) :
    stringBytes (a ++ b) = stringBytes a ++ stringBytes b := by
  simp [stringBytes, String.data_append]

/-- C29: two ingresses with the same spec whose namespace bytes followed by
name bytes are the same byte string get the same result from `ComputeHash`,
and `internalKourierRoutes` gives them the same status routes. -/
theorem hash_depends_on_concatenation (jsonMarshal : IngressSpec → Except String (List Nat))
    (Sum256 : List Nat → List Nat) (ing1 ing2 : Ingress)
    (InternalKourierDomain InternalKourierPath : String)
    (hspec : ing1.Spec = ing2.Spec)
    (hcat : stringBytes ing1.Namespace ++ stringBytes ing1.Name =
      stringBytes ing2.Namespace ++ stringBytes ing2.Name) :
    ComputeHash jsonMarshal Sum256 ing1 = ComputeHash jsonMarshal Sum256 ing2 ∧
    internalKourierRoutes InternalKourierDomain InternalKourierPath
        (computeIngressHashFrom jsonMarshal Sum256) [ing1] =
      internalKourierRoutes InternalKourierDomain InternalKourierPath
        (computeIngressHashFrom jsonMarshal Sum256) [ing2] := by
  have h : ComputeHash jsonMarshal Sum256 ing1 = ComputeHash jsonMarshal Sum256 ing2 := by
    unfold ComputeHash
    rw [hspec]
    cases jsonMarshal ing2.Spec with
    | error e => rfl
    | ok bytes =>
      simp only [List.append_assoc]
      rw [hcat]
  refine ⟨h, ?_⟩
  simp only [internalKourierRoutes, hashLoop, computeIngressHashFrom, h]

/-- C29 at the ingresses `ab/c` and `a/bc` with the same spec. -/
theorem hash_depends_on_concatenation_witness :
    ComputeHash (fun _ => .ok [123, 125]) (fun bytes => bytes)
        { Name := "c", Namespace := "ab"
          Spec := { Rules := [], Visibility := IngressVisibility.ExternalIP } } =
      ComputeHash (fun _ => .ok [123, 125]) (fun bytes => bytes)
        { Name := "bc", Namespace := "a"
          Spec := { Rules := [], Visibility := IngressVisibility.ExternalIP } } :=
  (hash_depends_on_concatenation (fun _ => .ok [123, 125]) (fun bytes => bytes)
    { Name := "c", Namespace := "ab"
      Spec := { Rules := [], Visibility := IngressVisibility.ExternalIP } }
    { Name := "bc", Namespace := "a"
      Spec := { Rules := [], Visibility := IngressVisibility.ExternalIP } }
    "internalkourier" "/__internalkouriersnapshot" rfl (by decide)).1

/-- The hash loop stops at the first ingress whose hash cannot be computed. -/
theorem hashLoop_of_failure (ComputeIngressHash : Ingress → Except String (List Nat))
    (before after : List Ingress) (failing : Ingress) (hashes : List (List Nat))
    (acc : List String) (err : String)
    (h : List.Forall₂ (fun ing hash => ComputeIngressHash ing = .ok hash) before hashes)
    (hf : ComputeIngressHash failing = .error err) :
    hashLoop ComputeIngressHash (before ++ failing :: after) acc =
      acc ++ hashes.map hexEncode := by
  induction h generalizing acc with
  | nil => simp [hashLoop, hf]
  | cons hab _ ih =>
    simp only [List.cons_append, hashLoop, hab, List.map_cons]
    refine (ih _).trans ?_
    simp [List.append_assoc]

/-- C30: when the hashes of the ingresses at positions `0..k-1` compute and
the hash of the ingress at position `k` fails, `internalKourierRoutes` returns
the status routes of the ingresses at positions `0..k-1`, none for the
ingresses from position `k` on, and then the fallback route: `k + 1` routes. -/
theorem hash_failure_cuts_status_routes (InternalKourierDomain InternalKourierPath : String)
    (ComputeIngressHash : Ingress → Except String (List Nat))
    (before after : List Ingress) (failing : Ingress) (hashes : List (List Nat)) (err : String)
    (h : List.Forall₂ (fun ing hash => ComputeIngressHash ing = .ok hash) before hashes)
    (hf : ComputeIngressHash failing = .error err) :
    internalKourierRoutes InternalKourierDomain InternalKourierPath ComputeIngressHash
        (before ++ failing :: after) =
      hashes.map (fun hash =>
        ({ Name := InternalKourierDomain ++ "_" ++ hexEncode hash
           Path := InternalKourierPath ++ "/" ++ hexEncode hash
           Status := 200 } : DirectResponseRoute)) ++
      [{ Name := InternalKourierDomain, Path := InternalKourierPath, Status := 200 }] ∧
    (internalKourierRoutes InternalKourierDomain InternalKourierPath ComputeIngressHash
        (before ++ failing :: after)).length = before.length + 1 := by
  have heq : internalKourierRoutes InternalKourierDomain InternalKourierPath ComputeIngressHash
      (before ++ failing :: after) =
      hashes.map (fun hash =>
        ({ Name := InternalKourierDomain ++ "_" ++ hexEncode hash
           Path := InternalKourierPath ++ "/" ++ hexEncode hash
           Status := 200 } : DirectResponseRoute)) ++
      [{ Name := InternalKourierDomain, Path := InternalKourierPath, Status := 200 }] := by
    unfold internalKourierRoutes
    simp only [hashLoop_of_failure ComputeIngressHash before after failing hashes [] err h hf,
      foldl_append_singleton, List.nil_append, List.map_map]
    rfl
  refine ⟨heq, ?_⟩
  rw [heq]
  simp [h.length_eq]

/-- C30 at three ingresses of which the second cannot be hashed. -/
theorem hash_failure_cuts_status_routes_witness :
    internalKourierRoutes "internalkourier" "/__internalkouriersnapshot"
        (fun ing => if ing.Spec.Rules = [] then .ok [1, 171] else .error "unsupported")
        ([exampleIngress []] ++ exampleIngress [exampleRule "a.example.com" []] ::
          [exampleIngress []]) =
      [{ Name := "internalkourier_01ab", Path := "/__internalkouriersnapshot/01ab"
         Status := 200 },
       { Name := "internalkourier", Path := "/__internalkouriersnapshot", Status := 200 }] :=
  (hash_failure_cuts_status_routes "internalkourier" "/__internalkouriersnapshot"
    (fun ing => if ing.Spec.Rules = [] then .ok [1, 171] else .error "unsupported")
    [exampleIngress []] [exampleIngress []] (exampleIngress [exampleRule "a.example.com" []])
    [[1, 171]] "unsupported"
    (List.Forall₂.cons rfl List.Forall₂.nil) rfl).1.trans (by decide)

end Kourier
